import Mathlib

/-!
# ColorConverter: YUV to RGB565 conversion

A shallow embedding of `media/libstagefright/colorconversion/ColorConverter.cpp`.

Modelling conventions.

* A raw buffer (`void *`) is a total map from byte offsets to bytes.  Pointers into a
  buffer are offsets from its base; a `uint16_t *` element index `i` denotes the two
  bytes at `2*i` and `2*i+1` (little-endian), and the 32-bit paired store writes four
  consecutive bytes.
* `signed` values are integers; `/` on them is C division, truncating toward zero
  (`Int.tdiv`).  The intermediates are far below `2^31`, so no signed overflow occurs.
* `size_t` values are natural numbers.  Subtraction, the one `size_t` operation that
  wraps on inputs a caller can pass (empty or inverted rectangles, zero sizes), is
  modelled modulo `2^64` (`subSz`).  Sums and products of sizes are exact, which is
  faithful whenever the offsets fit in `size_t`, as they do for buffers that exist in
  memory.
* Loops are `forLoop`, a counted loop whose fuel is the loop bound.
* A failed `CHECK` aborts the process: functions that contain one return `Option`,
  with `none` for the abort.
-/

namespace android

/-! ## Memory -/

/-- One `uint8_t`. -/
abbrev Byte := Fin 256

/-- A raw buffer, addressed by byte offset from its base pointer. -/
abbrev Mem := Nat → Byte

/-- Conversion of an integer value to `uint8_t`. -/
def toByte (v : Nat) : Byte := ⟨v % 256, Nat.mod_lt v (by decide)⟩

/-- Read of a `uint8_t` at byte offset `a`. -/
def load8 (m : Mem) (a : Nat) : Nat := (m a).val

/-- Store of a `uint8_t` at byte offset `a`. -/
def store8 (m : Mem) (a v : Nat) : Mem := fun i => if i = a then toByte v else m i

/-- Store `p[i] = v` through a `uint16_t *p` at the buffer base (little-endian). -/
def store16 (m : Mem) (i v : Nat) : Mem :=
  store8 (store8 m (2 * i) v) (2 * i + 1) (v >>> 8)

/-- Store `*(uint32_t *)(&p[i]) = v` through a `uint16_t *p` at the buffer base
(little-endian). -/
def store32 (m : Mem) (i v : Nat) : Mem :=
  store8 (store8 (store8 (store8 m (2 * i) v) (2 * i + 1) (v >>> 8))
    (2 * i + 2) (v >>> 16)) (2 * i + 3) (v >>> 24)

/-- The 16-bit pixel at element index `i` of a buffer viewed as `uint16_t[]`. -/
def load16 (m : Mem) (i : Nat) : Nat := load8 m (2 * i) + 256 * load8 m (2 * i + 1)

/-! ## size_t arithmetic and loops -/

/-- Number of values of `size_t`. -/
def SIZE_MOD : Nat := 2 ^ 64

/-- The `size_t` subtraction `a - b`. -/
def subSz (a b : Nat) : Nat := (a + SIZE_MOD - b) % SIZE_MOD

/-- The expression `x & ~1` on `size_t`: clears bit 0. -/
def andNot1 (x : Nat) : Nat := x - x % 2

/-- The expression `x & ~3` on `size_t`: clears bits 0 and 1. -/
def andNot3 (x : Nat) : Nat := x - x % 4

/-- The loop `for (i = start; i < n; i += step) s = body i s`; the first explicit
argument is the fuel, the second the start value. -/
def forLoop {σ : Type} (n step : Nat) (body : Nat → σ → σ) : Nat → Nat → σ → σ
  | 0, _, s => s
  | fuel + 1, i, s => if i < n then forLoop n step body fuel (i + step) (body i s) else s

/-! ## Status codes, formats, converter state -/

/-- The two `status_t` values the converter returns. -/
inductive status_t where
  | OK
  | ERROR_UNSUPPORTED
  deriving DecidableEq, Repr

/-- The `OMX_COLOR_FORMATTYPE` enumerators the converter switches on.  Their numeric
values are fixed by the OpenMAX headers, which are outside this file, so they are
parameters of the embedding. -/
structure OMXFormats where
  OMX_COLOR_Format16bitRGB565 : Nat
  OMX_COLOR_FormatYUV420Planar : Nat
  OMX_COLOR_FormatCbYCrY : Nat
  OMX_QCOM_COLOR_FormatYVU420SemiPlanar : Nat
  OMX_COLOR_FormatYUV420SemiPlanar : Nat
  OMX_TI_COLOR_FormatYUV420PackedSemiPlanar : Nat

/-- The enumerator defined at the top of the file. -/
def QOMX_COLOR_FormatYUV420PackedSemiPlanar64x32Tile2m8ka : Nat := 0x7FA30C03

def NV12TILE_BLOCK_WIDTH : Nat := 64

def NV12TILE_BLOCK_HEIGHT : Nat := 32

def NV12TILE_BLOCK_SIZE : Nat := NV12TILE_BLOCK_WIDTH * NV12TILE_BLOCK_HEIGHT

def NV12TILE_BLOCK_GROUP_SIZE : Nat := NV12TILE_BLOCK_SIZE * 4

/-- The converter object: the two configured formats and the lazily built clip table
(`none` is the `NULL` pointer). -/
structure ColorConverter where
  mSrcFormat : Nat
  mDstFormat : Nat
  mClip : Option (List Nat)

/-- The constructor: stores the formats, `mClip(NULL)`. -/
def ColorConverter.create (srcFormat dstFormat : Nat) : ColorConverter :=
  ⟨srcFormat, dstFormat, none⟩

/-- The `isValid` query (a `const` member function, hence a pure function of the
converter). -/
def ColorConverter.isValid (k : OMXFormats) (c : ColorConverter) : Bool :=
  if c.mDstFormat ≠ k.OMX_COLOR_Format16bitRGB565 then false
  else if c.mSrcFormat = k.OMX_COLOR_FormatYUV420Planar then true
  else if c.mSrcFormat = k.OMX_COLOR_FormatCbYCrY then true
  else if c.mSrcFormat = k.OMX_QCOM_COLOR_FormatYVU420SemiPlanar then true
  else if c.mSrcFormat = k.OMX_COLOR_FormatYUV420SemiPlanar then true
  else if c.mSrcFormat = k.OMX_TI_COLOR_FormatYUV420PackedSemiPlanar then true
  else if c.mSrcFormat = QOMX_COLOR_FormatYUV420PackedSemiPlanar64x32Tile2m8ka then true
  else false

/-- A bitmap descriptor: buffer, full size, inclusive crop rectangle. -/
structure BitmapParams where
  mBits : Mem
  mWidth : Nat
  mHeight : Nat
  mCropLeft : Nat
  mCropTop : Nat
  mCropRight : Nat
  mCropBottom : Nat

/-- The member `cropWidth()`: `mCropRight - mCropLeft + 1` in `size_t`. -/
def BitmapParams.cropWidth (p : BitmapParams) : Nat :=
  (subSz p.mCropRight p.mCropLeft + 1) % SIZE_MOD

/-- The member `cropHeight()`: `mCropBottom - mCropTop + 1` in `size_t`. -/
def BitmapParams.cropHeight (p : BitmapParams) : Nat :=
  (subSz p.mCropBottom p.mCropTop + 1) % SIZE_MOD

/-! ## Clip table -/

def kClipMin : Int := -278

def kClipMax : Int := 535

/-- The fill loop of `initClip`:
`for (i = kClipMin; i <= kClipMax; ++i) mClip[i - kClipMin] = (i < 0) ? 0 : (i > 255) ? 255 : (uint8_t)i`. -/
def initClipLoop : Nat → Int → List Nat → List Nat
  | 0, _, t => t
  | fuel + 1, i, t =>
    if i ≤ kClipMax then
      initClipLoop fuel (i + 1)
        (t.set (i - kClipMin).toNat (if i < 0 then 0 else if i > 255 then 255 else i.toNat % 256))
    else t

/-- The array `new uint8_t[kClipMax - kClipMin + 1]` after the fill loop. -/
def clipTable : List Nat :=
  initClipLoop (kClipMax - kClipMin + 1).toNat kClipMin
    (List.replicate (kClipMax - kClipMin + 1).toNat 0)

/-- The function `initClip`: builds the table on first use, returns the converter
with its table pointer set, together with the table that `&mClip[-kClipMin]` points
into. -/
def ColorConverter.initClip (c : ColorConverter) : ColorConverter × List Nat :=
  match c.mClip with
  | none => (⟨c.mSrcFormat, c.mDstFormat, some clipTable⟩, clipTable)
  | some t => (c, t)

/-- The lookup `kAdjustedClip[i]`, where `kAdjustedClip = &mClip[-kClipMin]`.  An index
outside the table (undefined behaviour in the source) reads as 0. -/
def kAdjustedClipAt (t : List Nat) (i : Int) : Nat :=
  if kClipMin ≤ i then t.getD (i - kClipMin).toNat 0 else 0

/-! ## Colour arithmetic (repeated verbatim in every converter of the source) -/

/-- The intermediate `b = (tmp + u_b) / 256` with `tmp = y * 298`, `u_b = u * 517`. -/
def chanB (y u : Int) : Int :=
  let u_b := u * 517
  let tmp := y * 298
  Int.tdiv (tmp + u_b) 256

/-- The intermediate `g = (tmp + v_g + u_g) / 256` with `u_g = -u * 100`,
`v_g = -v * 208`. -/
def chanG (y u v : Int) : Int :=
  let u_g := -u * 100
  let v_g := -v * 208
  let tmp := y * 298
  Int.tdiv (tmp + v_g + u_g) 256

/-- The intermediate `r = (tmp + v_r) / 256` with `v_r = v * 409`. -/
def chanR (y v : Int) : Int :=
  let v_r := v * 409
  let tmp := y * 298
  Int.tdiv (tmp + v_r) 256

/-- The packing `((r >> 3) << 11) | ((g >> 2) << 5) | (b >> 3)` of three clipped
channels, written here for the channel that goes to the top, middle and bottom bits. -/
def packBits (hi mid lo : Nat) : Nat :=
  ((hi >>> 3) <<< 11) ||| ((mid >>> 2) <<< 5) ||| (lo >>> 3)

/-- The packing
`((kAdjustedClip[hi] >> 3) << 11) | ((kAdjustedClip[mid] >> 2) << 5) | (kAdjustedClip[lo] >> 3)`. -/
def pack565 (t : List Nat) (hi mid lo : Int) : Nat :=
  packBits (kAdjustedClipAt t hi) (kAdjustedClipAt t mid) (kAdjustedClipAt t lo)

/-- One pixel of the converters that put `r` in the top bits, from its luma byte and the
two chroma bytes: `y = Y - 16`, `u = U - 128`, `v = V - 128`, then the three
intermediates, clipped and packed. -/
def pixRGB (t : List Nat) (Y U V : Nat) : Nat :=
  let y : Int := (Y : Int) - 16
  let u : Int := (U : Int) - 128
  let v : Int := (V : Int) - 128
  pack565 t (chanR y v) (chanG y u v) (chanB y u)

/-- One pixel of the converters that put `b` in the top bits. -/
def pixBGR (t : List Nat) (Y U V : Nat) : Nat :=
  let y : Int := (Y : Int) - 16
  let u : Int := (U : Int) - 128
  let v : Int := (V : Int) - 128
  pack565 t (chanB y u) (chanG y u v) (chanR y v)

/-- The pair `(rgb1, rgb2)` of two horizontally adjacent pixels that share their chroma
sample, `r` in the top bits. -/
def pairRGB (t : List Nat) (Y1 Y2 U V : Nat) : Nat × Nat :=
  (pixRGB t Y1 U V, pixRGB t Y2 U V)

/-- The pair `(rgb1, rgb2)` with `b` in the top bits. -/
def pairBGR (t : List Nat) (Y1 Y2 U V : Nat) : Nat × Nat :=
  (pixBGR t Y1 U V, pixBGR t Y2 U V)

/-! ## Tiled address translation -/

/-- The function `nv12TileGetTiledMemBlockNum`. -/
def nv12TileGetTiledMemBlockNum (bx by_ nbx nby : Nat) : Nat :=
  if (by_ &&& 1) = 0 then
    let base := by_ * nbx
    if (nby &&& 1) ≠ 0 ∧ by_ = subSz nby 1 then
      base + bx
    else
      base + (bx + andNot3 (bx + 2))
  else
    let base := andNot1 by_ * nbx + 2
    base + (bx + andNot3 bx)

/-! ## The cropping converters -/

/-- The geometry test at the head of each cropping converter. -/
def cropSupported (src dst : BitmapParams) : Bool :=
  decide ((src.mCropLeft &&& 1) = 0 ∧ src.cropWidth = dst.cropWidth
    ∧ src.cropHeight = dst.cropHeight)

/-- The store that ends the inner loop body: the 32-bit paired store
`*(uint32_t *)(&dst_ptr[x]) = (rgb2 << 16) | rgb1` when `x + 1 < cropWidth`, else the
single store `dst_ptr[x] = rgb1`. -/
def storePair (m : Mem) (dst_ptr x cropWidth rgb1 rgb2 : Nat) : Mem :=
  if x + 1 < cropWidth then store32 m (dst_ptr + x) ((rgb2 <<< 16) ||| rgb1)
  else store16 m (dst_ptr + x) rgb1

/-- State of the row loop: destination buffer, `dst_ptr` (a `uint16_t` index) and the
source row pointers. -/
structure RowState (σ : Type) where
  out : Mem
  dst_ptr : Nat
  ptrs : σ

/-- The traversal shared by the five cropping converters:
`for (y = 0; y < cropHeight; ++y) { for (x = 0; x < cropWidth; x += 2) { ... store }
 advance the source pointers; dst_ptr += dst.mWidth; }`.
`pair p x` is the pair `(rgb1, rgb2)` computed at column `x` from the row pointers `p`;
`next y p` is the pointer update at the end of row `y`. -/
def cropLoop {σ : Type} (cw ch dstWidth : Nat) (pair : σ → Nat → Nat × Nat)
    (next : Nat → σ → σ) (s0 : RowState σ) : RowState σ :=
  forLoop ch 1
    (fun y s =>
      ⟨forLoop cw 2
          (fun x m => storePair m s.dst_ptr x cw (pair s.ptrs x).1 (pair s.ptrs x).2)
          cw 0 s.out,
        s.dst_ptr + dstWidth,
        next y s.ptrs⟩)
    ch 0 s0

/-- Row pointers of the planar converter. -/
structure PlanarPtrs where
  src_y : Nat
  src_u : Nat
  src_v : Nat

/-- Row pointers of the semi-planar converters. -/
structure SemiPtrs where
  src_y : Nat
  src_u : Nat

/-- Inner loop body of `convertYUV420Planar`, up to the store. -/
def planarPair (t : List Nat) (src : Mem) (p : PlanarPtrs) (x : Nat) : Nat × Nat :=
  pairRGB t (load8 src (p.src_y + x)) (load8 src (p.src_y + (x + 1)))
    (load8 src (p.src_u + x / 2)) (load8 src (p.src_v + x / 2))

/-- End of a row of `convertYUV420Planar`:
`src_y += src.mWidth; if (y & 1) { src_u += src.mWidth / 2; src_v += src.mWidth / 2; }`. -/
def planarNext (srcWidth : Nat) (y : Nat) (p : PlanarPtrs) : PlanarPtrs :=
  ⟨p.src_y + srcWidth,
    if (y &&& 1) ≠ 0 then p.src_u + srcWidth / 2 else p.src_u,
    if (y &&& 1) ≠ 0 then p.src_v + srcWidth / 2 else p.src_v⟩

/-- The function `convertYUV420Planar`: status, converter afterwards, destination
buffer afterwards. -/
def ColorConverter.convertYUV420Planar (c : ColorConverter) (src dst : BitmapParams) :
    status_t × ColorConverter × Mem :=
  if ¬ cropSupported src dst then (status_t.ERROR_UNSUPPORTED, c, dst.mBits)
  else
    let ck := c.initClip
    let dst_ptr := dst.mCropTop * dst.mWidth + dst.mCropLeft
    let src_y := src.mCropTop * src.mWidth + src.mCropLeft
    let src_u := src_y + src.mWidth * src.mHeight
      + src.mCropTop * (src.mWidth / 2) + src.mCropLeft / 2
    let src_v := src_u + (src.mWidth / 2) * (src.mHeight / 2)
    let fin := cropLoop src.cropWidth src.cropHeight dst.mWidth
      (planarPair ck.2 src.mBits) (planarNext src.mWidth)
      ⟨dst.mBits, dst_ptr, ⟨src_y, src_u, src_v⟩⟩
    (status_t.OK, ck.1, fin.out)

/-- Inner loop body of `convertCbYCrY`, up to the store. -/
def cbycryPair (t : List Nat) (src : Mem) (src_ptr : Nat) (x : Nat) : Nat × Nat :=
  pairRGB t (load8 src (src_ptr + (2 * x + 1))) (load8 src (src_ptr + (2 * x + 3)))
    (load8 src (src_ptr + 2 * x)) (load8 src (src_ptr + (2 * x + 2)))

/-- The function `convertCbYCrY`. -/
def ColorConverter.convertCbYCrY (c : ColorConverter) (src dst : BitmapParams) :
    status_t × ColorConverter × Mem :=
  let ck := c.initClip
  if ¬ cropSupported src dst then (status_t.ERROR_UNSUPPORTED, ck.1, dst.mBits)
  else
    let dst_ptr := dst.mCropTop * dst.mWidth + dst.mCropLeft
    let src_ptr := (src.mCropTop * dst.mWidth + src.mCropLeft) * 2
    let fin := cropLoop src.cropWidth src.cropHeight dst.mWidth
      (cbycryPair ck.2 src.mBits) (fun _ p => p + src.mWidth * 2)
      ⟨dst.mBits, dst_ptr, src_ptr⟩
    (status_t.OK, ck.1, fin.out)

/-- End of a row of the semi-planar converters:
`src_y += src.mWidth; if (y & 1) { src_u += src.mWidth; }`. -/
def semiNext (srcWidth : Nat) (y : Nat) (p : SemiPtrs) : SemiPtrs :=
  ⟨p.src_y + srcWidth, if (y &&& 1) ≠ 0 then p.src_u + srcWidth else p.src_u⟩

/-- Inner loop body of `convertQCOMYUV420SemiPlanar`, up to the store:
`u = src_u[x & ~1]`, `v = src_u[(x & ~1) + 1]`, and `b` packed in the top bits. -/
def qcomPair (t : List Nat) (src : Mem) (p : SemiPtrs) (x : Nat) : Nat × Nat :=
  pairBGR t (load8 src (p.src_y + x)) (load8 src (p.src_y + (x + 1)))
    (load8 src (p.src_u + andNot1 x)) (load8 src (p.src_u + (andNot1 x + 1)))

/-- The function `convertQCOMYUV420SemiPlanar`. -/
def ColorConverter.convertQCOMYUV420SemiPlanar (c : ColorConverter)
    (src dst : BitmapParams) : status_t × ColorConverter × Mem :=
  let ck := c.initClip
  if ¬ cropSupported src dst then (status_t.ERROR_UNSUPPORTED, ck.1, dst.mBits)
  else
    let dst_ptr := dst.mCropTop * dst.mWidth + dst.mCropLeft
    let src_y := src.mCropTop * src.mWidth + src.mCropLeft
    let src_u := src_y + src.mWidth * src.mHeight
      + src.mCropTop * src.mWidth + src.mCropLeft
    let fin := cropLoop src.cropWidth src.cropHeight dst.mWidth
      (qcomPair ck.2 src.mBits) (semiNext src.mWidth)
      ⟨dst.mBits, dst_ptr, ⟨src_y, src_u⟩⟩
    (status_t.OK, ck.1, fin.out)

/-- Inner loop body of `convertYUV420SemiPlanar`, up to the store:
`v = src_u[x & ~1]`, `u = src_u[(x & ~1) + 1]`, and `b` packed in the top bits. -/
def semiPair (t : List Nat) (src : Mem) (p : SemiPtrs) (x : Nat) : Nat × Nat :=
  pairBGR t (load8 src (p.src_y + x)) (load8 src (p.src_y + (x + 1)))
    (load8 src (p.src_u + (andNot1 x + 1))) (load8 src (p.src_u + andNot1 x))

/-- The function `convertYUV420SemiPlanar`. -/
def ColorConverter.convertYUV420SemiPlanar (c : ColorConverter)
    (src dst : BitmapParams) : status_t × ColorConverter × Mem :=
  let ck := c.initClip
  if ¬ cropSupported src dst then (status_t.ERROR_UNSUPPORTED, ck.1, dst.mBits)
  else
    let dst_ptr := dst.mCropTop * dst.mWidth + dst.mCropLeft
    let src_y := src.mCropTop * src.mWidth + src.mCropLeft
    let src_u := src_y + src.mWidth * src.mHeight
      + src.mCropTop * src.mWidth + src.mCropLeft
    let fin := cropLoop src.cropWidth src.cropHeight dst.mWidth
      (semiPair ck.2 src.mBits) (semiNext src.mWidth)
      ⟨dst.mBits, dst_ptr, ⟨src_y, src_u⟩⟩
    (status_t.OK, ck.1, fin.out)

/-- Inner loop body of `convertTIYUV420PackedSemiPlanar`, up to the store:
`u = src_u[x & ~1]`, `v = src_u[(x & ~1) + 1]`, and `r` packed in the top bits. -/
def tiPair (t : List Nat) (src : Mem) (p : SemiPtrs) (x : Nat) : Nat × Nat :=
  pairRGB t (load8 src (p.src_y + x)) (load8 src (p.src_y + (x + 1)))
    (load8 src (p.src_u + andNot1 x)) (load8 src (p.src_u + (andNot1 x + 1)))

/-- The function `convertTIYUV420PackedSemiPlanar`. -/
def ColorConverter.convertTIYUV420PackedSemiPlanar (c : ColorConverter)
    (src dst : BitmapParams) : status_t × ColorConverter × Mem :=
  let ck := c.initClip
  if ¬ cropSupported src dst then (status_t.ERROR_UNSUPPORTED, ck.1, dst.mBits)
  else
    let dst_ptr := dst.mCropTop * dst.mWidth + dst.mCropLeft
    let src_y := 0
    let src_u := src_y + src.mWidth * subSz src.mHeight (src.mCropTop / 2)
    let fin := cropLoop src.cropWidth src.cropHeight dst.mWidth
      (tiPair ck.2 src.mBits) (semiNext src.mWidth)
      ⟨dst.mBits, dst_ptr, ⟨src_y, src_u⟩⟩
    (status_t.OK, ck.1, fin.out)

/-! ## The tiled NV12 converter -/

/-- State threaded through the tiled conversion: the converter (whose clip table
`nv12TileComputeRGB` initialises), the destination buffer, and `*dstPtr`. -/
structure TileState where
  conv : ColorConverter
  out : Mem
  dstPtr : Nat

/-- The function `nv12TileComputeRGB`: one row of a block. -/
def nv12TileComputeRGB (src : Mem) (s : TileState)
    (blockUV blockY blockWidth dstSkip : Nat) : TileState :=
  let dest_ptr := s.dstPtr
  let ck := s.conv.initClip
  let out := forLoop blockWidth 1
    (fun i m =>
      let rgb1 := pixRGB ck.2 (load8 src (blockY + i))
        (load8 src (blockUV + andNot1 i)) (load8 src (blockUV + (andNot1 i + 1)))
      store8 (store8 m (dest_ptr + i * 2) (rgb1 &&& 0xFF))
        (dest_ptr + (i * 2 + 1)) ((rgb1 >>> 8) &&& 0xFF))
    blockWidth 0 s.out
  ⟨ck.1, out, dest_ptr + dstSkip⟩

/-- Loop state of `nv12TileTraverseBlock`. -/
structure BlockRows where
  st : TileState
  blockY : Nat
  blockUV : Nat
  block_UV : Nat

/-- The function `nv12TileTraverseBlock`; the local `block_UV` starts as `NULL`
(offset 0) and is set on row 0 before its first use. -/
def nv12TileTraverseBlock (src : Mem) (s : TileState)
    (blockY blockUV blockWidth blockHeight dstSkip : Nat) : TileState :=
  (forLoop blockHeight 1
    (fun row (r : BlockRows) =>
      if (row &&& 1) ≠ 0 then
        ⟨nv12TileComputeRGB src r.st r.block_UV r.blockY blockWidth dstSkip,
          r.blockY + NV12TILE_BLOCK_WIDTH, r.blockUV + NV12TILE_BLOCK_WIDTH, r.block_UV⟩
      else
        ⟨nv12TileComputeRGB src r.st r.blockUV r.blockY blockWidth dstSkip,
          r.blockY + NV12TILE_BLOCK_WIDTH, r.blockUV, r.blockUV⟩)
    blockHeight 0 (⟨s, blockY, blockUV, 0⟩ : BlockRows)).st

/-- Number of block columns `abx` computed by `convertNV12Tile`. -/
def tileAbx (width : Nat) : Nat := subSz width 1 / NV12TILE_BLOCK_WIDTH + 1

/-- Number of block columns rounded to the next multiple of 2, `nbx`. -/
def tileNbx (width : Nat) : Nat := andNot1 (tileAbx width + 1)

/-- Number of luma block rows, `nby_y`. -/
def tileNbyY (height : Nat) : Nat := subSz height 1 / NV12TILE_BLOCK_HEIGHT + 1

/-- Number of chroma block rows, `nby_uv`. -/
def tileNbyUV (height : Nat) : Nat := subSz (height / 2) 1 / NV12TILE_BLOCK_HEIGHT + 1

/-- Size of the luma section, `size_y`, after the rounding step. -/
def tileSizeY (width height : Nat) : Nat :=
  let size_y := tileNbx width * tileNbyY height * NV12TILE_BLOCK_SIZE
  if size_y % NV12TILE_BLOCK_GROUP_SIZE ≠ 0 then
    (subSz size_y 1 / NV12TILE_BLOCK_GROUP_SIZE + 1) * NV12TILE_BLOCK_GROUP_SIZE
  else size_y

/-- Body of the inner (`bx`) loop of `convertNV12Tile`; the state is the tile state and
`cols_left`. -/
def tileBlock (width height : Nat) (src : Mem) (dstSkip by_ rows_left : Nat)
    (bx : Nat) (s : TileState × Nat) : TileState × Nat :=
  let cols_left := s.2
  let block_width :=
    if cols_left > NV12TILE_BLOCK_WIDTH then NV12TILE_BLOCK_WIDTH else cols_left
  let block_height :=
    if rows_left > NV12TILE_BLOCK_HEIGHT then NV12TILE_BLOCK_HEIGHT else rows_left
  let src_y := 0
  let src_uv := src_y + tileSizeY width height
  let block_y := src_y
    + nv12TileGetTiledMemBlockNum bx by_ (tileNbx width) (tileNbyY height)
      * NV12TILE_BLOCK_SIZE
  let block_uv := src_uv
    + nv12TileGetTiledMemBlockNum bx (by_ / 2) (tileNbx width) (tileNbyUV height)
      * NV12TILE_BLOCK_SIZE
    + (if (by_ &&& 1) ≠ 0 then NV12TILE_BLOCK_SIZE / 2 else 0)
  let dst_ptr := by_ * NV12TILE_BLOCK_HEIGHT * width * 2 + bx * NV12TILE_BLOCK_WIDTH * 2
  (nv12TileTraverseBlock src ⟨s.1.conv, s.1.out, dst_ptr⟩ block_y block_uv
      block_width block_height dstSkip,
    subSz cols_left NV12TILE_BLOCK_WIDTH)

/-- The function `convertNV12Tile`; `none` when one of its three `CHECK`s fails. -/
def ColorConverter.convertNV12Tile (c : ColorConverter) (width height : Nat)
    (srcBits : Mem) (srcSkip : Nat) (dstBits : Mem) (dstSkip : Nat) :
    Option (status_t × ColorConverter × Mem) :=
  if srcSkip ≠ 0 then none
  else if ¬ (dstSkip ≥ width * 2) then none
  else if (dstSkip &&& 3) ≠ 0 then none
  else
    let fin := forLoop (tileNbyY height) 1
      (fun by_ (s : TileState × Nat) =>
        let rows_left := s.2
        let row := forLoop (tileAbx width) 1
          (tileBlock width height srcBits dstSkip by_ rows_left)
          (tileAbx width) 0 (s.1, width)
        (row.1, subSz rows_left NV12TILE_BLOCK_HEIGHT))
      (tileNbyY height) 0 (⟨c, dstBits, 0⟩, height)
    some (status_t.OK, fin.1.conv, fin.1.out)

/-! ## The 32-bit aligned semi-planar converter -/

/-- The function `convertYUV420SemiPlanar32Aligned`; `none` when one of its three
`CHECK`s fails.  `dst_ptr` is a `uint32_t` index, so the store `dst_ptr[x / 2] = ...`
is the 32-bit store at the `uint16_t` index `2 * (dst_ptr + x / 2)`. -/
def ColorConverter.convertYUV420SemiPlanar32Aligned (c : ColorConverter)
    (width height : Nat) (srcBits : Mem) (srcSkip : Nat) (dstBits : Mem)
    (dstSkip alignedWidth : Nat) : Option (ColorConverter × Mem) :=
  if srcSkip ≠ 0 then none
  else if ¬ (dstSkip ≥ alignedWidth * 2) then none
  else if (dstSkip &&& 3) ≠ 0 then none
  else
    let ck := c.initClip
    let src_y := 0
    let src_u := src_y + width * height
    let fin := forLoop height 1
      (fun y (s : RowState SemiPtrs) =>
        ⟨forLoop alignedWidth 2
            (fun x m =>
              if x > width then m
              else store32 m (2 * (s.dst_ptr + x / 2))
                (((semiPair ck.2 srcBits s.ptrs x).2 <<< 16)
                  ||| (semiPair ck.2 srcBits s.ptrs x).1))
            alignedWidth 0 s.out,
          s.dst_ptr + dstSkip / 4,
          semiNext width y s.ptrs⟩)
      height 0 ⟨dstBits, 0, ⟨src_y, src_u⟩⟩
    some (ck.1, fin.out)

/-! ## The dispatcher -/

/-- The function `convert`; `none` when a `CHECK` fails (an unknown source format, or
a failed precondition of the tiled converter). -/
def ColorConverter.convert (k : OMXFormats) (c : ColorConverter)
    (srcBits : Mem) (srcWidth srcHeight srcCropLeft srcCropTop srcCropRight
      srcCropBottom : Nat)
    (dstBits : Mem) (dstWidth dstHeight dstCropLeft dstCropTop dstCropRight
      dstCropBottom : Nat) : Option (status_t × ColorConverter × Mem) :=
  if c.mDstFormat ≠ k.OMX_COLOR_Format16bitRGB565 then
    some (status_t.ERROR_UNSUPPORTED, c, dstBits)
  else
    let src : BitmapParams :=
      ⟨srcBits, srcWidth, srcHeight, srcCropLeft, srcCropTop, srcCropRight, srcCropBottom⟩
    let dst : BitmapParams :=
      ⟨dstBits, dstWidth, dstHeight, dstCropLeft, dstCropTop, dstCropRight, dstCropBottom⟩
    if c.mSrcFormat = k.OMX_COLOR_FormatYUV420Planar then
      some (c.convertYUV420Planar src dst)
    else if c.mSrcFormat = k.OMX_COLOR_FormatCbYCrY then
      some (c.convertCbYCrY src dst)
    else if c.mSrcFormat = k.OMX_QCOM_COLOR_FormatYVU420SemiPlanar then
      some (c.convertQCOMYUV420SemiPlanar src dst)
    else if c.mSrcFormat = k.OMX_COLOR_FormatYUV420SemiPlanar then
      some (c.convertYUV420SemiPlanar src dst)
    else if c.mSrcFormat = k.OMX_TI_COLOR_FormatYUV420PackedSemiPlanar then
      some (c.convertTIYUV420PackedSemiPlanar src dst)
    else if c.mSrcFormat = QOMX_COLOR_FormatYUV420PackedSemiPlanar64x32Tile2m8ka then
      c.convertNV12Tile srcWidth srcHeight srcBits 0 dstBits (srcWidth * 2)
    else none

/-! ## Specification-side definitions -/

/-- Saturation to `[0,255]` as the specification words it: 0 below 0, 255 above 255,
the value itself otherwise. -/
def specClip (v : Int) : Nat := if v < 0 then 0 else if v > 255 then 255 else v.toNat

/-- The specification's blue intermediate `(298*(Y-16) + 517*(U-128))/256`. -/
def specB (Y U : Nat) : Int := Int.tdiv (298 * ((Y : Int) - 16) + 517 * ((U : Int) - 128)) 256

/-- The specification's green intermediate
`(298*(Y-16) - 208*(V-128) - 100*(U-128))/256`. -/
def specG (Y U V : Nat) : Int :=
  Int.tdiv (298 * ((Y : Int) - 16) - 208 * ((V : Int) - 128) - 100 * ((U : Int) - 128)) 256

/-- The specification's red intermediate `(298*(Y-16) + 409*(V-128))/256`. -/
def specR (Y V : Nat) : Int := Int.tdiv (298 * ((Y : Int) - 16) + 409 * ((V : Int) - 128)) 256

/-- The specification's RGB565 pixel
`((clip(r)>>3)<<11) | ((clip(g)>>2)<<5) | (clip(b)>>3)`. -/
def specPixel (Y U V : Nat) : Nat :=
  ((specClip (specR Y V) >>> 3) <<< 11) ||| ((specClip (specG Y U V) >>> 2) <<< 5)
    ||| (specClip (specB Y U) >>> 3)

/-- The geometry that the specification says is rejected: `srcCropLeft` odd, or crop
widths differ, or crop heights differ. -/
def Rejected (src dst : BitmapParams) : Prop :=
  src.mCropLeft % 2 = 1 ∨ src.cropWidth ≠ dst.cropWidth ∨ src.cropHeight ≠ dst.cropHeight

/-- The rejection contract of a cropping converter, for its result `r` on `src`, `dst`:
it returns `ERROR_UNSUPPORTED` exactly on a rejected geometry, in that case the
destination buffer is the one passed in, and in every other case it returns `OK`. -/
def RejectContract (r : status_t × ColorConverter × Mem) (src dst : BitmapParams) : Prop :=
  (r.1 = status_t.ERROR_UNSUPPORTED ↔ Rejected src dst)
  ∧ (Rejected src dst → r.2.2 = dst.mBits)
  ∧ (¬ Rejected src dst → r.1 = status_t.OK)

/-- The state invariant of a converter: the table pointer is `NULL` or points to the
table built by `initClip` (the only place that assigns it). -/
def ColorConverter.ClipInv (c : ColorConverter) : Prop :=
  c.mClip = none ∨ c.mClip = some clipTable

/-- The documented zigzag table for `nbx = 8`, `nby = 7`, one list per block row. -/
def zigzagTable : List (List Nat) :=
  [[0, 1, 6, 7, 8, 9, 14, 15],
   [2, 3, 4, 5, 10, 11, 12, 13],
   [16, 17, 22, 23, 24, 25, 30, 31],
   [18, 19, 20, 21, 26, 27, 28, 29],
   [32, 33, 38, 39, 40, 41, 46, 47],
   [34, 35, 36, 37, 42, 43, 44, 45],
   [48, 49, 50, 51, 52, 53, 54, 55]]

/-- The header values used in the worked examples: RGB565 = 6, YUV420Planar = 19,
CbYCrY = 27, QCOM YVU420SemiPlanar = 0x7FA30C00, YUV420SemiPlanar = 21,
TI YUV420PackedSemiPlanar = 0x7F000100. -/
def exampleFormats : OMXFormats := ⟨6, 19, 27, 0x7FA30C00, 21, 0x7F000100⟩

/-- A buffer filled with one byte value. -/
def constMem (b : Byte) : Mem := fun _ => b

/-- The statement that the 16-bit pixel `p` carries `hi >> 3` in bits 15-11,
`mid >> 2` in bits 10-5 and `lo >> 3` in bits 4-0. -/
def Fields565 (p hi mid lo : Nat) : Prop :=
  p >>> 11 = hi >>> 3 ∧ (p >>> 5) &&& 63 = mid >>> 2 ∧ p &&& 31 = lo >>> 3

/-- A 2x2 4:2:0 frame: four luma bytes 16, then the chroma bytes 128 (offset 4) and
255 (offset 5). -/
def exampleYUV : Mem := fun a => if a = 5 then 255 else if a = 4 then 128 else 16

/-- The 2x2 source bitmap over `exampleYUV`, full-frame crop. -/
def exampleSrc : BitmapParams := ⟨exampleYUV, 2, 2, 0, 0, 1, 1⟩

/-- A 2x2 destination bitmap, full-frame crop. -/
def exampleDst : BitmapParams := ⟨constMem 0, 2, 2, 0, 0, 1, 1⟩

/-- A 4x4 source bitmap with the 3x3 crop `(0,0,2,2)`. -/
def exampleSrcOdd : BitmapParams := ⟨constMem 16, 4, 4, 0, 0, 2, 2⟩

/-- A 4x4 destination bitmap with the 3x3 crop `(1,1,3,3)`. -/
def exampleDstOdd : BitmapParams := ⟨constMem 7, 4, 4, 1, 1, 3, 3⟩

/-- The pixel that the inner loop of a cropping converter leaves in column `x` of a
row: `rgb1` of the pair computed at `x` when `x` is even, `rgb2` of the pair computed at
`x - 1` when `x` is odd. -/
def pairAt {σ : Type} (pair : σ → Nat → Nat × Nat) (p : σ) (x : Nat) : Nat :=
  if x % 2 = 0 then (pair p x).1 else (pair p (x - 1)).2

/-- The source row pointers `k` rows after row `i`, starting from `p` at row `i`. -/
def rowPtrs {σ : Type} (next : Nat → σ → σ) : Nat → Nat → σ → σ
  | _, 0, p => p
  | i, k + 1, p => rowPtrs next (i + 1) k (next i p)

/-- A 2x2 planar frame at the darkest valid sample: four luma bytes 16, every chroma
byte 128. -/
def exampleDark : Mem := fun a => if a < 4 then 16 else 128

/-- A 2x2 planar frame at limited-range white: four luma bytes 235, every chroma byte
128. -/
def exampleWhite : Mem := fun a => if a < 4 then 235 else 128

/-- The specification's colour arithmetic packed with blue in bits 15-11 and red in
bits 4-0, the channel order of `convertQCOMYUV420SemiPlanar` and
`convertYUV420SemiPlanar`. -/
def specPixelBGR (Y U V : Nat) : Nat :=
  ((specClip (specB Y U) >>> 3) <<< 11) ||| ((specClip (specG Y U V) >>> 2) <<< 5)
    ||| (specClip (specR Y V) >>> 3)

/-- A 4x4 planar frame: sixteen luma bytes 16, U plane at offsets 16..19, V plane at
offsets 20..23; every chroma byte is 128 except the last byte of each plane (offsets 19
and 23), which is 255. -/
def examplePlanar4 : Mem :=
  fun a => if a = 19 then 255 else if a = 23 then 255 else if a < 16 then 16 else 128

/-- The 4x4 planar source with the crop `(2,0,3,1)`: the top right 2x2 block. -/
def examplePlanarCropSrc : BitmapParams := ⟨examplePlanar4, 4, 4, 2, 0, 3, 1⟩

/-- A 2x2 semi-planar frame of 6 bytes (luma 16, chroma 128) followed by bytes 128. -/
def exampleSemiA : Mem := fun a => if a < 4 then 16 else 128

/-- The same 6 bytes as `exampleSemiA`, followed by bytes 255. -/
def exampleSemiB : Mem := fun a => if a < 4 then 16 else if a < 6 then 128 else 255

/-- A 4x2 semi-planar frame: luma bytes 16 except the byte at offset 2, which is 235;
chroma bytes (offsets 8 and up) 128. -/
def exampleLumaMark : Mem := fun a => if a = 2 then 235 else if a < 8 then 16 else 128

/-- A 4x2 source with the crop `(2,0,3,1)`: its right half. -/
def exampleRightHalfSrc : BitmapParams := ⟨exampleLumaMark, 4, 2, 2, 0, 3, 1⟩

/-- A 2x2 CbYCrY frame of 8 bytes `Cb = 128, Y = 16, Cr = 128, Y = 16, ...`, followed by
groups `128, 235, 128, 235`. -/
def exampleCbYCrY : Mem :=
  fun a => if a % 2 = 0 then 128 else if a < 8 then 16 else 235

/-- A 4x2 destination bitmap with the 2x2 crop `(0,0,1,1)`. -/
def exampleWideDst : BitmapParams := ⟨constMem 7, 4, 2, 0, 0, 1, 1⟩

/-- The statement that every byte of `n` either equals the byte of `m` at the same
offset or satisfies the address-indexed predicate `Q`. -/
def Upd (Q : Nat → Byte → Prop) (m n : Mem) : Prop := ∀ a, n a = m a ∨ Q a (n a)

/-- The pixel that `nv12TileComputeRGB` computes for column `i` of row `r` of a block
whose luma and chroma data start at `blockY` and `blockUV`, with the built clip table. -/
def blockPix (src : Mem) (blockY blockUV r i : Nat) : Nat :=
  pixRGB clipTable (load8 src (blockY + r * 64 + i))
    (load8 src (blockUV + (r / 2) * 64 + andNot1 i))
    (load8 src (blockUV + (r / 2) * 64 + (andNot1 i + 1)))

/-- The statement that the two bytes stored for the pixel `p` at offset `a` satisfy
`Q`. -/
def PixQ (Q : Nat → Byte → Prop) (a p : Nat) : Prop :=
  Q a (toByte (p &&& 0xFF)) ∧ Q (a + 1) (toByte ((p >>> 8) &&& 0xFF))

/-- The pixel of position `(x, y)` of a tiled NV12 frame of size `w x h`, with the
block counts and the luma section size as `convertNV12Tile` computes them (`size_t`
arithmetic): luma byte at `blockNum(bx,by,nbx,nby_y)*2048 + row*64 + i`, chroma bytes at
`c` and `c+1` with
`c = size_y + blockNum(bx,by/2,nbx,nby_uv)*2048 + (1024 if by odd) + (row/2)*64 + (i & ~1)`,
where `bx = x/64`, `i = x%64`, `by = y/32`, `row = y%32`. -/
def tilePixel (src : Mem) (w h x y : Nat) : Nat :=
  specPixel
    (load8 src (nv12TileGetTiledMemBlockNum (x / 64) (y / 32) (tileNbx w) (tileNbyY h) * 2048
      + (y % 32) * 64 + x % 64))
    (load8 src (tileSizeY w h
      + nv12TileGetTiledMemBlockNum (x / 64) (y / 32 / 2) (tileNbx w) (tileNbyUV h) * 2048
      + (if (y / 32) % 2 = 1 then 1024 else 0) + (y % 32 / 2) * 64 + andNot1 (x % 64)))
    (load8 src (tileSizeY w h
      + nv12TileGetTiledMemBlockNum (x / 64) (y / 32 / 2) (tileNbx w) (tileNbyUV h) * 2048
      + (if (y / 32) % 2 = 1 then 1024 else 0) + (y % 32 / 2) * 64 + andNot1 (x % 64) + 1))

/-- The byte-level specification of a converted tiled frame: the byte at offset
`2*(y*w+x)` is the low byte of the pixel of `(x, y)` and the byte after it the high
byte. -/
def TileSpec (src : Mem) (w h : Nat) (a : Nat) (b : Byte) : Prop :=
  ∀ x y, x < w → y < h →
    (a = 2 * (y * w + x) → b.val = tilePixel src w h x y % 256)
    ∧ (a = 2 * (y * w + x) + 1 → b.val = tilePixel src w h x y / 256)

/-- Source offset of the luma data of block `(bx, by)`, as `convertNV12Tile` computes
it (`block_y`). -/
def tileBlockY (w h bx by_ : Nat) : Nat :=
  0 + nv12TileGetTiledMemBlockNum bx by_ (tileNbx w) (tileNbyY h) * NV12TILE_BLOCK_SIZE

/-- Source offset of the chroma data of block `(bx, by)`, as `convertNV12Tile` computes
it (`block_uv`). -/
def tileBlockUV (w h bx by_ : Nat) : Nat :=
  0 + tileSizeY w h
    + nv12TileGetTiledMemBlockNum bx (by_ / 2) (tileNbx w) (tileNbyUV h) * NV12TILE_BLOCK_SIZE
    + (if (by_ &&& 1) ≠ 0 then NV12TILE_BLOCK_SIZE / 2 else 0)

/-- Destination byte offset of block `(bx, by)`, as `convertNV12Tile` computes it
(`dst_ptr - base_ptr`). -/
def tileDst (w bx by_ : Nat) : Nat :=
  by_ * NV12TILE_BLOCK_HEIGHT * w * 2 + bx * NV12TILE_BLOCK_WIDTH * 2

/-- Width of the blocks in block column `bx` of a frame of width `w`. -/
def blkW (w bx : Nat) : Nat := if w - 64 * bx > 64 then 64 else w - 64 * bx

/-- Height of the blocks in block row `by` of a frame of height `h`. -/
def blkH (h by_ : Nat) : Nat := if h - 32 * by_ > 32 then 32 else h - 32 * by_

/-- The specification's `abx = (width-1)/64+1`. -/
def specAbx (w : Nat) : Nat := (w - 1) / 64 + 1

/-- The specification's `nbx = (abx+1) & ~1`. -/
def specNbx (w : Nat) : Nat := andNot1 (specAbx w + 1)

/-- The specification's `nby_y = (height-1)/32+1`. -/
def specNbyY (h : Nat) : Nat := (h - 1) / 32 + 1

/-- The specification's `nby_uv = (height/2-1)/32+1`.  The specification copies the
`size_t` expression of the code, so the subtraction is the `size_t` one: for
`height >= 2` the value is `(height/2 - 1)/32 + 1`, for `height = 1` it is `2^59`. -/
def specNbyUV (h : Nat) : Nat := subSz (h / 2) 1 / 32 + 1

/-- The specification's `size_y`: `nbx*nby_y*2048` rounded up to a multiple of 8192. -/
def specSizeY (w h : Nat) : Nat := (specNbx w * specNbyY h * 2048 + 8191) / 8192 * 8192

/-- The specification's luma offset of `(x, y)`:
`blockNum(bx,by,nbx,nby_y)*2048 + row*64 + i`. -/
def specLumaOffset (w h x y : Nat) : Nat :=
  nv12TileGetTiledMemBlockNum (x / 64) (y / 32) (specNbx w) (specNbyY h) * 2048
    + (y % 32) * 64 + x % 64

/-- The specification's chroma offset of `(x, y)`:
`c = size_y + blockNum(bx,by/2,nbx,nby_uv)*2048 + (1024 if by is odd else 0)
 + (row/2)*64 + (i & ~1)`. -/
def specChromaOffset (w h x y : Nat) : Nat :=
  specSizeY w h
    + nv12TileGetTiledMemBlockNum (x / 64) (y / 32 / 2) (specNbx w) (specNbyUV h) * 2048
    + (if (y / 32) % 2 = 1 then 1024 else 0) + (y % 32 / 2) * 64 + andNot1 (x % 64)

/-- The specification's pixel of `(x, y)` of a tiled frame: the Color Math pixel of
`Y = src[luma offset]`, `U = src[c]`, `V = src[c+1]`. -/
def specTilePixel (src : Mem) (w h x y : Nat) : Nat :=
  specPixel (load8 src (specLumaOffset w h x y)) (load8 src (specChromaOffset w h x y))
    (load8 src (specChromaOffset w h x y + 1))

/-- A tiled source buffer whose bytes vary with the offset: the byte at offset `a` is
`(40 + a + 3 * (a / 64)) % 256`. -/
def exampleTileRamp : Mem := fun a => toByte (40 + a + 3 * (a / 64))

/-- Offset of block `(bx, by)` inside its pair of block rows `by/2`, read off the three
branches of `nv12TileGetTiledMemBlockNum`. -/
def blockSlot (bx by_ nby : Nat) : Nat :=
  if by_ % 2 = 0 then
    (if nby % 2 = 1 ∧ by_ = nby - 1 then bx else bx + andNot3 (bx + 2))
  else 2 + (bx + andNot3 bx)

/-- The statement that two source buffers hold the same bytes at the three offsets
`nv12TileComputeRGB` reads for column `i` of row `r` of a block whose luma and chroma
data start at `blockY` and `blockUV`. -/
def BlockAgree (src1 src2 : Mem) (blockY blockUV r i : Nat) : Prop :=
  load8 src1 (blockY + r * 64 + i) = load8 src2 (blockY + r * 64 + i)
  ∧ load8 src1 (blockUV + (r / 2) * 64 + andNot1 i)
    = load8 src2 (blockUV + (r / 2) * 64 + andNot1 i)
  ∧ load8 src1 (blockUV + (r / 2) * 64 + (andNot1 i + 1))
    = load8 src2 (blockUV + (r / 2) * 64 + (andNot1 i + 1))

/-! ## Clip table: lemmas -/

theorem tdiv256_eq (a : Int) :
    Int.tdiv a 256 = if 0 ≤ a then a / 256 else -((-a) / 256) := by
  split
  · next h => exact Int.tdiv_eq_ediv h (by decide)
  · next h =>
    have h1 : Int.tdiv (-a) 256 = (-a) / 256 := Int.tdiv_eq_ediv (by omega) (by decide)
    have h2 := Int.neg_tdiv a 256
    omega

theorem initClipLoop_spec (fuel : Nat) :
    ∀ (k : Nat) (t : List Nat), t.length = 814 → k + fuel = 814 →
      (initClipLoop fuel ((k : Int) - 278) t).length = 814 ∧
      ∀ j, (initClipLoop fuel ((k : Int) - 278) t).getD j 0 =
        if k ≤ j ∧ j < 814 then specClip ((j : Int) - 278) else t.getD j 0 := by
  induction fuel with
  | zero =>
    intro k t ht hk
    refine ⟨by simpa [initClipLoop] using ht, fun j => ?_⟩
    have : ¬ (k ≤ j ∧ j < 814) := by omega
    simp [initClipLoop, this]
  | succ fuel ih =>
    intro k t ht hk
    have hle : (k : Int) - 278 ≤ kClipMax := by simp only [kClipMax]; omega
    have hidx : ((k : Int) - 278 - kClipMin).toNat = k := by simp only [kClipMin]; omega
    have hstep : (k : Int) - 278 + 1 = ((k + 1 : Nat) : Int) - 278 := by push_cast; ring
    simp only [initClipLoop, hle, if_true, hidx, hstep]
    obtain ⟨h1, h2⟩ := ih (k + 1)
      (t.set k (if (k : Int) - 278 < 0 then 0 else if (k : Int) - 278 > 255 then 255
        else ((k : Int) - 278).toNat % 256)) (by simpa using ht) (by omega)
    refine ⟨h1, fun j => ?_⟩
    rw [h2 j]
    by_cases hj : k + 1 ≤ j ∧ j < 814
    · have : k ≤ j ∧ j < 814 := by omega
      simp [hj, this]
    · by_cases hjk : j = k
      · have h3 : k ≤ j ∧ j < 814 := by omega
        have h4 : k < t.length := by omega
        rw [if_neg hj, if_pos h3, hjk, List.getD_eq_getElem?_getD, List.getElem?_set]
        simp only [h4, if_true, Option.getD_some, specClip]
        split
        · rfl
        · split
          · rfl
          · omega
      · have h3 : ¬ (k ≤ j ∧ j < 814) := by omega
        have h4 : ¬ k = j := fun h => hjk h.symm
        rw [if_neg hj, if_neg h3, List.getD_eq_getElem?_getD, List.getElem?_set, if_neg h4,
          List.getD_eq_getElem?_getD]

theorem clipTable_unfold :
    clipTable = initClipLoop 814 (((0 : Nat) : Int) - 278) (List.replicate 814 0) := by
  have e : (kClipMax - kClipMin + 1).toNat = 814 := by decide
  have e2 : kClipMin = ((0 : Nat) : Int) - 278 := by decide
  unfold clipTable
  rw [e, e2]

theorem clipTable_length : clipTable.length = 814 := by
  rw [clipTable_unfold]
  exact (initClipLoop_spec 814 0 (List.replicate 814 0) (List.length_replicate 814 0) rfl).1

theorem clipTable_getD (j : Nat) (hj : j < 814) :
    clipTable.getD j 0 = specClip ((j : Int) - 278) := by
  rw [clipTable_unfold]
  have h := (initClipLoop_spec 814 0 (List.replicate 814 0)
    (List.length_replicate 814 0) rfl).2 j
  have h0 : (0 ≤ j ∧ j < 814) := ⟨Nat.zero_le j, hj⟩
  rw [if_pos h0] at h
  exact h

theorem kAdjustedClipAt_clipTable (v : Int) (h1 : -278 ≤ v) (h2 : v ≤ 535) :
    kAdjustedClipAt clipTable v = specClip v := by
  have hk : kClipMin ≤ v := by simp only [kClipMin]; omega
  have hi : (v - kClipMin).toNat < 814 := by simp only [kClipMin]; omega
  have hc : (((v - kClipMin).toNat : Nat) : Int) - 278 = v := by simp only [kClipMin]; omega
  simp only [kAdjustedClipAt, hk, if_true]
  rw [clipTable_getD _ hi, hc]

theorem specClip_le (v : Int) : specClip v ≤ 255 := by
  unfold specClip
  split
  · omega
  · split <;> omega

/-! ## Colour arithmetic: lemmas -/

theorem chanB_eq (Y U : Nat) :
    chanB ((Y : Int) - 16) ((U : Int) - 128)
      = Int.tdiv (298 * ((Y : Int) - 16) + 517 * ((U : Int) - 128)) 256 := by
  simp only [chanB]
  congr 1
  ring

theorem chanG_eq (Y U V : Nat) :
    chanG ((Y : Int) - 16) ((U : Int) - 128) ((V : Int) - 128)
      = Int.tdiv (298 * ((Y : Int) - 16) - 208 * ((V : Int) - 128)
          - 100 * ((U : Int) - 128)) 256 := by
  simp only [chanG]
  congr 1
  ring

theorem chanR_eq (Y V : Nat) :
    chanR ((Y : Int) - 16) ((V : Int) - 128)
      = Int.tdiv (298 * ((Y : Int) - 16) + 409 * ((V : Int) - 128)) 256 := by
  simp only [chanR]
  congr 1
  ring

theorem chanB_range (Y U : Nat) (hY : Y < 256) (hU : U < 256) :
    -278 ≤ chanB ((Y : Int) - 16) ((U : Int) - 128)
      ∧ chanB ((Y : Int) - 16) ((U : Int) - 128) ≤ 535 := by
  rw [chanB_eq, tdiv256_eq]
  split <;> omega

theorem chanG_range (Y U V : Nat) (hY : Y < 256) (hU : U < 256) (hV : V < 256) :
    -278 ≤ chanG ((Y : Int) - 16) ((U : Int) - 128) ((V : Int) - 128)
      ∧ chanG ((Y : Int) - 16) ((U : Int) - 128) ((V : Int) - 128) ≤ 535 := by
  rw [chanG_eq, tdiv256_eq]
  split <;> omega

theorem chanR_range (Y V : Nat) (hY : Y < 256) (hV : V < 256) :
    -278 ≤ chanR ((Y : Int) - 16) ((V : Int) - 128)
      ∧ chanR ((Y : Int) - 16) ((V : Int) - 128) ≤ 535 := by
  rw [chanR_eq, tdiv256_eq]
  split <;> omega

theorem packBits_eq (r g b : Nat) (hg : g < 256) (hb : b < 256) :
    packBits r g b = (r / 8) * 2048 + (g / 4) * 32 + b / 8 := by
  have h1 : (g / 4) * 32 < 2 ^ 11 := by
    have : g / 4 < 64 := by omega
    omega
  have h2 : b / 8 < 2 ^ 5 := by
    have : (2 : Nat) ^ 5 = 32 := by norm_num
    omega
  have e1 := Nat.mul_add_lt_is_or h1 (r / 8)
  have e2 := Nat.mul_add_lt_is_or h2 (2 ^ 6 * (r / 8) + g / 4)
  have e3 : 2 ^ 5 * (2 ^ 6 * (r / 8) + g / 4) = 2 ^ 11 * (r / 8) + g / 4 * 32 := by
    norm_num
    ring
  simp only [packBits, Nat.shiftLeft_eq, Nat.shiftRight_eq_div_pow]
  have p3 : (2 : Nat) ^ 3 = 8 := by norm_num
  have p2 : (2 : Nat) ^ 2 = 4 := by norm_num
  rw [p3, p2, Nat.mul_comm (r / 8) (2 ^ 11), ← e1, ← e3, ← e2, e3]

theorem packBits_lt (r g b : Nat) (hr : r < 256) (hg : g < 256) (hb : b < 256) :
    packBits r g b < 65536 := by
  rw [packBits_eq r g b hg hb]
  omega

/-! ## Memory: lemmas -/

theorem store8_apply (m : Mem) (a v i : Nat) :
    store8 m a v i = if i = a then toByte v else m i := rfl

theorem store16_frame (m : Mem) (i v a : Nat) (h : a < 2 * i ∨ 2 * i + 2 ≤ a) :
    store16 m i v a = m a := by
  simp only [store16, store8_apply]
  rw [if_neg (by omega), if_neg (by omega)]

theorem store32_frame (m : Mem) (i v a : Nat) (h : a < 2 * i ∨ 2 * i + 4 ≤ a) :
    store32 m i v a = m a := by
  simp only [store32, store8_apply]
  rw [if_neg (by omega), if_neg (by omega), if_neg (by omega), if_neg (by omega)]

theorem load8_store8_same (m : Mem) (a v : Nat) : load8 (store8 m a v) a = v % 256 := by
  simp [load8, store8, toByte]

theorem load8_store8_ne (m : Mem) (a v i : Nat) (h : i ≠ a) :
    load8 (store8 m a v) i = load8 m i := by
  simp [load8, store8, h]

theorem load16_store16 (m : Mem) (i v : Nat) : load16 (store16 m i v) i = v % 65536 := by
  unfold load16 store16
  rw [load8_store8_ne _ _ _ _ (by omega), load8_store8_same, load8_store8_same,
    Nat.shiftRight_eq_div_pow]
  norm_num
  omega

theorem load16_store32_lo (m : Mem) (i v : Nat) :
    load16 (store32 m i v) i = v % 65536 := by
  unfold load16 store32
  rw [load8_store8_ne _ _ _ _ (by omega), load8_store8_ne _ _ _ _ (by omega),
    load8_store8_ne _ _ _ _ (by omega), load8_store8_same,
    load8_store8_ne _ _ _ _ (by omega), load8_store8_ne _ _ _ _ (by omega),
    load8_store8_same, Nat.shiftRight_eq_div_pow]
  norm_num
  omega

theorem load16_store32_hi (m : Mem) (i v : Nat) :
    load16 (store32 m i v) (i + 1) = v / 65536 % 65536 := by
  have e1 : 2 * (i + 1) = 2 * i + 2 := by omega
  have e2 : 2 * (i + 1) + 1 = 2 * i + 3 := by omega
  unfold load16 store32
  rw [e2, e1, load8_store8_ne _ _ _ _ (by omega), load8_store8_same, load8_store8_same,
    Nat.shiftRight_eq_div_pow, Nat.shiftRight_eq_div_pow]
  norm_num
  omega

theorem load16_congr (m n : Mem) (i : Nat) (h0 : n (2 * i) = m (2 * i))
    (h1 : n (2 * i + 1) = m (2 * i + 1)) : load16 n i = load16 m i := by
  simp only [load16, load8, h0, h1]

theorem pairWord_lo (rgb1 rgb2 : Nat) (h1 : rgb1 < 65536) :
    ((rgb2 <<< 16) ||| rgb1) % 65536 = rgb1 := by
  have h : rgb1 < 2 ^ 16 := by norm_num; exact h1
  have e := Nat.mul_add_lt_is_or h rgb2
  rw [Nat.shiftLeft_eq, Nat.mul_comm, ← e]
  norm_num
  omega

theorem pairWord_hi (rgb1 rgb2 : Nat) (h1 : rgb1 < 65536) :
    ((rgb2 <<< 16) ||| rgb1) / 65536 % 65536 = rgb2 % 65536 := by
  have h : rgb1 < 2 ^ 16 := by norm_num; exact h1
  have e := Nat.mul_add_lt_is_or h rgb2
  rw [Nat.shiftLeft_eq, Nat.mul_comm, ← e]
  norm_num
  omega

/-! ## The shared traversal: which bytes it writes, and with what -/

theorem storePair_frame (m : Mem) (d x cw r1 r2 a : Nat) (hx : x < cw)
    (h : a < 2 * (d + x) ∨ 2 * (d + cw) ≤ a) : storePair m d x cw r1 r2 a = m a := by
  unfold storePair
  split
  · exact store32_frame m _ _ a (by omega)
  · exact store16_frame m _ _ a (by omega)

theorem rowLoop_frame {σ : Type} (cw d : Nat) (pair : σ → Nat → Nat × Nat) (p : σ)
    (fuel : Nat) : ∀ (x0 : Nat) (m : Mem) (a : Nat),
      (a < 2 * (d + x0) ∨ 2 * (d + cw) ≤ a) →
      forLoop cw 2 (fun x m => storePair m d x cw (pair p x).1 (pair p x).2) fuel x0 m a
        = m a := by
  induction fuel with
  | zero => intro x0 m a _; rfl
  | succ fuel ih =>
    intro x0 m a h
    simp only [forLoop]
    split
    · next hx =>
      rw [ih (x0 + 2) _ a (by omega)]
      exact storePair_frame m d x0 cw _ _ a hx h
    · rfl

theorem rowLoop_value {σ : Type} (cw d : Nat) (pair : σ → Nat → Nat × Nat) (p : σ)
    (hpair : ∀ x, (pair p x).1 < 65536 ∧ (pair p x).2 < 65536) (fuel : Nat) :
    ∀ (x0 : Nat) (m : Mem), x0 % 2 = 0 → cw ≤ x0 + 2 * fuel →
      ∀ x, x0 ≤ x → x < cw →
      load16 (forLoop cw 2 (fun x m => storePair m d x cw (pair p x).1 (pair p x).2)
        fuel x0 m) (d + x) = pairAt pair p x := by
  induction fuel with
  | zero => intro x0 m _ h x h1 h2; omega
  | succ fuel ih =>
    intro x0 m hev hfuel x hx0 hx
    have hlt : x0 < cw := by omega
    simp only [forLoop, if_pos hlt]
    by_cases hnext : x0 + 2 ≤ x
    · exact ih (x0 + 2) _ (by omega) (by omega) x hnext hx
    · rw [load16_congr _ _ (d + x)
        (rowLoop_frame cw d pair p fuel (x0 + 2) _ _ (by omega))
        (rowLoop_frame cw d pair p fuel (x0 + 2) _ _ (by omega))]
      by_cases hxe : x = x0
      · subst hxe
        unfold storePair pairAt
        rw [if_pos hev]
        split
        · rw [load16_store32_lo, pairWord_lo _ _ (hpair x).1]
        · rw [load16_store16, Nat.mod_eq_of_lt (hpair x).1]
      · have hx1 : x = x0 + 1 := by omega
        subst hx1
        have hodd : ¬ (x0 + 1) % 2 = 0 := by omega
        unfold storePair pairAt
        rw [if_pos hx, if_neg hodd, ← Nat.add_assoc, load16_store32_hi,
          pairWord_hi _ _ (hpair x0).1, Nat.mod_eq_of_lt (hpair x0).2]
        rfl

theorem cropRows_frame {σ : Type} (cw ch dw : Nat) (pair : σ → Nat → Nat × Nat)
    (next : Nat → σ → σ) (fuel : Nat) : ∀ (i : Nat) (s : RowState σ) (a : Nat),
      (∀ k x, i + k < ch → x < cw → a / 2 ≠ s.dst_ptr + k * dw + x) →
      (forLoop ch 1
        (fun y (s : RowState σ) =>
          (⟨forLoop cw 2
              (fun x m => storePair m s.dst_ptr x cw (pair s.ptrs x).1 (pair s.ptrs x).2)
              cw 0 s.out,
            s.dst_ptr + dw, next y s.ptrs⟩ : RowState σ))
        fuel i s).out a = s.out a := by
  induction fuel with
  | zero => intro i s a _; rfl
  | succ fuel ih =>
    intro i s a h
    simp only [forLoop]
    split
    · next hi =>
      rw [ih (i + 1) _ a]
      · apply rowLoop_frame
        by_cases hin : s.dst_ptr ≤ a / 2 ∧ a / 2 < s.dst_ptr + cw
        · exfalso
          have := h 0 (a / 2 - s.dst_ptr) (by omega) (by omega)
          simp only [Nat.zero_mul] at this
          omega
        · omega
      · intro k x hk hx
        have := h (k + 1) x (by omega) hx
        rw [Nat.succ_mul] at this
        simp only
        omega
    · rfl

theorem cropRows_value {σ : Type} (cw ch dw : Nat) (pair : σ → Nat → Nat × Nat)
    (next : Nat → σ → σ)
    (hpair : ∀ p x, (pair p x).1 < 65536 ∧ (pair p x).2 < 65536) (hcw : cw ≤ dw)
    (fuel : Nat) : ∀ (i : Nat) (s : RowState σ), ch ≤ i + fuel →
      ∀ k x, i + k < ch → x < cw →
      load16 (forLoop ch 1
        (fun y (s : RowState σ) =>
          (⟨forLoop cw 2
              (fun x m => storePair m s.dst_ptr x cw (pair s.ptrs x).1 (pair s.ptrs x).2)
              cw 0 s.out,
            s.dst_ptr + dw, next y s.ptrs⟩ : RowState σ))
        fuel i s).out (s.dst_ptr + k * dw + x) = pairAt pair (rowPtrs next i k s.ptrs) x := by
  induction fuel with
  | zero => intro i s h k x hk _; omega
  | succ fuel ih =>
    intro i s hfuel k x hk hx
    have hi : i < ch := by omega
    simp only [forLoop, if_pos hi]
    cases k with
    | zero =>
      simp only [Nat.zero_mul, Nat.add_zero, rowPtrs]
      rw [load16_congr _ _ (s.dst_ptr + x)
        (cropRows_frame cw ch dw pair next fuel (i + 1) _ _ (by
          intro k x2 _ hx2
          simp only
          have : k * dw + dw = (k + 1) * dw := (Nat.succ_mul k dw).symm
          have h3 : 0 ≤ k * dw := Nat.zero_le _
          omega))
        (cropRows_frame cw ch dw pair next fuel (i + 1) _ _ (by
          intro k x2 _ hx2
          simp only
          have h3 : 0 ≤ k * dw := Nat.zero_le _
          omega))]
      exact rowLoop_value cw s.dst_ptr pair s.ptrs (hpair s.ptrs) cw 0 s.out rfl (by omega)
        x (Nat.zero_le x) hx
    | succ k =>
      have := ih (i + 1) ⟨forLoop cw 2
              (fun x m => storePair m s.dst_ptr x cw (pair s.ptrs x).1 (pair s.ptrs x).2)
              cw 0 s.out, s.dst_ptr + dw, next i s.ptrs⟩ (by omega) k x (by omega) hx
      simp only at this
      have e : s.dst_ptr + (k + 1) * dw + x = s.dst_ptr + dw + k * dw + x := by
        rw [Nat.succ_mul]
        omega
      rw [e, this]
      rfl

theorem cropLoop_frame {σ : Type} (cw ch dw : Nat) (pair : σ → Nat → Nat × Nat)
    (next : Nat → σ → σ) (s0 : RowState σ) (a : Nat)
    (h : ∀ y x, y < ch → x < cw → a / 2 ≠ s0.dst_ptr + y * dw + x) :
    (cropLoop cw ch dw pair next s0).out a = s0.out a := by
  unfold cropLoop
  exact cropRows_frame cw ch dw pair next ch 0 s0 a
    (fun k x hk hx => h k x (by omega) hx)

theorem cropLoop_value {σ : Type} (cw ch dw : Nat) (pair : σ → Nat → Nat × Nat)
    (next : Nat → σ → σ) (s0 : RowState σ)
    (hpair : ∀ p x, (pair p x).1 < 65536 ∧ (pair p x).2 < 65536) (hcw : cw ≤ dw)
    (y x : Nat) (hy : y < ch) (hx : x < cw) :
    load16 (cropLoop cw ch dw pair next s0).out (s0.dst_ptr + y * dw + x)
      = pairAt pair (rowPtrs next 0 y s0.ptrs) x := by
  unfold cropLoop
  exact cropRows_value cw ch dw pair next hpair hcw ch 0 s0 (by omega) y x (by omega) hx

/-! ## Geometry test and frame of the cropping converters -/

theorem cropSupported_iff (src dst : BitmapParams) :
    cropSupported src dst = true ↔ ¬ Rejected src dst := by
  unfold cropSupported Rejected
  rw [decide_eq_true_iff, Nat.and_one_is_mod]
  constructor
  · rintro ⟨h1, h2, h3⟩
    rw [h2, h3]
    omega
  · intro h
    refine ⟨by omega, ?_, ?_⟩
    · by_contra hc
      exact h (Or.inr (Or.inl hc))
    · by_contra hc
      exact h (Or.inr (Or.inr hc))

theorem rejectContract_of (src dst : BitmapParams) (c1 c2 : ColorConverter) (out : Mem) :
    RejectContract
      (if ¬ cropSupported src dst = true then (status_t.ERROR_UNSUPPORTED, c1, dst.mBits)
        else (status_t.OK, c2, out)) src dst := by
  unfold RejectContract
  by_cases h : cropSupported src dst = true
  · have hr := (cropSupported_iff src dst).1 h
    rw [if_neg (not_not.2 h)]
    exact ⟨⟨fun h => (by cases h), fun h => absurd h hr⟩, fun h => absurd h hr, fun _ => rfl⟩
  · have hr : Rejected src dst := by
      by_contra hn
      exact h ((cropSupported_iff src dst).2 hn)
    rw [if_pos h]
    exact ⟨⟨fun _ => hr, fun _ => rfl⟩, fun _ => rfl, fun hn => absurd hr hn⟩

theorem index_ne_of_outside (dw dl dt dr db cw ch row col y x : Nat)
    (hr : dr < dw) (hcol : col < dw) (hx : dl + x ≤ dr) (hy : dt + y ≤ db)
    (hout : ¬ (dl ≤ col ∧ col ≤ dr ∧ dt ≤ row ∧ row ≤ db)) (_h1 : x < cw) (_h2 : y < ch) :
    row * dw + col ≠ dt * dw + dl + y * dw + x := by
  intro he
  have e : dt * dw + dl + y * dw + x = (dt + y) * dw + (dl + x) := by
    rw [Nat.add_mul]
    omega
  rw [e] at he
  have hpos : 0 < dw := by omega
  have h1 : (row * dw + col) / dw = row := by
    rw [Nat.add_comm, Nat.add_mul_div_right _ _ hpos, Nat.div_eq_of_lt hcol, Nat.zero_add]
  have h2 : ((dt + y) * dw + (dl + x)) / dw = dt + y := by
    rw [Nat.add_comm, Nat.add_mul_div_right _ _ hpos, Nat.div_eq_of_lt (by omega),
      Nat.zero_add]
  have h3 : (row * dw + col) % dw = col := by
    rw [Nat.add_comm, Nat.add_mul_mod_self_right, Nat.mod_eq_of_lt hcol]
  have h4 : ((dt + y) * dw + (dl + x)) % dw = dl + x := by
    rw [Nat.add_comm, Nat.add_mul_mod_self_right, Nat.mod_eq_of_lt (by omega)]
  rw [he, h2] at h1
  rw [he, h4] at h3
  omega

theorem cropSize_le (hi lo : Nat) (h : lo ≤ hi) :
    (subSz hi lo + 1) % SIZE_MOD ≤ hi - lo + 1 := by
  have h1 : subSz hi lo ≤ hi - lo := by
    unfold subSz
    have e : hi + SIZE_MOD - lo = (hi - lo) + SIZE_MOD := by omega
    rw [e, Nat.add_mod_right]
    exact Nat.mod_le _ _
  exact Nat.le_trans (Nat.mod_le _ _) (by omega)

theorem cropLoop_outside {σ : Type} (src dst : BitmapParams) (pair : σ → Nat → Nat × Nat)
    (next : Nat → σ → σ) (p0 : σ)
    (hw : src.cropWidth = dst.cropWidth) (hh : src.cropHeight = dst.cropHeight)
    (hl : dst.mCropLeft ≤ dst.mCropRight) (hr : dst.mCropRight < dst.mWidth)
    (ht : dst.mCropTop ≤ dst.mCropBottom)
    (col row : Nat) (hcol : col < dst.mWidth)
    (hout : ¬ (dst.mCropLeft ≤ col ∧ col ≤ dst.mCropRight
      ∧ dst.mCropTop ≤ row ∧ row ≤ dst.mCropBottom)) :
    load16 (cropLoop src.cropWidth src.cropHeight dst.mWidth pair next
        ⟨dst.mBits, dst.mCropTop * dst.mWidth + dst.mCropLeft, p0⟩).out
      (row * dst.mWidth + col) = load16 dst.mBits (row * dst.mWidth + col) := by
  have hcw := cropSize_le dst.mCropRight dst.mCropLeft hl
  have hch := cropSize_le dst.mCropBottom dst.mCropTop ht
  have key : ∀ a, a / 2 = row * dst.mWidth + col →
      (cropLoop src.cropWidth src.cropHeight dst.mWidth pair next
        ⟨dst.mBits, dst.mCropTop * dst.mWidth + dst.mCropLeft, p0⟩).out a = dst.mBits a := by
    intro a ha
    apply cropLoop_frame
    intro y x hy hx
    rw [ha]
    simp only
    rw [hw] at hx
    rw [hh] at hy
    unfold BitmapParams.cropWidth at hx
    unfold BitmapParams.cropHeight at hy
    exact index_ne_of_outside dst.mWidth dst.mCropLeft dst.mCropTop dst.mCropRight
      dst.mCropBottom _ _ row col y x hr hcol (by omega) (by omega) hout hx hy
  exact load16_congr _ _ _ (key _ (by omega)) (key _ (by omega))

theorem frame_of_result {σ : Type} (src dst : BitmapParams) (c1 c2 : ColorConverter)
    (pair : σ → Nat → Nat × Nat) (next : Nat → σ → σ) (p0 : σ)
    (hl : dst.mCropLeft ≤ dst.mCropRight) (hr : dst.mCropRight < dst.mWidth)
    (ht : dst.mCropTop ≤ dst.mCropBottom)
    (col row : Nat) (hcol : col < dst.mWidth)
    (hout : ¬ (dst.mCropLeft ≤ col ∧ col ≤ dst.mCropRight
      ∧ dst.mCropTop ≤ row ∧ row ≤ dst.mCropBottom)) :
    load16
      (if ¬ cropSupported src dst = true then (status_t.ERROR_UNSUPPORTED, c1, dst.mBits)
        else (status_t.OK, c2,
          (cropLoop src.cropWidth src.cropHeight dst.mWidth pair next
            ⟨dst.mBits, dst.mCropTop * dst.mWidth + dst.mCropLeft, p0⟩).out)).2.2
      (row * dst.mWidth + col) = load16 dst.mBits (row * dst.mWidth + col) := by
  by_cases h : cropSupported src dst = true
  · rw [if_neg (not_not.2 h)]
    have hs := h
    unfold cropSupported at hs
    rw [decide_eq_true_iff] at hs
    exact cropLoop_outside src dst pair next p0 hs.2.1 hs.2.2 hl hr ht col row hcol hout
  · rw [if_pos h]

/-! ## Row pointers in closed form -/

theorem rowPtrs_succ {σ : Type} (next : Nat → σ → σ) (k : Nat) :
    ∀ (i : Nat) (p : σ), rowPtrs next i (k + 1) p = next (i + k) (rowPtrs next i k p) := by
  induction k with
  | zero => intro i p; rfl
  | succ k ih =>
    intro i p
    have h := ih (i + 1) (next i p)
    have e : i + 1 + k = i + (k + 1) := by omega
    rw [e] at h
    exact h

theorem planar_rowPtrs (w a b c : Nat) (y : Nat) :
    rowPtrs (planarNext w) 0 y ⟨a, b, c⟩
      = ⟨a + y * w, b + (y / 2) * (w / 2), c + (y / 2) * (w / 2)⟩ := by
  induction y with
  | zero => simp [rowPtrs]
  | succ y ih =>
    rw [rowPtrs_succ, ih, Nat.zero_add]
    simp only [planarNext, Nat.and_one_is_mod]
    by_cases hy : y % 2 = 0
    · have e : (y + 1) / 2 = y / 2 := by omega
      have hn : ¬ (y % 2 ≠ 0) := not_not.2 hy
      rw [if_neg hn, if_neg hn, e, Nat.succ_mul, Nat.add_assoc]
    · have e : (y + 1) / 2 = y / 2 + 1 := by omega
      rw [if_pos hy, if_pos hy, e, Nat.succ_mul (y / 2), Nat.succ_mul y]
      simp only [Nat.add_assoc]

theorem semi_rowPtrs (w a b : Nat) (y : Nat) :
    rowPtrs (semiNext w) 0 y ⟨a, b⟩ = ⟨a + y * w, b + (y / 2) * w⟩ := by
  induction y with
  | zero => simp [rowPtrs]
  | succ y ih =>
    rw [rowPtrs_succ, ih, Nat.zero_add]
    simp only [semiNext, Nat.and_one_is_mod]
    by_cases hy : y % 2 = 0
    · have e : (y + 1) / 2 = y / 2 := by omega
      have hn : ¬ (y % 2 ≠ 0) := not_not.2 hy
      rw [if_neg hn, e, Nat.succ_mul, Nat.add_assoc]
    · have e : (y + 1) / 2 = y / 2 + 1 := by omega
      rw [if_pos hy, e, Nat.succ_mul (y / 2), Nat.succ_mul y]
      simp only [Nat.add_assoc]

/-! ## The pixel computed with the built table -/

theorem clipInv_create (srcFormat dstFormat : Nat) :
    (ColorConverter.create srcFormat dstFormat).ClipInv := Or.inl rfl

theorem clipInv_initClip (c : ColorConverter) (h : c.ClipInv) :
    c.initClip.2 = clipTable ∧ c.initClip.1.ClipInv := by
  unfold ColorConverter.ClipInv at h
  rcases h with h | h
  · simp only [ColorConverter.initClip, h]
    exact ⟨trivial, Or.inr rfl⟩
  · simp only [ColorConverter.initClip, h]
    exact ⟨trivial, Or.inr h⟩

theorem clipInv_preserved (c : ColorConverter) (hc : c.ClipInv) (src dst : BitmapParams) :
    (c.convertYUV420Planar src dst).2.1.ClipInv
    ∧ (c.convertCbYCrY src dst).2.1.ClipInv
    ∧ (c.convertQCOMYUV420SemiPlanar src dst).2.1.ClipInv
    ∧ (c.convertYUV420SemiPlanar src dst).2.1.ClipInv
    ∧ (c.convertTIYUV420PackedSemiPlanar src dst).2.1.ClipInv := by
  have h1 := (clipInv_initClip c hc).2
  refine ⟨?_, ?_, ?_, ?_, ?_⟩
  · unfold ColorConverter.convertYUV420Planar
    split
    · exact hc
    · exact h1
  · unfold ColorConverter.convertCbYCrY
    simp only
    split <;> exact h1
  · unfold ColorConverter.convertQCOMYUV420SemiPlanar
    simp only
    split <;> exact h1
  · unfold ColorConverter.convertYUV420SemiPlanar
    simp only
    split <;> exact h1
  · unfold ColorConverter.convertTIYUV420PackedSemiPlanar
    simp only
    split <;> exact h1

theorem kAdjustedClipAt_clipTable_lt (i : Int) : kAdjustedClipAt clipTable i < 256 := by
  unfold kAdjustedClipAt
  split
  · by_cases hi : (i - kClipMin).toNat < 814
    · rw [clipTable_getD _ hi]
      have := specClip_le (((i - kClipMin).toNat : Int) - 278)
      omega
    · rw [List.getD_eq_default _ _ (by rw [clipTable_length]; omega)]
      omega
  · omega

theorem pack565_clipTable_lt (hi mid lo : Int) : pack565 clipTable hi mid lo < 65536 :=
  packBits_lt _ _ _ (kAdjustedClipAt_clipTable_lt hi) (kAdjustedClipAt_clipTable_lt mid)
    (kAdjustedClipAt_clipTable_lt lo)

theorem pairRGB_lt (Y1 Y2 U V : Nat) :
    (pairRGB clipTable Y1 Y2 U V).1 < 65536 ∧ (pairRGB clipTable Y1 Y2 U V).2 < 65536 :=
  ⟨pack565_clipTable_lt _ _ _, pack565_clipTable_lt _ _ _⟩

theorem pairBGR_lt (Y1 Y2 U V : Nat) :
    (pairBGR clipTable Y1 Y2 U V).1 < 65536 ∧ (pairBGR clipTable Y1 Y2 U V).2 < 65536 :=
  ⟨pack565_clipTable_lt _ _ _, pack565_clipTable_lt _ _ _⟩

theorem clipB_spec (Y U : Nat) (hY : Y < 256) (hU : U < 256) :
    kAdjustedClipAt clipTable (chanB ((Y : Int) - 16) ((U : Int) - 128))
      = specClip (specB Y U) := by
  have h := chanB_range Y U hY hU
  rw [kAdjustedClipAt_clipTable _ h.1 h.2, chanB_eq]
  rfl

theorem clipG_spec (Y U V : Nat) (hY : Y < 256) (hU : U < 256) (hV : V < 256) :
    kAdjustedClipAt clipTable (chanG ((Y : Int) - 16) ((U : Int) - 128) ((V : Int) - 128))
      = specClip (specG Y U V) := by
  have h := chanG_range Y U V hY hU hV
  rw [kAdjustedClipAt_clipTable _ h.1 h.2, chanG_eq]
  rfl

theorem clipR_spec (Y V : Nat) (hY : Y < 256) (hV : V < 256) :
    kAdjustedClipAt clipTable (chanR ((Y : Int) - 16) ((V : Int) - 128))
      = specClip (specR Y V) := by
  have h := chanR_range Y V hY hV
  rw [kAdjustedClipAt_clipTable _ h.1 h.2, chanR_eq]
  rfl

theorem pixRGB_spec (Y U V : Nat) (hY : Y < 256) (hU : U < 256) (hV : V < 256) :
    pixRGB clipTable Y U V = specPixel Y U V := by
  simp only [pixRGB, pack565]
  rw [clipB_spec Y U hY hU, clipG_spec Y U V hY hU hV, clipR_spec Y V hY hV]
  rfl

theorem pixBGR_spec (Y U V : Nat) (hY : Y < 256) (hU : U < 256) (hV : V < 256) :
    pixBGR clipTable Y U V
      = packBits (specClip (specB Y U)) (specClip (specG Y U V)) (specClip (specR Y V)) := by
  simp only [pixBGR, pack565]
  rw [clipB_spec Y U hY hU, clipG_spec Y U V hY hU hV, clipR_spec Y V hY hV]

theorem load8_lt (m : Mem) (a : Nat) : load8 m a < 256 := (m a).isLt

theorem packBits_bits (r g b : Nat) (hr : r < 256) (hg : g < 256) (hb : b < 256) :
    packBits r g b < 65536
    ∧ packBits r g b >>> 11 = r >>> 3
    ∧ (packBits r g b >>> 5) &&& 63 = g >>> 2
    ∧ packBits r g b &&& 31 = b >>> 3 := by
  have e63 : (63 : Nat) = 2 ^ 6 - 1 := by norm_num
  have e31 : (31 : Nat) = 2 ^ 5 - 1 := by norm_num
  rw [e63, e31, Nat.and_pow_two_sub_one_eq_mod, Nat.and_pow_two_sub_one_eq_mod,
    packBits_eq r g b hg hb]
  simp only [Nat.shiftRight_eq_div_pow]
  norm_num
  omega

/-! ## The pixel each converter leaves at crop position (x, y) -/

theorem odd_pred (x : Nat) (h : ¬ x % 2 = 0) :
    x - 1 + 1 = x ∧ (x - 1) / 2 = x / 2 ∧ andNot1 (x - 1) = andNot1 x := by
  unfold andNot1
  omega

theorem planarPair_at (t : List Nat) (m : Mem) (p : PlanarPtrs) (x : Nat) :
    pairAt (planarPair t m) p x
      = pixRGB t (load8 m (p.src_y + x)) (load8 m (p.src_u + x / 2))
          (load8 m (p.src_v + x / 2)) := by
  unfold pairAt planarPair pairRGB
  split
  · rfl
  · next h =>
    obtain ⟨h1, h2, _⟩ := odd_pred x h
    simp only [h1, h2]

theorem qcomPair_at (t : List Nat) (m : Mem) (p : SemiPtrs) (x : Nat) :
    pairAt (qcomPair t m) p x
      = pixBGR t (load8 m (p.src_y + x)) (load8 m (p.src_u + andNot1 x))
          (load8 m (p.src_u + (andNot1 x + 1))) := by
  unfold pairAt qcomPair pairBGR
  split
  · rfl
  · next h =>
    obtain ⟨h1, _, h3⟩ := odd_pred x h
    simp only [h1, h3]

theorem semiPair_at (t : List Nat) (m : Mem) (p : SemiPtrs) (x : Nat) :
    pairAt (semiPair t m) p x
      = pixBGR t (load8 m (p.src_y + x)) (load8 m (p.src_u + (andNot1 x + 1)))
          (load8 m (p.src_u + andNot1 x)) := by
  unfold pairAt semiPair pairBGR
  split
  · rfl
  · next h =>
    obtain ⟨h1, _, h3⟩ := odd_pred x h
    simp only [h1, h3]

theorem tiPair_at (t : List Nat) (m : Mem) (p : SemiPtrs) (x : Nat) :
    pairAt (tiPair t m) p x
      = pixRGB t (load8 m (p.src_y + x)) (load8 m (p.src_u + andNot1 x))
          (load8 m (p.src_u + (andNot1 x + 1))) := by
  unfold pairAt tiPair pairRGB
  split
  · rfl
  · next h =>
    obtain ⟨h1, _, h3⟩ := odd_pred x h
    simp only [h1, h3]

theorem planar_pixel (c : ColorConverter) (hc : c.ClipInv) (src dst : BitmapParams)
    (hsup : cropSupported src dst = true) (hcw : src.cropWidth ≤ dst.mWidth)
    (x y : Nat) (hx : x < src.cropWidth) (hy : y < src.cropHeight) :
    load16 (c.convertYUV420Planar src dst).2.2
        (dst.mCropTop * dst.mWidth + dst.mCropLeft + y * dst.mWidth + x)
      = specPixel
          (load8 src.mBits (src.mCropTop * src.mWidth + src.mCropLeft + y * src.mWidth + x))
          (load8 src.mBits (src.mCropTop * src.mWidth + src.mCropLeft
            + src.mWidth * src.mHeight + src.mCropTop * (src.mWidth / 2)
            + src.mCropLeft / 2 + (y / 2) * (src.mWidth / 2) + x / 2))
          (load8 src.mBits (src.mCropTop * src.mWidth + src.mCropLeft
            + src.mWidth * src.mHeight + src.mCropTop * (src.mWidth / 2)
            + src.mCropLeft / 2 + (src.mWidth / 2) * (src.mHeight / 2)
            + (y / 2) * (src.mWidth / 2) + x / 2)) := by
  unfold ColorConverter.convertYUV420Planar
  rw [if_neg (not_not.2 hsup)]
  simp only [(clipInv_initClip c hc).1]
  refine Eq.trans (cropLoop_value _ _ _ (planarPair clipTable src.mBits) _ _
    (fun p x => pairRGB_lt _ _ _ _) hcw y x hy hx) ?_
  simp only [planar_rowPtrs, planarPair_at]
  exact pixRGB_spec _ _ _ (load8_lt _ _) (load8_lt _ _) (load8_lt _ _)

theorem qcom_pixel (c : ColorConverter) (hc : c.ClipInv) (src dst : BitmapParams)
    (hsup : cropSupported src dst = true) (hcw : src.cropWidth ≤ dst.mWidth)
    (x y : Nat) (hx : x < src.cropWidth) (hy : y < src.cropHeight) :
    load16 (c.convertQCOMYUV420SemiPlanar src dst).2.2
        (dst.mCropTop * dst.mWidth + dst.mCropLeft + y * dst.mWidth + x)
      = pixBGR clipTable
          (load8 src.mBits (src.mCropTop * src.mWidth + src.mCropLeft + y * src.mWidth + x))
          (load8 src.mBits (src.mCropTop * src.mWidth + src.mCropLeft
            + src.mWidth * src.mHeight + src.mCropTop * src.mWidth + src.mCropLeft
            + (y / 2) * src.mWidth + andNot1 x))
          (load8 src.mBits (src.mCropTop * src.mWidth + src.mCropLeft
            + src.mWidth * src.mHeight + src.mCropTop * src.mWidth + src.mCropLeft
            + (y / 2) * src.mWidth + (andNot1 x + 1))) := by
  unfold ColorConverter.convertQCOMYUV420SemiPlanar
  simp only [(clipInv_initClip c hc).1]
  rw [if_neg (not_not.2 hsup)]
  simp only
  refine Eq.trans (cropLoop_value _ _ _ (qcomPair clipTable src.mBits) _ _
    (fun p x => pairBGR_lt _ _ _ _) hcw y x hy hx) ?_
  simp only [semi_rowPtrs, qcomPair_at]

theorem semi_pixel (c : ColorConverter) (hc : c.ClipInv) (src dst : BitmapParams)
    (hsup : cropSupported src dst = true) (hcw : src.cropWidth ≤ dst.mWidth)
    (x y : Nat) (hx : x < src.cropWidth) (hy : y < src.cropHeight) :
    load16 (c.convertYUV420SemiPlanar src dst).2.2
        (dst.mCropTop * dst.mWidth + dst.mCropLeft + y * dst.mWidth + x)
      = pixBGR clipTable
          (load8 src.mBits (src.mCropTop * src.mWidth + src.mCropLeft + y * src.mWidth + x))
          (load8 src.mBits (src.mCropTop * src.mWidth + src.mCropLeft
            + src.mWidth * src.mHeight + src.mCropTop * src.mWidth + src.mCropLeft
            + (y / 2) * src.mWidth + (andNot1 x + 1)))
          (load8 src.mBits (src.mCropTop * src.mWidth + src.mCropLeft
            + src.mWidth * src.mHeight + src.mCropTop * src.mWidth + src.mCropLeft
            + (y / 2) * src.mWidth + andNot1 x)) := by
  unfold ColorConverter.convertYUV420SemiPlanar
  simp only [(clipInv_initClip c hc).1]
  rw [if_neg (not_not.2 hsup)]
  simp only
  refine Eq.trans (cropLoop_value _ _ _ (semiPair clipTable src.mBits) _ _
    (fun p x => pairBGR_lt _ _ _ _) hcw y x hy hx) ?_
  simp only [semi_rowPtrs, semiPair_at]

theorem ti_pixel (c : ColorConverter) (hc : c.ClipInv) (src dst : BitmapParams)
    (hsup : cropSupported src dst = true) (hcw : src.cropWidth ≤ dst.mWidth)
    (x y : Nat) (hx : x < src.cropWidth) (hy : y < src.cropHeight) :
    load16 (c.convertTIYUV420PackedSemiPlanar src dst).2.2
        (dst.mCropTop * dst.mWidth + dst.mCropLeft + y * dst.mWidth + x)
      = pixRGB clipTable
          (load8 src.mBits (0 + y * src.mWidth + x))
          (load8 src.mBits (0 + src.mWidth * subSz src.mHeight (src.mCropTop / 2)
            + (y / 2) * src.mWidth + andNot1 x))
          (load8 src.mBits (0 + src.mWidth * subSz src.mHeight (src.mCropTop / 2)
            + (y / 2) * src.mWidth + (andNot1 x + 1))) := by
  unfold ColorConverter.convertTIYUV420PackedSemiPlanar
  simp only [(clipInv_initClip c hc).1]
  rw [if_neg (not_not.2 hsup)]
  simp only
  refine Eq.trans (cropLoop_value _ _ _ (tiPair clipTable src.mBits) _ _
    (fun p x => pairRGB_lt _ _ _ _) hcw y x hy hx) ?_
  simp only [semi_rowPtrs, tiPair_at]

theorem cropSize_eq (hi lo n : Nat) (h : lo ≤ hi) (hn : hi - lo + 1 = n)
    (hM : n < SIZE_MOD) : (subSz hi lo + 1) % SIZE_MOD = n := by
  have h1 : subSz hi lo = hi - lo := by
    unfold subSz
    have e : hi + SIZE_MOD - lo = (hi - lo) + SIZE_MOD := by omega
    rw [e, Nat.add_mod_right]
    exact Nat.mod_eq_of_lt (by omega)
  rw [h1, hn]
  exact Nat.mod_eq_of_lt hM

theorem fields565_packBits (hi mid lo : Nat) (h1 : hi < 256) (h2 : mid < 256)
    (h3 : lo < 256) : Fields565 (packBits hi mid lo) hi mid lo :=
  (packBits_bits hi mid lo h1 h2 h3).2

theorem specClip_lt (v : Int) : specClip v < 256 :=
  Nat.lt_succ_of_le (specClip_le v)

theorem exampleSupported : cropSupported exampleSrc exampleDst = true := by
  decide

/-! ## The planar converter on a full frame -/

/-- Claim C1: `convertYUV420Planar` on a full frame.  For a frame of width `w` and
height `h` (both positive `size_t` values; evenness is not needed), a source crop
`(0,0,w-1,h-1)` and a destination crop of the same width and height at any position
`(dl, dt)` of a destination whose rows are at least as wide as the crop, the call
returns `OK`, and for every `x < w`, `y < h` the 16-bit destination pixel at index
`(dt+y)*dw + dl + x` is the specification's pixel for `Y = src[y*w+x]`,
`U = src[w*h + (y/2)*(w/2) + x/2]`,
`V = src[w*h + (w/2)*(h/2) + (y/2)*(w/2) + x/2]`. -/
theorem convertYUV420Planar_full_frame (c : ColorConverter) (hc : c.ClipInv)
    (srcBits dstBits : Mem) (w h dw dh dl dt dr db : Nat)
    (hw0 : 0 < w) (hh0 : 0 < h) (hwM : w < SIZE_MOD) (hhM : h < SIZE_MOD)
    (hl : dl ≤ dr) (ht : dt ≤ db)
    (hcw : dr - dl + 1 = w) (hch : db - dt + 1 = h) (hfit : w ≤ dw) :
    (c.convertYUV420Planar ⟨srcBits, w, h, 0, 0, w - 1, h - 1⟩
        ⟨dstBits, dw, dh, dl, dt, dr, db⟩).1 = status_t.OK
    ∧ ∀ x y, x < w → y < h →
      load16 (c.convertYUV420Planar ⟨srcBits, w, h, 0, 0, w - 1, h - 1⟩
          ⟨dstBits, dw, dh, dl, dt, dr, db⟩).2.2 ((dt + y) * dw + dl + x)
        = specPixel (load8 srcBits (y * w + x))
            (load8 srcBits (w * h + (y / 2) * (w / 2) + x / 2))
            (load8 srcBits (w * h + (w / 2) * (h / 2) + (y / 2) * (w / 2) + x / 2)) := by
  have hsw : (⟨srcBits, w, h, 0, 0, w - 1, h - 1⟩ : BitmapParams).cropWidth = w :=
    cropSize_eq (w - 1) 0 w (Nat.zero_le _) (by omega) hwM
  have hsh : (⟨srcBits, w, h, 0, 0, w - 1, h - 1⟩ : BitmapParams).cropHeight = h :=
    cropSize_eq (h - 1) 0 h (Nat.zero_le _) (by omega) hhM
  have hdw : (⟨dstBits, dw, dh, dl, dt, dr, db⟩ : BitmapParams).cropWidth = w :=
    cropSize_eq dr dl w hl hcw hwM
  have hdh : (⟨dstBits, dw, dh, dl, dt, dr, db⟩ : BitmapParams).cropHeight = h :=
    cropSize_eq db dt h ht hch hhM
  have hsup : cropSupported ⟨srcBits, w, h, 0, 0, w - 1, h - 1⟩
      ⟨dstBits, dw, dh, dl, dt, dr, db⟩ = true := by
    unfold cropSupported
    rw [decide_eq_true_iff, hsw, hsh, hdw, hdh]
    exact ⟨Nat.zero_and 1, rfl, rfl⟩
  constructor
  · unfold ColorConverter.convertYUV420Planar
    rw [if_neg (not_not.2 hsup)]
  · intro x y hx hy
    have hpx := planar_pixel c hc ⟨srcBits, w, h, 0, 0, w - 1, h - 1⟩
      ⟨dstBits, dw, dh, dl, dt, dr, db⟩ hsup (by rw [hsw]; exact hfit) x y
      (by rw [hsw]; exact hx) (by rw [hsh]; exact hy)
    simp only [Nat.zero_mul, Nat.zero_add, Nat.add_zero, Nat.zero_div] at hpx
    have e : (dt + y) * dw + dl + x = dt * dw + dl + y * dw + x := by
      rw [Nat.add_mul]
      omega
    rw [e]
    exact hpx

/-- Witness for C1: the 2x2 frame `exampleYUV` converted into a 2x2 destination. -/
theorem convertYUV420Planar_full_frame_witness :
    (ColorConverter.create 19 6).ClipInv ∧ 0 < 2 ∧ 2 < SIZE_MOD ∧ 0 ≤ 1
    ∧ 1 - 0 + 1 = 2 ∧ 2 ≤ 2
    ∧ ((ColorConverter.create 19 6).convertYUV420Planar ⟨exampleYUV, 2, 2, 0, 0, 2 - 1, 2 - 1⟩
        ⟨constMem 0, 2, 2, 0, 0, 1, 1⟩).1 = status_t.OK
    ∧ load16 ((ColorConverter.create 19 6).convertYUV420Planar
          ⟨exampleYUV, 2, 2, 0, 0, 2 - 1, 2 - 1⟩ ⟨constMem 0, 2, 2, 0, 0, 1, 1⟩).2.2
        ((0 + 1) * 2 + 0 + 1)
      = specPixel (load8 exampleYUV (1 * 2 + 1))
          (load8 exampleYUV (2 * 2 + (1 / 2) * (2 / 2) + 1 / 2))
          (load8 exampleYUV (2 * 2 + (2 / 2) * (2 / 2) + (1 / 2) * (2 / 2) + 1 / 2)) :=
  ⟨Or.inl rfl, by decide, by decide, by decide, by decide, by decide,
    (convertYUV420Planar_full_frame (ColorConverter.create 19 6) (Or.inl rfl) exampleYUV
      (constMem 0) 2 2 2 2 0 0 1 1 (by decide) (by decide) (by decide) (by decide)
      (by decide) (by decide) (by decide) (by decide) (by decide)).1,
    (convertYUV420Planar_full_frame (ColorConverter.create 19 6) (Or.inl rfl) exampleYUV
      (constMem 0) 2 2 2 2 0 0 1 1 (by decide) (by decide) (by decide) (by decide)
      (by decide) (by decide) (by decide) (by decide) (by decide)).2 1 1
      (by decide) (by decide)⟩

/-! ## Channel positions in the semi-planar converters -/

/-- Counterexample to C5 as stated: `convertQCOMYUV420SemiPlanar` on the 2x2 frame
`exampleYUV` (`Y = 16`, even chroma byte `U = 128`, odd chroma byte `V = 255`) returns
`OK` and writes a pixel at index 0 whose bits 15-11 are 0 and whose bits 4-0 are 25,
while the red channel `clip(r) >> 3` is 25 and the blue channel `clip(b) >> 3` is 0:
the pixel does not carry red in the top bits and blue in the bottom bits. -/
theorem convertQCOMYUV420SemiPlanar_red_in_low_bits :
    load8 exampleYUV 0 = 16 ∧ load8 exampleYUV 4 = 128 ∧ load8 exampleYUV 5 = 255
    ∧ ((ColorConverter.create 0x7FA30C00 6).convertQCOMYUV420SemiPlanar
        exampleSrc exampleDst).1 = status_t.OK
    ∧ load16 ((ColorConverter.create 0x7FA30C00 6).convertQCOMYUV420SemiPlanar
        exampleSrc exampleDst).2.2 0 = 25
    ∧ specClip (specR 16 255) >>> 3 = 25
    ∧ specClip (specB 16 128) >>> 3 = 0
    ∧ ¬ Fields565
        (load16 ((ColorConverter.create 0x7FA30C00 6).convertQCOMYUV420SemiPlanar
          exampleSrc exampleDst).2.2 0)
        (specClip (specR 16 255)) (specClip (specG 16 128 255)) (specClip (specB 16 128)) := by
  have hpx : load16 ((ColorConverter.create 0x7FA30C00 6).convertQCOMYUV420SemiPlanar
      exampleSrc exampleDst).2.2 0 = pixBGR clipTable 16 128 255 :=
    qcom_pixel (ColorConverter.create 0x7FA30C00 6) (Or.inl rfl) exampleSrc exampleDst
      exampleSupported (by decide) 0 0 (by decide) (by decide)
  have hB : specClip (specB 16 128) = 0 := by decide
  have hG : specClip (specG 16 128 255) = 0 := by decide
  have hR : specClip (specR 16 255) = 202 := by decide
  have h25 : load16 ((ColorConverter.create 0x7FA30C00 6).convertQCOMYUV420SemiPlanar
      exampleSrc exampleDst).2.2 0 = 25 := by
    rw [hpx, pixBGR_spec 16 128 255 (by decide) (by decide) (by decide), hB, hG, hR]
    decide
  refine ⟨rfl, rfl, rfl, ?_, h25, ?_, ?_, ?_⟩
  · unfold ColorConverter.convertQCOMYUV420SemiPlanar
    rw [if_neg (not_not.2 exampleSupported)]
  · rw [hR]
    decide
  · rw [hB]
    decide
  · rw [h25, hR, hG, hB]
    unfold Fields565
    decide

/-- Claim C5, amended: for an accepted geometry whose crop fits in a destination row,
every pixel written by `convertTIYUV420PackedSemiPlanar` (U at the even chroma byte,
V at the odd one) carries red in bits 15-11, green in bits 10-5 and blue in bits 4-0;
every pixel written by `convertQCOMYUV420SemiPlanar` (U even, V odd) and by
`convertYUV420SemiPlanar` (V even, U odd) carries the blue channel
`clip((298*(Y-16) + 517*(U-128))/256) >> 3` in bits 15-11, green in bits 10-5 and the
red channel `clip((298*(Y-16) + 409*(V-128))/256) >> 3` in bits 4-0. -/
theorem semiplanar_channel_positions (c : ColorConverter) (hc : c.ClipInv)
    (src dst : BitmapParams) (hok : ¬ Rejected src dst)
    (hcw : src.cropWidth ≤ dst.mWidth)
    (x y : Nat) (hx : x < src.cropWidth) (hy : y < src.cropHeight) :
    Fields565
      (load16 (c.convertTIYUV420PackedSemiPlanar src dst).2.2
        (dst.mCropTop * dst.mWidth + dst.mCropLeft + y * dst.mWidth + x))
      (specClip (specR (load8 src.mBits (0 + y * src.mWidth + x))
        (load8 src.mBits (0 + src.mWidth * subSz src.mHeight (src.mCropTop / 2)
          + (y / 2) * src.mWidth + (andNot1 x + 1)))))
      (specClip (specG (load8 src.mBits (0 + y * src.mWidth + x))
        (load8 src.mBits (0 + src.mWidth * subSz src.mHeight (src.mCropTop / 2)
          + (y / 2) * src.mWidth + andNot1 x))
        (load8 src.mBits (0 + src.mWidth * subSz src.mHeight (src.mCropTop / 2)
          + (y / 2) * src.mWidth + (andNot1 x + 1)))))
      (specClip (specB (load8 src.mBits (0 + y * src.mWidth + x))
        (load8 src.mBits (0 + src.mWidth * subSz src.mHeight (src.mCropTop / 2)
          + (y / 2) * src.mWidth + andNot1 x))))
    ∧ Fields565
      (load16 (c.convertQCOMYUV420SemiPlanar src dst).2.2
        (dst.mCropTop * dst.mWidth + dst.mCropLeft + y * dst.mWidth + x))
      (specClip (specB
        (load8 src.mBits (src.mCropTop * src.mWidth + src.mCropLeft + y * src.mWidth + x))
        (load8 src.mBits (src.mCropTop * src.mWidth + src.mCropLeft
          + src.mWidth * src.mHeight + src.mCropTop * src.mWidth + src.mCropLeft
          + (y / 2) * src.mWidth + andNot1 x))))
      (specClip (specG
        (load8 src.mBits (src.mCropTop * src.mWidth + src.mCropLeft + y * src.mWidth + x))
        (load8 src.mBits (src.mCropTop * src.mWidth + src.mCropLeft
          + src.mWidth * src.mHeight + src.mCropTop * src.mWidth + src.mCropLeft
          + (y / 2) * src.mWidth + andNot1 x))
        (load8 src.mBits (src.mCropTop * src.mWidth + src.mCropLeft
          + src.mWidth * src.mHeight + src.mCropTop * src.mWidth + src.mCropLeft
          + (y / 2) * src.mWidth + (andNot1 x + 1)))))
      (specClip (specR
        (load8 src.mBits (src.mCropTop * src.mWidth + src.mCropLeft + y * src.mWidth + x))
        (load8 src.mBits (src.mCropTop * src.mWidth + src.mCropLeft
          + src.mWidth * src.mHeight + src.mCropTop * src.mWidth + src.mCropLeft
          + (y / 2) * src.mWidth + (andNot1 x + 1)))))
    ∧ Fields565
      (load16 (c.convertYUV420SemiPlanar src dst).2.2
        (dst.mCropTop * dst.mWidth + dst.mCropLeft + y * dst.mWidth + x))
      (specClip (specB
        (load8 src.mBits (src.mCropTop * src.mWidth + src.mCropLeft + y * src.mWidth + x))
        (load8 src.mBits (src.mCropTop * src.mWidth + src.mCropLeft
          + src.mWidth * src.mHeight + src.mCropTop * src.mWidth + src.mCropLeft
          + (y / 2) * src.mWidth + (andNot1 x + 1)))))
      (specClip (specG
        (load8 src.mBits (src.mCropTop * src.mWidth + src.mCropLeft + y * src.mWidth + x))
        (load8 src.mBits (src.mCropTop * src.mWidth + src.mCropLeft
          + src.mWidth * src.mHeight + src.mCropTop * src.mWidth + src.mCropLeft
          + (y / 2) * src.mWidth + (andNot1 x + 1)))
        (load8 src.mBits (src.mCropTop * src.mWidth + src.mCropLeft
          + src.mWidth * src.mHeight + src.mCropTop * src.mWidth + src.mCropLeft
          + (y / 2) * src.mWidth + andNot1 x))))
      (specClip (specR
        (load8 src.mBits (src.mCropTop * src.mWidth + src.mCropLeft + y * src.mWidth + x))
        (load8 src.mBits (src.mCropTop * src.mWidth + src.mCropLeft
          + src.mWidth * src.mHeight + src.mCropTop * src.mWidth + src.mCropLeft
          + (y / 2) * src.mWidth + andNot1 x)))) := by
  have hsup := (cropSupported_iff src dst).2 hok
  refine ⟨?_, ?_, ?_⟩
  · rw [ti_pixel c hc src dst hsup hcw x y hx hy,
      pixRGB_spec _ _ _ (load8_lt _ _) (load8_lt _ _) (load8_lt _ _)]
    exact fields565_packBits _ _ _ (specClip_lt _) (specClip_lt _) (specClip_lt _)
  · rw [qcom_pixel c hc src dst hsup hcw x y hx hy,
      pixBGR_spec _ _ _ (load8_lt _ _) (load8_lt _ _) (load8_lt _ _)]
    exact fields565_packBits _ _ _ (specClip_lt _) (specClip_lt _) (specClip_lt _)
  · rw [semi_pixel c hc src dst hsup hcw x y hx hy,
      pixBGR_spec _ _ _ (load8_lt _ _) (load8_lt _ _) (load8_lt _ _)]
    exact fields565_packBits _ _ _ (specClip_lt _) (specClip_lt _) (specClip_lt _)

/-- Witness for the amended C5: the standard semi-planar converter on the 2x2 frame
`exampleYUV`, pixel (0,0), where `V` is the even chroma byte 128 and `U` the odd one
255. -/
theorem semiplanar_channel_positions_witness :
    (ColorConverter.create 21 6).ClipInv ∧ ¬ Rejected exampleSrc exampleDst
    ∧ exampleSrc.cropWidth ≤ exampleDst.mWidth
    ∧ 0 < exampleSrc.cropWidth ∧ 0 < exampleSrc.cropHeight
    ∧ Fields565
        (load16 ((ColorConverter.create 21 6).convertYUV420SemiPlanar
          exampleSrc exampleDst).2.2 0)
        (specClip (specB 16 255)) (specClip (specG 16 255 128)) (specClip (specR 16 128)) :=
  ⟨Or.inl rfl, (cropSupported_iff exampleSrc exampleDst).1 exampleSupported, by decide,
    by decide, by decide,
    (semiplanar_channel_positions (ColorConverter.create 21 6) (Or.inl rfl) exampleSrc
      exampleDst ((cropSupported_iff exampleSrc exampleDst).1 exampleSupported)
      (by decide) 0 0 (by decide) (by decide)).2.2⟩

/-! ## Rejection and frame of the five cropping converters -/

/-- Claim C6: each of the five cropping converters, on every geometry, returns
`ERROR_UNSUPPORTED` exactly when `srcCropLeft` is odd or the crop widths differ or the
crop heights differ; in that case the destination buffer it leaves is the one it was
given; in every other case it returns `OK`. -/
theorem cropping_converters_reject_contract (c : ColorConverter) (src dst : BitmapParams) :
    RejectContract (c.convertYUV420Planar src dst) src dst
    ∧ RejectContract (c.convertCbYCrY src dst) src dst
    ∧ RejectContract (c.convertQCOMYUV420SemiPlanar src dst) src dst
    ∧ RejectContract (c.convertYUV420SemiPlanar src dst) src dst
    ∧ RejectContract (c.convertTIYUV420PackedSemiPlanar src dst) src dst :=
  ⟨rejectContract_of src dst _ _ _, rejectContract_of src dst _ _ _,
    rejectContract_of src dst _ _ _, rejectContract_of src dst _ _ _,
    rejectContract_of src dst _ _ _⟩

/-- Claim C7: for each of the five cropping converters, when the destination crop
rectangle is a rectangle (`left <= right`, `top <= bottom`) inside the destination
row (`right < dstWidth`), every destination pixel whose (column, row) is outside the
crop rectangle has the same value after the call as before it.  This holds for even
and odd crop widths, and whatever status the call returns. -/
theorem cropping_converters_keep_outside_pixels (c : ColorConverter)
    (src dst : BitmapParams)
    (hl : dst.mCropLeft ≤ dst.mCropRight) (hr : dst.mCropRight < dst.mWidth)
    (ht : dst.mCropTop ≤ dst.mCropBottom)
    (col row : Nat) (hcol : col < dst.mWidth)
    (hout : ¬ (dst.mCropLeft ≤ col ∧ col ≤ dst.mCropRight
      ∧ dst.mCropTop ≤ row ∧ row ≤ dst.mCropBottom)) :
    load16 (c.convertYUV420Planar src dst).2.2 (row * dst.mWidth + col)
        = load16 dst.mBits (row * dst.mWidth + col)
    ∧ load16 (c.convertCbYCrY src dst).2.2 (row * dst.mWidth + col)
        = load16 dst.mBits (row * dst.mWidth + col)
    ∧ load16 (c.convertQCOMYUV420SemiPlanar src dst).2.2 (row * dst.mWidth + col)
        = load16 dst.mBits (row * dst.mWidth + col)
    ∧ load16 (c.convertYUV420SemiPlanar src dst).2.2 (row * dst.mWidth + col)
        = load16 dst.mBits (row * dst.mWidth + col)
    ∧ load16 (c.convertTIYUV420PackedSemiPlanar src dst).2.2 (row * dst.mWidth + col)
        = load16 dst.mBits (row * dst.mWidth + col) :=
  ⟨frame_of_result src dst _ _ _ _ _ hl hr ht col row hcol hout,
    frame_of_result src dst _ _ _ _ _ hl hr ht col row hcol hout,
    frame_of_result src dst _ _ _ _ _ hl hr ht col row hcol hout,
    frame_of_result src dst _ _ _ _ _ hl hr ht col row hcol hout,
    frame_of_result src dst _ _ _ _ _ hl hr ht col row hcol hout⟩

/-- Witness for C7: a 3x3 crop (odd width) written at `(1,1)..(3,3)` of a 4x4
destination; the pixel in column 0 of row 1, just left of the crop, keeps its value. -/
theorem cropping_converters_keep_outside_pixels_witness :
    exampleDstOdd.mCropLeft ≤ exampleDstOdd.mCropRight
    ∧ exampleDstOdd.mCropRight < exampleDstOdd.mWidth
    ∧ exampleDstOdd.mCropTop ≤ exampleDstOdd.mCropBottom
    ∧ 0 < exampleDstOdd.mWidth
    ∧ ¬ (exampleDstOdd.mCropLeft ≤ 0 ∧ 0 ≤ exampleDstOdd.mCropRight
      ∧ exampleDstOdd.mCropTop ≤ 1 ∧ 1 ≤ exampleDstOdd.mCropBottom)
    ∧ ((ColorConverter.create 21 6).convertYUV420SemiPlanar
        exampleSrcOdd exampleDstOdd).1 = status_t.OK
    ∧ load16 ((ColorConverter.create 21 6).convertYUV420SemiPlanar
        exampleSrcOdd exampleDstOdd).2.2 (1 * exampleDstOdd.mWidth + 0)
      = load16 exampleDstOdd.mBits (1 * exampleDstOdd.mWidth + 0) :=
  ⟨by decide, by decide, by decide, by decide, by decide, by decide,
    (cropping_converters_keep_outside_pixels (ColorConverter.create 21 6) exampleSrcOdd
      exampleDstOdd (by decide) (by decide) (by decide) 0 1 (by decide)
      (by decide)).2.2.2.1⟩

/-! ## Clip table, channel range, packing, block numbering, format checks -/

/-- Claim C3: for a converter whose table is not yet built, the table that `initClip`
builds has exactly 814 entries, and for every `v` in `[-278, 535]` the biased lookup
`initClip()[v]` is 0 if `v < 0`, 255 if `v > 255`, and `v` otherwise. -/
theorem initClip_table_correct (c : ColorConverter) (hc : c.mClip = none) :
    c.initClip.1.mClip = some c.initClip.2 ∧ c.initClip.2.length = 814 ∧
    ∀ v : Int, -278 ≤ v → v ≤ 535 →
      kAdjustedClipAt c.initClip.2 v
        = if v < 0 then 0 else if v > 255 then 255 else v.toNat := by
  have e : c.initClip = (⟨c.mSrcFormat, c.mDstFormat, some clipTable⟩, clipTable) := by
    simp only [ColorConverter.initClip, hc]
  simp only [e]
  refine ⟨trivial, clipTable_length, fun v h1 h2 => ?_⟩
  exact kAdjustedClipAt_clipTable v h1 h2

/-- Witness for C3 on a freshly constructed converter. -/
theorem initClip_table_correct_witness :
    (ColorConverter.create 19 6).mClip = none ∧
    ((ColorConverter.create 19 6).initClip.1.mClip
        = some (ColorConverter.create 19 6).initClip.2 ∧
      (ColorConverter.create 19 6).initClip.2.length = 814 ∧
      ∀ v : Int, -278 ≤ v → v ≤ 535 →
        kAdjustedClipAt (ColorConverter.create 19 6).initClip.2 v
          = if v < 0 then 0 else if v > 255 then 255 else v.toNat) :=
  ⟨rfl, initClip_table_correct (ColorConverter.create 19 6) rfl⟩

/-- Claim C2: for all bytes `Y`, `U`, `V` the three channel intermediates computed by the
converters are the documented quotients (division truncating toward zero), each lies in
`[-278, 535]`, and the table index `i - kClipMin` of each lookup is inside the
814-entry table built by `initClip`. -/
theorem channel_intermediates_index_inside_table (Y U V : Byte) :
    (chanB ((Y.val : Int) - 16) ((U.val : Int) - 128)
        = Int.tdiv (298 * ((Y.val : Int) - 16) + 517 * ((U.val : Int) - 128)) 256
      ∧ chanG ((Y.val : Int) - 16) ((U.val : Int) - 128) ((V.val : Int) - 128)
        = Int.tdiv (298 * ((Y.val : Int) - 16) - 208 * ((V.val : Int) - 128)
          - 100 * ((U.val : Int) - 128)) 256
      ∧ chanR ((Y.val : Int) - 16) ((V.val : Int) - 128)
        = Int.tdiv (298 * ((Y.val : Int) - 16) + 409 * ((V.val : Int) - 128)) 256)
    ∧ (-278 ≤ chanB ((Y.val : Int) - 16) ((U.val : Int) - 128)
      ∧ chanB ((Y.val : Int) - 16) ((U.val : Int) - 128) ≤ 535)
    ∧ (-278 ≤ chanG ((Y.val : Int) - 16) ((U.val : Int) - 128) ((V.val : Int) - 128)
      ∧ chanG ((Y.val : Int) - 16) ((U.val : Int) - 128) ((V.val : Int) - 128) ≤ 535)
    ∧ (-278 ≤ chanR ((Y.val : Int) - 16) ((V.val : Int) - 128)
      ∧ chanR ((Y.val : Int) - 16) ((V.val : Int) - 128) ≤ 535)
    ∧ (0 ≤ chanB ((Y.val : Int) - 16) ((U.val : Int) - 128) - kClipMin
      ∧ (chanB ((Y.val : Int) - 16) ((U.val : Int) - 128) - kClipMin).toNat
          < clipTable.length)
    ∧ (0 ≤ chanG ((Y.val : Int) - 16) ((U.val : Int) - 128) ((V.val : Int) - 128) - kClipMin
      ∧ (chanG ((Y.val : Int) - 16) ((U.val : Int) - 128) ((V.val : Int) - 128)
          - kClipMin).toNat < clipTable.length)
    ∧ (0 ≤ chanR ((Y.val : Int) - 16) ((V.val : Int) - 128) - kClipMin
      ∧ (chanR ((Y.val : Int) - 16) ((V.val : Int) - 128) - kClipMin).toNat
          < clipTable.length) := by
  have hb := chanB_range Y.val U.val Y.isLt U.isLt
  have hg := chanG_range Y.val U.val V.val Y.isLt U.isLt V.isLt
  have hr := chanR_range Y.val V.val Y.isLt V.isLt
  refine ⟨⟨chanB_eq _ _, chanG_eq _ _ _, chanR_eq _ _⟩, hb, hg, hr, ?_, ?_, ?_⟩
  · rw [clipTable_length]
    simp only [kClipMin]
    omega
  · rw [clipTable_length]
    simp only [kClipMin]
    omega
  · rw [clipTable_length]
    simp only [kClipMin]
    omega

/-- Claim C4: for all clipped channel values `r`, `g`, `b` in `0..255` the packed value
`p = ((r>>3)<<11) | ((g>>2)<<5) | (b>>3)` is below 65536, its top 5 bits are `r>>3`, its
middle 6 bits are `g>>2` and its bottom 5 bits are `b>>3`. -/
theorem packBits_fields (r g b : Byte) :
    packBits r.val g.val b.val < 65536
    ∧ packBits r.val g.val b.val >>> 11 = r.val >>> 3
    ∧ (packBits r.val g.val b.val >>> 5) &&& 63 = g.val >>> 2
    ∧ packBits r.val g.val b.val &&& 31 = b.val >>> 3 :=
  packBits_bits r.val g.val b.val r.isLt g.isLt b.isLt

/-- Claim C8: with `nbx = 8` and `nby = 7`, `nv12TileGetTiledMemBlockNum` returns the
entry of the documented zigzag table for every column `bx` in `0..7` and row `by` in
`0..6`; in particular `(0,0) -> 0`, `(1,0) -> 1`, `(2,0) -> 6`, `(0,1) -> 2`,
`(2,2) -> 22`. -/
theorem nv12TileGetTiledMemBlockNum_zigzag_table :
    (∀ (bx : Fin 8) (by_ : Fin 7),
      nv12TileGetTiledMemBlockNum bx.val by_.val 8 7
        = (zigzagTable.getD by_.val []).getD bx.val 0)
    ∧ nv12TileGetTiledMemBlockNum 0 0 8 7 = 0
    ∧ nv12TileGetTiledMemBlockNum 1 0 8 7 = 1
    ∧ nv12TileGetTiledMemBlockNum 2 0 8 7 = 6
    ∧ nv12TileGetTiledMemBlockNum 0 1 8 7 = 2
    ∧ nv12TileGetTiledMemBlockNum 2 2 8 7 = 22 := by
  decide

/-- Claim C9: `isValid` returns true exactly when the destination format is
`OMX_COLOR_Format16bitRGB565` and the source format is one of the six recognised
layouts.  (It is a `const` query: the embedding gives it no converter to return.) -/
theorem isValid_iff (k : OMXFormats) (c : ColorConverter) :
    c.isValid k = true ↔
      (c.mDstFormat = k.OMX_COLOR_Format16bitRGB565 ∧
        (c.mSrcFormat = k.OMX_COLOR_FormatYUV420Planar
          ∨ c.mSrcFormat = k.OMX_COLOR_FormatCbYCrY
          ∨ c.mSrcFormat = k.OMX_QCOM_COLOR_FormatYVU420SemiPlanar
          ∨ c.mSrcFormat = k.OMX_COLOR_FormatYUV420SemiPlanar
          ∨ c.mSrcFormat = k.OMX_TI_COLOR_FormatYUV420PackedSemiPlanar
          ∨ c.mSrcFormat = 0x7FA30C03)) := by
  unfold ColorConverter.isValid QOMX_COLOR_FormatYUV420PackedSemiPlanar64x32Tile2m8ka
  by_cases h0 : c.mDstFormat = k.OMX_COLOR_Format16bitRGB565
  · by_cases h1 : c.mSrcFormat = k.OMX_COLOR_FormatYUV420Planar
    · simp [h0, h1]
    · by_cases h2 : c.mSrcFormat = k.OMX_COLOR_FormatCbYCrY
      · simp [h0, h2]
      · by_cases h3 : c.mSrcFormat = k.OMX_QCOM_COLOR_FormatYVU420SemiPlanar
        · simp [h0, h3]
        · by_cases h4 : c.mSrcFormat = k.OMX_COLOR_FormatYUV420SemiPlanar
          · simp [h0, h4]
          · by_cases h5 : c.mSrcFormat = k.OMX_TI_COLOR_FormatYUV420PackedSemiPlanar
            · simp [h0, h5]
            · simp [h0, h1, h2, h3, h4, h5]
  · simp [h0]

/-- Claim C10: when the configured destination format is not
`OMX_COLOR_Format16bitRGB565`, `convert` returns `ERROR_UNSUPPORTED` for every source
format, buffer and geometry, and both the destination buffer and the converter
(clip-table pointer included) are unchanged. -/
theorem convert_unsupported_destination (k : OMXFormats) (c : ColorConverter)
    (srcBits : Mem) (sw sh sl st sr sb : Nat) (dstBits : Mem) (dw dh dl dt dr db : Nat)
    (h : c.mDstFormat ≠ k.OMX_COLOR_Format16bitRGB565) :
    c.convert k srcBits sw sh sl st sr sb dstBits dw dh dl dt dr db
      = some (status_t.ERROR_UNSUPPORTED, c, dstBits) := by
  unfold ColorConverter.convert
  rw [if_pos h]

/-- Witness for C10: a planar source with an RGB888-like destination code 11. -/
theorem convert_unsupported_destination_witness :
    (ColorConverter.create 19 11).mDstFormat ≠ exampleFormats.OMX_COLOR_Format16bitRGB565
    ∧ (ColorConverter.create 19 11).convert exampleFormats (constMem 0) 2 2 0 0 1 1
        (constMem 7) 2 2 0 0 1 1
      = some (status_t.ERROR_UNSUPPORTED, ColorConverter.create 19 11, constMem 7) :=
  ⟨by decide, convert_unsupported_destination exampleFormats (ColorConverter.create 19 11)
    (constMem 0) 2 2 0 0 1 1 (constMem 7) 2 2 0 0 1 1 (by decide)⟩

/-! ## Uniform planar frames -/

theorem planar_full_frame_pixel (c : ColorConverter) (hc : c.ClipInv)
    (srcBits dstBits : Mem) (w h dw dh dl dt dr db : Nat)
    (hw0 : 0 < w) (hh0 : 0 < h) (hwM : w < SIZE_MOD) (hhM : h < SIZE_MOD)
    (hl : dl ≤ dr) (ht : dt ≤ db)
    (hcw : dr - dl + 1 = w) (hch : db - dt + 1 = h) (hfit : w ≤ dw) :
    (c.convertYUV420Planar ⟨srcBits, w, h, 0, 0, w - 1, h - 1⟩
        ⟨dstBits, dw, dh, dl, dt, dr, db⟩).1 = status_t.OK
    ∧ ∀ x y, x < w → y < h →
      load16 (c.convertYUV420Planar ⟨srcBits, w, h, 0, 0, w - 1, h - 1⟩
          ⟨dstBits, dw, dh, dl, dt, dr, db⟩).2.2 ((dt + y) * dw + dl + x)
        = specPixel (load8 srcBits (y * w + x))
            (load8 srcBits (w * h + (y / 2) * (w / 2) + x / 2))
            (load8 srcBits (w * h + (w / 2) * (h / 2) + (y / 2) * (w / 2) + x / 2)) := by
  have hsw : (⟨srcBits, w, h, 0, 0, w - 1, h - 1⟩ : BitmapParams).cropWidth = w :=
    cropSize_eq (w - 1) 0 w (Nat.zero_le _) (by omega) hwM
  have hsh : (⟨srcBits, w, h, 0, 0, w - 1, h - 1⟩ : BitmapParams).cropHeight = h :=
    cropSize_eq (h - 1) 0 h (Nat.zero_le _) (by omega) hhM
  have hdw : (⟨dstBits, dw, dh, dl, dt, dr, db⟩ : BitmapParams).cropWidth = w :=
    cropSize_eq dr dl w hl hcw hwM
  have hdh : (⟨dstBits, dw, dh, dl, dt, dr, db⟩ : BitmapParams).cropHeight = h :=
    cropSize_eq db dt h ht hch hhM
  have hsup : cropSupported ⟨srcBits, w, h, 0, 0, w - 1, h - 1⟩
      ⟨dstBits, dw, dh, dl, dt, dr, db⟩ = true := by
    unfold cropSupported
    rw [decide_eq_true_iff, hsw, hsh, hdw, hdh]
    exact ⟨Nat.zero_and 1, rfl, rfl⟩
  constructor
  · unfold ColorConverter.convertYUV420Planar
    rw [if_neg (not_not.2 hsup)]
  · intro x y hx hy
    have hpx := planar_pixel c hc ⟨srcBits, w, h, 0, 0, w - 1, h - 1⟩
      ⟨dstBits, dw, dh, dl, dt, dr, db⟩ hsup (by rw [hsw]; exact hfit) x y
      (by rw [hsw]; exact hx) (by rw [hsh]; exact hy)
    simp only [Nat.zero_mul, Nat.zero_add, Nat.add_zero, Nat.zero_div] at hpx
    have e : (dt + y) * dw + dl + x = dt * dw + dl + y * dw + x := by
      rw [Nat.add_mul]
      omega
    rw [e]
    exact hpx

theorem mul_add_lt_mul (a b c d : Nat) (ha : a < d) (hb : b < c) : a * c + b < d * c := by
  have h1 : (a + 1) * c ≤ d * c := Nat.mul_le_mul_right c ha
  rw [Nat.succ_mul] at h1
  omega

theorem planar_uniform_frame (c : ColorConverter) (hc : c.ClipInv)
    (srcBits dstBits : Mem) (w h dw dh dl dt dr db lum chr : Nat)
    (hw0 : 0 < w) (hh0 : 0 < h) (hwM : w < SIZE_MOD) (hhM : h < SIZE_MOD)
    (hwe : w % 2 = 0) (hhe : h % 2 = 0)
    (hl : dl ≤ dr) (ht : dt ≤ db)
    (hcw : dr - dl + 1 = w) (hch : db - dt + 1 = h) (hfit : w ≤ dw)
    (hY : ∀ a, a < w * h → load8 srcBits a = lum)
    (hC : ∀ a, a < 2 * ((w / 2) * (h / 2)) → load8 srcBits (w * h + a) = chr) :
    (c.convertYUV420Planar ⟨srcBits, w, h, 0, 0, w - 1, h - 1⟩
        ⟨dstBits, dw, dh, dl, dt, dr, db⟩).1 = status_t.OK
    ∧ ∀ x y, x < w → y < h →
      load16 (c.convertYUV420Planar ⟨srcBits, w, h, 0, 0, w - 1, h - 1⟩
          ⟨dstBits, dw, dh, dl, dt, dr, db⟩).2.2 ((dt + y) * dw + dl + x)
        = specPixel lum chr chr := by
  obtain ⟨hok, hpx⟩ := planar_full_frame_pixel c hc srcBits dstBits w h dw dh dl dt dr db
    hw0 hh0 hwM hhM hl ht hcw hch hfit
  refine ⟨hok, fun x y hx hy => ?_⟩
  rw [hpx x y hx hy]
  have h1 : y * w + x < w * h := by
    rw [Nat.mul_comm w h]
    exact mul_add_lt_mul y x w h hy hx
  have h2 : (y / 2) * (w / 2) + x / 2 < (w / 2) * (h / 2) := by
    rw [Nat.mul_comm (w / 2) (h / 2)]
    exact mul_add_lt_mul (y / 2) (x / 2) (w / 2) (h / 2) (by omega) (by omega)
  have e1 : w * h + (y / 2) * (w / 2) + x / 2 = w * h + ((y / 2) * (w / 2) + x / 2) := by
    omega
  have e2 : w * h + (w / 2) * (h / 2) + (y / 2) * (w / 2) + x / 2
      = w * h + ((w / 2) * (h / 2) + ((y / 2) * (w / 2) + x / 2)) := by omega
  rw [hY _ h1, e1, hC _ (by omega), e2, hC _ (by omega)]

/-- Claim C11: darkest valid sample.  For a planar 4:2:0 frame of even width and height
in which every luma byte is 16 and every U and V byte is 128, converted with
`convertYUV420Planar` under a full-frame source crop into a destination crop of the
same size, the call returns `OK` and every destination pixel of the crop is `0x0000`. -/
theorem convertYUV420Planar_darkest_is_black (c : ColorConverter) (hc : c.ClipInv)
    (srcBits dstBits : Mem) (w h dw dh dl dt dr db : Nat)
    (hw0 : 0 < w) (hh0 : 0 < h) (hwM : w < SIZE_MOD) (hhM : h < SIZE_MOD)
    (hwe : w % 2 = 0) (hhe : h % 2 = 0)
    (hl : dl ≤ dr) (ht : dt ≤ db)
    (hcw : dr - dl + 1 = w) (hch : db - dt + 1 = h) (hfit : w ≤ dw)
    (hY : ∀ a, a < w * h → load8 srcBits a = 16)
    (hC : ∀ a, a < 2 * ((w / 2) * (h / 2)) → load8 srcBits (w * h + a) = 128) :
    (c.convertYUV420Planar ⟨srcBits, w, h, 0, 0, w - 1, h - 1⟩
        ⟨dstBits, dw, dh, dl, dt, dr, db⟩).1 = status_t.OK
    ∧ ∀ x y, x < w → y < h →
      load16 (c.convertYUV420Planar ⟨srcBits, w, h, 0, 0, w - 1, h - 1⟩
          ⟨dstBits, dw, dh, dl, dt, dr, db⟩).2.2 ((dt + y) * dw + dl + x) = 0x0000 := by
  have e : specPixel 16 128 128 = 0 := by decide
  have h := planar_uniform_frame c hc srcBits dstBits w h dw dh dl dt dr db 16 128
    hw0 hh0 hwM hhM hwe hhe hl ht hcw hch hfit hY hC
  rw [e] at h
  exact h

/-- Witness for C11: the 2x2 frame `Y = [16,16,16,16]`, `U = 128`, `V = 128`. -/
theorem convertYUV420Planar_darkest_is_black_witness :
    (ColorConverter.create 19 6).ClipInv
    ∧ (∀ a, a < 2 * 2 → load8 exampleDark a = 16)
    ∧ (∀ a, a < 2 * ((2 / 2) * (2 / 2)) → load8 exampleDark (2 * 2 + a) = 128)
    ∧ ((ColorConverter.create 19 6).convertYUV420Planar ⟨exampleDark, 2, 2, 0, 0, 2 - 1, 2 - 1⟩
        ⟨constMem 7, 2, 2, 0, 0, 1, 1⟩).1 = status_t.OK
    ∧ ∀ x y, x < 2 → y < 2 →
      load16 ((ColorConverter.create 19 6).convertYUV420Planar
          ⟨exampleDark, 2, 2, 0, 0, 2 - 1, 2 - 1⟩ ⟨constMem 7, 2, 2, 0, 0, 1, 1⟩).2.2
        ((0 + y) * 2 + 0 + x) = 0x0000 :=
  ⟨Or.inl rfl, by decide, by decide,
    convertYUV420Planar_darkest_is_black (ColorConverter.create 19 6) (Or.inl rfl)
      exampleDark (constMem 7) 2 2 2 2 0 0 1 1 (by decide) (by decide) (by decide)
      (by decide) (by decide) (by decide) (by decide) (by decide) (by decide) (by decide)
      (by decide) (by decide) (by decide)⟩

/-- Claim C12: limited-range white.  For a planar 4:2:0 frame of even width and height
in which every luma byte is 235 and every U and V byte is 128, converted with
`convertYUV420Planar` under a full-frame source crop into a destination crop of the
same size, the call returns `OK` and every destination pixel of the crop is `0xFFFF`. -/
theorem convertYUV420Planar_white_is_ffff (c : ColorConverter) (hc : c.ClipInv)
    (srcBits dstBits : Mem) (w h dw dh dl dt dr db : Nat)
    (hw0 : 0 < w) (hh0 : 0 < h) (hwM : w < SIZE_MOD) (hhM : h < SIZE_MOD)
    (hwe : w % 2 = 0) (hhe : h % 2 = 0)
    (hl : dl ≤ dr) (ht : dt ≤ db)
    (hcw : dr - dl + 1 = w) (hch : db - dt + 1 = h) (hfit : w ≤ dw)
    (hY : ∀ a, a < w * h → load8 srcBits a = 235)
    (hC : ∀ a, a < 2 * ((w / 2) * (h / 2)) → load8 srcBits (w * h + a) = 128) :
    (c.convertYUV420Planar ⟨srcBits, w, h, 0, 0, w - 1, h - 1⟩
        ⟨dstBits, dw, dh, dl, dt, dr, db⟩).1 = status_t.OK
    ∧ ∀ x y, x < w → y < h →
      load16 (c.convertYUV420Planar ⟨srcBits, w, h, 0, 0, w - 1, h - 1⟩
          ⟨dstBits, dw, dh, dl, dt, dr, db⟩).2.2 ((dt + y) * dw + dl + x) = 0xFFFF := by
  have e : specPixel 235 128 128 = 0xFFFF := by decide
  have h := planar_uniform_frame c hc srcBits dstBits w h dw dh dl dt dr db 235 128
    hw0 hh0 hwM hhM hwe hhe hl ht hcw hch hfit hY hC
  rw [e] at h
  exact h

/-- Witness for C12: the 2x2 frame `Y = [235,235,235,235]`, `U = 128`, `V = 128`. -/
theorem convertYUV420Planar_white_is_ffff_witness :
    (ColorConverter.create 19 6).ClipInv
    ∧ (∀ a, a < 2 * 2 → load8 exampleWhite a = 235)
    ∧ (∀ a, a < 2 * ((2 / 2) * (2 / 2)) → load8 exampleWhite (2 * 2 + a) = 128)
    ∧ ((ColorConverter.create 19 6).convertYUV420Planar ⟨exampleWhite, 2, 2, 0, 0, 2 - 1, 2 - 1⟩
        ⟨constMem 7, 2, 2, 0, 0, 1, 1⟩).1 = status_t.OK
    ∧ ∀ x y, x < 2 → y < 2 →
      load16 ((ColorConverter.create 19 6).convertYUV420Planar
          ⟨exampleWhite, 2, 2, 0, 0, 2 - 1, 2 - 1⟩ ⟨constMem 7, 2, 2, 0, 0, 1, 1⟩).2.2
        ((0 + y) * 2 + 0 + x) = 0xFFFF :=
  ⟨Or.inl rfl, by decide, by decide,
    convertYUV420Planar_white_is_ffff (ColorConverter.create 19 6) (Or.inl rfl)
      exampleWhite (constMem 7) 2 2 2 2 0 0 1 1 (by decide) (by decide) (by decide)
      (by decide) (by decide) (by decide) (by decide) (by decide) (by decide) (by decide)
      (by decide) (by decide) (by decide)⟩

/-! ## Odd crop width in the standard semi-planar converter -/

theorem cropSupported_of (src dst : BitmapParams) (w h : Nat)
    (he : src.mCropLeft % 2 = 0) (h1 : src.cropWidth = w) (h2 : dst.cropWidth = w)
    (h3 : src.cropHeight = h) (h4 : dst.cropHeight = h) : cropSupported src dst = true := by
  unfold cropSupported
  rw [decide_eq_true_iff, Nat.and_one_is_mod, h1, h2, h3, h4]
  exact ⟨he, rfl, rfl⟩

theorem semi_out_eq (c : ColorConverter) (src dst : BitmapParams)
    (hsup : cropSupported src dst = true) :
    (c.convertYUV420SemiPlanar src dst).1 = status_t.OK
    ∧ (c.convertYUV420SemiPlanar src dst).2.2
      = (cropLoop src.cropWidth src.cropHeight dst.mWidth
          (semiPair c.initClip.2 src.mBits) (semiNext src.mWidth)
          ⟨dst.mBits, dst.mCropTop * dst.mWidth + dst.mCropLeft,
            ⟨src.mCropTop * src.mWidth + src.mCropLeft,
              src.mCropTop * src.mWidth + src.mCropLeft + src.mWidth * src.mHeight
                + src.mCropTop * src.mWidth + src.mCropLeft⟩⟩).out := by
  unfold ColorConverter.convertYUV420SemiPlanar
  simp only
  rw [if_neg (not_not.2 hsup)]
  exact ⟨rfl, rfl⟩

theorem cropLoop_right_neighbour {σ : Type} (cw ch dw : Nat) (pair : σ → Nat → Nat × Nat)
    (next : Nat → σ → σ) (s0 : RowState σ) (hcw : cw < dw) (y : Nat) (_hy : y < ch) :
    load16 (cropLoop cw ch dw pair next s0).out (s0.dst_ptr + y * dw + cw)
      = load16 s0.out (s0.dst_ptr + y * dw + cw) := by
  have key : ∀ a, a / 2 = s0.dst_ptr + y * dw + cw →
      (cropLoop cw ch dw pair next s0).out a = s0.out a := by
    intro a ha
    apply cropLoop_frame
    intro y2 x2 _ hx2
    rw [ha]
    rcases Nat.lt_trichotomy y y2 with h | h | h
    · have h1 : (y + 1) * dw ≤ y2 * dw := Nat.mul_le_mul_right dw h
      rw [Nat.succ_mul] at h1
      omega
    · subst h
      omega
    · have h1 : (y2 + 1) * dw ≤ y * dw := Nat.mul_le_mul_right dw h
      rw [Nat.succ_mul] at h1
      omega
  exact load16_congr _ _ _ (key _ (by omega)) (key _ (by omega))

/-- Claim C13: odd crop width on `convertYUV420SemiPlanar`.  For source and destination
crop rectangles of the same odd width `w` and the same height (even `srcCropLeft`), in a
destination whose rows are wider than the crop, the call returns `OK`; in every crop
row the destination pixel at index `(dt+y)*dw + dl + w`, just right of the crop, keeps
its prior value; and every pixel in crop columns `0..w-1` equals the pixel that the
same converter writes at that index when both crop rectangles are widened by one
column on the right (crop width `w+1`, all columns written by paired stores). -/
theorem convertYUV420SemiPlanar_odd_width (c : ColorConverter) (hc : c.ClipInv)
    (srcBits dstBits : Mem) (sw sh sl st sr sb dw dh dl dt dr db w h : Nat)
    (hse : sl % 2 = 0) (hsl : sl ≤ sr) (hst : st ≤ sb) (hdl : dl ≤ dr) (hdt : dt ≤ db)
    (hws : sr - sl + 1 = w) (hwd : dr - dl + 1 = w)
    (hhs : sb - st + 1 = h) (hhd : db - dt + 1 = h)
    (hodd : w % 2 = 1) (hwM : w + 1 < SIZE_MOD) (hhM : h < SIZE_MOD) (hroom : w < dw) :
    (c.convertYUV420SemiPlanar ⟨srcBits, sw, sh, sl, st, sr, sb⟩
        ⟨dstBits, dw, dh, dl, dt, dr, db⟩).1 = status_t.OK
    ∧ (c.convertYUV420SemiPlanar ⟨srcBits, sw, sh, sl, st, sr + 1, sb⟩
        ⟨dstBits, dw, dh, dl, dt, dr + 1, db⟩).1 = status_t.OK
    ∧ ∀ y, y < h →
      load16 (c.convertYUV420SemiPlanar ⟨srcBits, sw, sh, sl, st, sr, sb⟩
          ⟨dstBits, dw, dh, dl, dt, dr, db⟩).2.2 ((dt + y) * dw + dl + w)
        = load16 dstBits ((dt + y) * dw + dl + w)
      ∧ ∀ x, x < w →
        load16 (c.convertYUV420SemiPlanar ⟨srcBits, sw, sh, sl, st, sr, sb⟩
            ⟨dstBits, dw, dh, dl, dt, dr, db⟩).2.2 ((dt + y) * dw + dl + x)
          = load16 (c.convertYUV420SemiPlanar ⟨srcBits, sw, sh, sl, st, sr + 1, sb⟩
            ⟨dstBits, dw, dh, dl, dt, dr + 1, db⟩).2.2 ((dt + y) * dw + dl + x) := by
  have hsw : (⟨srcBits, sw, sh, sl, st, sr, sb⟩ : BitmapParams).cropWidth = w :=
    cropSize_eq sr sl w hsl hws (by omega)
  have hsh : (⟨srcBits, sw, sh, sl, st, sr, sb⟩ : BitmapParams).cropHeight = h :=
    cropSize_eq sb st h hst hhs hhM
  have hdw : (⟨dstBits, dw, dh, dl, dt, dr, db⟩ : BitmapParams).cropWidth = w :=
    cropSize_eq dr dl w hdl hwd (by omega)
  have hdh : (⟨dstBits, dw, dh, dl, dt, dr, db⟩ : BitmapParams).cropHeight = h :=
    cropSize_eq db dt h hdt hhd hhM
  have hsw2 : (⟨srcBits, sw, sh, sl, st, sr + 1, sb⟩ : BitmapParams).cropWidth = w + 1 :=
    cropSize_eq (sr + 1) sl (w + 1) (by omega) (by omega) hwM
  have hsh2 : (⟨srcBits, sw, sh, sl, st, sr + 1, sb⟩ : BitmapParams).cropHeight = h :=
    cropSize_eq sb st h hst hhs hhM
  have hdw2 : (⟨dstBits, dw, dh, dl, dt, dr + 1, db⟩ : BitmapParams).cropWidth = w + 1 :=
    cropSize_eq (dr + 1) dl (w + 1) (by omega) (by omega) hwM
  have hdh2 : (⟨dstBits, dw, dh, dl, dt, dr + 1, db⟩ : BitmapParams).cropHeight = h :=
    cropSize_eq db dt h hdt hhd hhM
  have hsup := cropSupported_of ⟨srcBits, sw, sh, sl, st, sr, sb⟩
    ⟨dstBits, dw, dh, dl, dt, dr, db⟩ w h hse hsw hdw hsh hdh
  have hsup2 := cropSupported_of ⟨srcBits, sw, sh, sl, st, sr + 1, sb⟩
    ⟨dstBits, dw, dh, dl, dt, dr + 1, db⟩ (w + 1) h hse hsw2 hdw2 hsh2 hdh2
  have ho := semi_out_eq c _ _ hsup
  refine ⟨ho.1, (semi_out_eq c _ _ hsup2).1, fun y hy => ⟨?_, fun x hx => ?_⟩⟩
  · have e : (dt + y) * dw + dl + w = dt * dw + dl + y * dw + w := by
      rw [Nat.add_mul]
      omega
    rw [ho.2, e, hsw, hsh]
    exact cropLoop_right_neighbour w h dw _ _
      ⟨dstBits, dt * dw + dl, _⟩ hroom y hy
  · have e : (dt + y) * dw + dl + x = dt * dw + dl + y * dw + x := by
      rw [Nat.add_mul]
      omega
    rw [e]
    have p1 := semi_pixel c hc ⟨srcBits, sw, sh, sl, st, sr, sb⟩
      ⟨dstBits, dw, dh, dl, dt, dr, db⟩ hsup (by rw [hsw]; exact Nat.le_of_lt hroom) x y
      (by rw [hsw]; exact hx) (by rw [hsh]; exact hy)
    have p2 := semi_pixel c hc ⟨srcBits, sw, sh, sl, st, sr + 1, sb⟩
      ⟨dstBits, dw, dh, dl, dt, dr + 1, db⟩ hsup2 (by rw [hsw2]; exact hroom) x y
      (by rw [hsw2]; omega) (by rw [hsh2]; exact hy)
    exact p1.trans p2.symm

/-- Witness for C13: crop width 3 at columns 0..2 of a 4-wide destination. -/
theorem convertYUV420SemiPlanar_odd_width_witness :
    (ColorConverter.create 21 6).ClipInv ∧ 0 % 2 = 0 ∧ 2 - 0 + 1 = 3 ∧ 3 - 1 + 1 = 3
    ∧ 3 % 2 = 1 ∧ 3 + 1 < SIZE_MOD ∧ 3 < 4
    ∧ load16 ((ColorConverter.create 21 6).convertYUV420SemiPlanar
          ⟨constMem 16, 4, 4, 0, 0, 2, 2⟩ ⟨constMem 7, 4, 4, 0, 1, 2, 3⟩).2.2
        ((1 + 0) * 4 + 0 + 3)
      = load16 (constMem 7) ((1 + 0) * 4 + 0 + 3)
    ∧ load16 ((ColorConverter.create 21 6).convertYUV420SemiPlanar
          ⟨constMem 16, 4, 4, 0, 0, 2, 2⟩ ⟨constMem 7, 4, 4, 0, 1, 2, 3⟩).2.2
        ((1 + 0) * 4 + 0 + 2)
      = load16 ((ColorConverter.create 21 6).convertYUV420SemiPlanar
          ⟨constMem 16, 4, 4, 0, 0, 2 + 1, 2⟩ ⟨constMem 7, 4, 4, 0, 1, 2 + 1, 3⟩).2.2
        ((1 + 0) * 4 + 0 + 2) :=
  ⟨Or.inl rfl, by decide, by decide, by decide, by decide, by decide, by decide,
    ((convertYUV420SemiPlanar_odd_width (ColorConverter.create 21 6) (Or.inl rfl)
      (constMem 16) (constMem 7) 4 4 0 0 2 2 4 4 0 1 2 3 3 3 (by decide) (by decide)
      (by decide) (by decide) (by decide) (by decide) (by decide) (by decide) (by decide)
      (by decide) (by decide) (by decide) (by decide)).2.2 0 (by decide)).1,
    ((convertYUV420SemiPlanar_odd_width (ColorConverter.create 21 6) (Or.inl rfl)
      (constMem 16) (constMem 7) 4 4 0 0 2 2 4 4 0 1 2 3 3 3 (by decide) (by decide)
      (by decide) (by decide) (by decide) (by decide) (by decide) (by decide) (by decide)
      (by decide) (by decide) (by decide) (by decide)).2.2 0 (by decide)).2 2 (by decide)⟩

/-! ## Source addressing under a crop offset -/

theorem planar_out_ok (c : ColorConverter) (src dst : BitmapParams)
    (hsup : cropSupported src dst = true) :
    (c.convertYUV420Planar src dst).1 = status_t.OK := by
  unfold ColorConverter.convertYUV420Planar
  rw [if_neg (not_not.2 hsup)]

/-- Claim C17, evaluated at a failing input: on the 4x4 frame `examplePlanar4` with the
source crop `(2,0,3,1)`, `convertYUV420Planar` returns `OK` and the pixel at crop
position (0,0) is the conversion of the luma byte at offset 2 with the bytes at offsets
19 and 23 as `U` and `V`, namely `0xC81F`; the `U` and `V` samples of chroma position
`((2+0)/2, (0+0)/2)` are at offsets 17 and 21 and give `0x0000`. -/
theorem convertYUV420Planar_crop_chroma_misaddressed :
    ((ColorConverter.create 19 6).convertYUV420Planar
        examplePlanarCropSrc exampleDst).1 = status_t.OK
    ∧ load16 ((ColorConverter.create 19 6).convertYUV420Planar
        examplePlanarCropSrc exampleDst).2.2 0
      = specPixel (load8 examplePlanar4 2) (load8 examplePlanar4 19) (load8 examplePlanar4 23)
    ∧ load16 ((ColorConverter.create 19 6).convertYUV420Planar
        examplePlanarCropSrc exampleDst).2.2 0 = 0xC81F
    ∧ specPixel (load8 examplePlanar4 ((0 + 0) * 4 + 2 + 0))
        (load8 examplePlanar4 (4 * 4 + ((0 + 0) / 2) * (4 / 2) + (2 + 0) / 2))
        (load8 examplePlanar4 (4 * 4 + ((0 + 0) / 2) * (4 / 2) + (2 + 0) / 2
          + (4 / 2) * (4 / 2))) = 0x0000 := by
  have hsup : cropSupported examplePlanarCropSrc exampleDst = true := by decide
  have hpx : load16 ((ColorConverter.create 19 6).convertYUV420Planar
      examplePlanarCropSrc exampleDst).2.2 0 = specPixel 16 255 255 :=
    planar_pixel (ColorConverter.create 19 6) (Or.inl rfl) examplePlanarCropSrc exampleDst
      hsup (by decide) 0 0 (by decide) (by decide)
  have e1 : specPixel 16 255 255 = 0xC81F := by decide
  have e2 : specPixel 16 128 128 = 0 := by decide
  refine ⟨planar_out_ok _ _ _ hsup, hpx, hpx.trans e1, e2⟩

/-- Claim C18, evaluated at a failing input: a 2x2 frame (buffer of `2*2*3/2 = 6`
bytes) with the source crop `(0,1,1,1)`.  `exampleSemiA` and `exampleSemiB` agree on
every offset below 6, yet `convertYUV420SemiPlanar` writes different pixels for them:
the pixel is the conversion of the luma byte at offset 2 with the bytes at offsets 9 and
8 as `U` and `V`, so the converter reads offsets 8 and 9, beyond the 6-byte buffer. -/
theorem convertYUV420SemiPlanar_reads_past_buffer :
    (∀ a, a < 2 * 2 * 3 / 2 → exampleSemiA a = exampleSemiB a)
    ∧ ((ColorConverter.create 21 6).convertYUV420SemiPlanar
        ⟨exampleSemiA, 2, 2, 0, 1, 1, 1⟩ ⟨constMem 7, 2, 1, 0, 0, 1, 0⟩).1 = status_t.OK
    ∧ load16 ((ColorConverter.create 21 6).convertYUV420SemiPlanar
        ⟨exampleSemiA, 2, 2, 0, 1, 1, 1⟩ ⟨constMem 7, 2, 1, 0, 0, 1, 0⟩).2.2 0
      = specPixelBGR (load8 exampleSemiA 2) (load8 exampleSemiA 9) (load8 exampleSemiA 8)
    ∧ load16 ((ColorConverter.create 21 6).convertYUV420SemiPlanar
        ⟨exampleSemiA, 2, 2, 0, 1, 1, 1⟩ ⟨constMem 7, 2, 1, 0, 0, 1, 0⟩).2.2 0 = 0
    ∧ load16 ((ColorConverter.create 21 6).convertYUV420SemiPlanar
        ⟨exampleSemiB, 2, 2, 0, 1, 1, 1⟩ ⟨constMem 7, 2, 1, 0, 0, 1, 0⟩).2.2 0 = 0xF819
    ∧ 2 * 2 * 3 / 2 ≤ 8 := by
  have hsupA : cropSupported ⟨exampleSemiA, 2, 2, 0, 1, 1, 1⟩
      ⟨constMem 7, 2, 1, 0, 0, 1, 0⟩ = true := by decide
  have hsupB : cropSupported ⟨exampleSemiB, 2, 2, 0, 1, 1, 1⟩
      ⟨constMem 7, 2, 1, 0, 0, 1, 0⟩ = true := by decide
  have hA : load16 ((ColorConverter.create 21 6).convertYUV420SemiPlanar
      ⟨exampleSemiA, 2, 2, 0, 1, 1, 1⟩ ⟨constMem 7, 2, 1, 0, 0, 1, 0⟩).2.2 0
      = pixBGR clipTable 16 128 128 :=
    semi_pixel (ColorConverter.create 21 6) (Or.inl rfl) ⟨exampleSemiA, 2, 2, 0, 1, 1, 1⟩
      ⟨constMem 7, 2, 1, 0, 0, 1, 0⟩ hsupA (by decide) 0 0 (by decide) (by decide)
  have hB : load16 ((ColorConverter.create 21 6).convertYUV420SemiPlanar
      ⟨exampleSemiB, 2, 2, 0, 1, 1, 1⟩ ⟨constMem 7, 2, 1, 0, 0, 1, 0⟩).2.2 0
      = pixBGR clipTable 16 255 255 :=
    semi_pixel (ColorConverter.create 21 6) (Or.inl rfl) ⟨exampleSemiB, 2, 2, 0, 1, 1, 1⟩
      ⟨constMem 7, 2, 1, 0, 0, 1, 0⟩ hsupB (by decide) 0 0 (by decide) (by decide)
  have eA : pixBGR clipTable 16 128 128 = specPixelBGR 16 128 128 :=
    pixBGR_spec 16 128 128 (by decide) (by decide) (by decide)
  have eB : pixBGR clipTable 16 255 255 = specPixelBGR 16 255 255 :=
    pixBGR_spec 16 255 255 (by decide) (by decide) (by decide)
  have vA : specPixelBGR 16 128 128 = 0 := by decide
  have vB : specPixelBGR 16 255 255 = 0xF819 := by decide
  refine ⟨by decide, (semi_out_eq _ _ _ hsupA).1, hA.trans eA, (hA.trans eA).trans vA,
    (hB.trans eB).trans vB, by decide⟩

/-! ## Luma addressing of the three semi-planar converters -/

theorem pixBGR_specBGR (Y U V : Nat) (hY : Y < 256) (hU : U < 256) (hV : V < 256) :
    pixBGR clipTable Y U V = specPixelBGR Y U V :=
  pixBGR_spec Y U V hY hU hV

theorem specPixel_luma235_ne_zero (U V : Nat) (hV : V < 256) : specPixel 235 U V ≠ 0 := by
  have hr : 50 ≤ specClip (specR 235 V) := by
    unfold specClip specR
    rw [tdiv256_eq]
    split
    · split
      · omega
      · split
        · omega
        · omega
    · omega
  have h1 := specClip_lt (specR 235 V)
  have h2 := specClip_lt (specG 235 U V)
  have h3 := specClip_lt (specB 235 U)
  have e : specPixel 235 U V
      = packBits (specClip (specR 235 V)) (specClip (specG 235 U V)) (specClip (specB 235 U)) :=
    rfl
  rw [e, packBits_eq _ _ _ h2 h3]
  omega

/-- Counterexample to C19 as stated: `convertTIYUV420PackedSemiPlanar` on the 4x2 frame
`exampleLumaMark` with the source crop `(2,0,3,1)`.  The source byte at
`(srcCropTop+0)*srcWidth + srcCropLeft + 0 = 2` is 235, and no pixel computed from luma
235 is `0x0000`, whatever the chroma; yet the call returns `OK` and writes `0x0000` at
crop position (0,0), the conversion of the luma byte at offset 0. -/
theorem convertTIYUV420PackedSemiPlanar_luma_from_buffer_base :
    ((ColorConverter.create 0x7F000100 6).convertTIYUV420PackedSemiPlanar
        exampleRightHalfSrc exampleDst).1 = status_t.OK
    ∧ load8 exampleLumaMark ((0 + 0) * 4 + 2 + 0) = 235
    ∧ load8 exampleLumaMark 0 = 16
    ∧ load16 ((ColorConverter.create 0x7F000100 6).convertTIYUV420PackedSemiPlanar
        exampleRightHalfSrc exampleDst).2.2 0
      = specPixel (load8 exampleLumaMark 0) (load8 exampleLumaMark 8) (load8 exampleLumaMark 9)
    ∧ load16 ((ColorConverter.create 0x7F000100 6).convertTIYUV420PackedSemiPlanar
        exampleRightHalfSrc exampleDst).2.2 0 = 0x0000
    ∧ ∀ U V : Byte,
      load16 ((ColorConverter.create 0x7F000100 6).convertTIYUV420PackedSemiPlanar
        exampleRightHalfSrc exampleDst).2.2 0
        ≠ specPixel (load8 exampleLumaMark ((0 + 0) * 4 + 2 + 0)) U.val V.val := by
  have hsup : cropSupported exampleRightHalfSrc exampleDst = true := by decide
  have hpx : load16 ((ColorConverter.create 0x7F000100 6).convertTIYUV420PackedSemiPlanar
      exampleRightHalfSrc exampleDst).2.2 0 = pixRGB clipTable 16 128 128 :=
    ti_pixel (ColorConverter.create 0x7F000100 6) (Or.inl rfl) exampleRightHalfSrc
      exampleDst hsup (by decide) 0 0 (by decide) (by decide)
  have e1 : pixRGB clipTable 16 128 128 = specPixel 16 128 128 :=
    pixRGB_spec 16 128 128 (by decide) (by decide) (by decide)
  have e2 : specPixel 16 128 128 = 0 := by decide
  have h0 := (hpx.trans e1).trans e2
  refine ⟨?_, rfl, rfl, hpx.trans e1, h0, fun U V => ?_⟩
  · unfold ColorConverter.convertTIYUV420PackedSemiPlanar
    simp only
    rw [if_neg (not_not.2 hsup)]
  · rw [h0]
    exact fun h => specPixel_luma235_ne_zero U.val V.val V.isLt h.symm

/-- Claim C19, amended: for an accepted geometry whose crop fits in a destination row
and every crop position `(x, y)`, `convertQCOMYUV420SemiPlanar` and
`convertYUV420SemiPlanar` compute the destination pixel from the luma byte at
`(srcCropTop+y)*srcWidth + srcCropLeft + x`, and `convertTIYUV420PackedSemiPlanar`
computes it from the luma byte at `y*srcWidth + x`, counted from the buffer base
without the crop offset.  The chroma bytes are the ones each converter addresses. -/
theorem semiplanar_luma_addresses (c : ColorConverter) (hc : c.ClipInv)
    (src dst : BitmapParams) (hok : ¬ Rejected src dst)
    (hcw : src.cropWidth ≤ dst.mWidth)
    (x y : Nat) (hx : x < src.cropWidth) (hy : y < src.cropHeight) :
    load16 (c.convertQCOMYUV420SemiPlanar src dst).2.2
        ((dst.mCropTop + y) * dst.mWidth + dst.mCropLeft + x)
      = specPixelBGR
          (load8 src.mBits ((src.mCropTop + y) * src.mWidth + src.mCropLeft + x))
          (load8 src.mBits (src.mCropTop * src.mWidth + src.mCropLeft
            + src.mWidth * src.mHeight + src.mCropTop * src.mWidth + src.mCropLeft
            + (y / 2) * src.mWidth + andNot1 x))
          (load8 src.mBits (src.mCropTop * src.mWidth + src.mCropLeft
            + src.mWidth * src.mHeight + src.mCropTop * src.mWidth + src.mCropLeft
            + (y / 2) * src.mWidth + (andNot1 x + 1)))
    ∧ load16 (c.convertYUV420SemiPlanar src dst).2.2
        ((dst.mCropTop + y) * dst.mWidth + dst.mCropLeft + x)
      = specPixelBGR
          (load8 src.mBits ((src.mCropTop + y) * src.mWidth + src.mCropLeft + x))
          (load8 src.mBits (src.mCropTop * src.mWidth + src.mCropLeft
            + src.mWidth * src.mHeight + src.mCropTop * src.mWidth + src.mCropLeft
            + (y / 2) * src.mWidth + (andNot1 x + 1)))
          (load8 src.mBits (src.mCropTop * src.mWidth + src.mCropLeft
            + src.mWidth * src.mHeight + src.mCropTop * src.mWidth + src.mCropLeft
            + (y / 2) * src.mWidth + andNot1 x))
    ∧ load16 (c.convertTIYUV420PackedSemiPlanar src dst).2.2
        ((dst.mCropTop + y) * dst.mWidth + dst.mCropLeft + x)
      = specPixel
          (load8 src.mBits (y * src.mWidth + x))
          (load8 src.mBits (src.mWidth * subSz src.mHeight (src.mCropTop / 2)
            + (y / 2) * src.mWidth + andNot1 x))
          (load8 src.mBits (src.mWidth * subSz src.mHeight (src.mCropTop / 2)
            + (y / 2) * src.mWidth + (andNot1 x + 1))) := by
  have hsup := (cropSupported_iff src dst).2 hok
  have ed : (dst.mCropTop + y) * dst.mWidth + dst.mCropLeft + x
      = dst.mCropTop * dst.mWidth + dst.mCropLeft + y * dst.mWidth + x := by
    rw [Nat.add_mul]
    omega
  have es : (src.mCropTop + y) * src.mWidth + src.mCropLeft + x
      = src.mCropTop * src.mWidth + src.mCropLeft + y * src.mWidth + x := by
    rw [Nat.add_mul]
    omega
  rw [ed, es]
  refine ⟨?_, ?_, ?_⟩
  · rw [qcom_pixel c hc src dst hsup hcw x y hx hy]
    exact pixBGR_specBGR _ _ _ (load8_lt _ _) (load8_lt _ _) (load8_lt _ _)
  · rw [semi_pixel c hc src dst hsup hcw x y hx hy]
    exact pixBGR_specBGR _ _ _ (load8_lt _ _) (load8_lt _ _) (load8_lt _ _)
  · rw [ti_pixel c hc src dst hsup hcw x y hx hy]
    simp only [Nat.zero_add]
    exact pixRGB_spec _ _ _ (load8_lt _ _) (load8_lt _ _) (load8_lt _ _)

/-- Witness for the amended C19: the source crop `(2,0,3,1)` of the 4x2 frame
`exampleLumaMark`, crop position (0,0); the standard converter uses the luma byte at
offset 2. -/
theorem semiplanar_luma_addresses_witness :
    (ColorConverter.create 21 6).ClipInv ∧ ¬ Rejected exampleRightHalfSrc exampleDst
    ∧ exampleRightHalfSrc.cropWidth ≤ exampleDst.mWidth
    ∧ 0 < exampleRightHalfSrc.cropWidth ∧ 0 < exampleRightHalfSrc.cropHeight
    ∧ load16 ((ColorConverter.create 21 6).convertYUV420SemiPlanar
        exampleRightHalfSrc exampleDst).2.2 0
      = specPixelBGR (load8 exampleLumaMark 2) (load8 exampleLumaMark 13)
          (load8 exampleLumaMark 12) :=
  ⟨Or.inl rfl,
    (cropSupported_iff exampleRightHalfSrc exampleDst).1 (by decide), by decide,
    by decide, by decide,
    (semiplanar_luma_addresses (ColorConverter.create 21 6) (Or.inl rfl)
      exampleRightHalfSrc exampleDst
      ((cropSupported_iff exampleRightHalfSrc exampleDst).1 (by decide))
      (by decide) 0 0 (by decide) (by decide)).2.1⟩

/-! ## Source addressing of the packed converter -/

theorem cbycryPair_at (t : List Nat) (m : Mem) (p : Nat) (x : Nat) :
    pairAt (cbycryPair t m) p x
      = pixRGB t (load8 m (p + (2 * x + 1))) (load8 m (p + 2 * andNot1 x))
          (load8 m (p + (2 * andNot1 x + 2))) := by
  unfold pairAt cbycryPair pairRGB
  split
  · next h =>
    have e : andNot1 x = x := by unfold andNot1; omega
    rw [e]
  · next h =>
    have e : andNot1 x = x - 1 := by unfold andNot1; omega
    have e2 : 2 * (x - 1) + 3 = 2 * x + 1 := by omega
    rw [e, e2]

theorem cbycry_rowPtrs (stride b : Nat) (y : Nat) :
    rowPtrs (fun (_ : Nat) (p : Nat) => p + stride) 0 y b = b + y * stride := by
  induction y with
  | zero => simp [rowPtrs]
  | succ y ih =>
    rw [rowPtrs_succ, ih, Nat.succ_mul, Nat.add_assoc]

theorem cbycry_pixel (c : ColorConverter) (hc : c.ClipInv) (src dst : BitmapParams)
    (hsup : cropSupported src dst = true) (hcw : src.cropWidth ≤ dst.mWidth)
    (x y : Nat) (hx : x < src.cropWidth) (hy : y < src.cropHeight) :
    (c.convertCbYCrY src dst).1 = status_t.OK
    ∧ load16 (c.convertCbYCrY src dst).2.2
        (dst.mCropTop * dst.mWidth + dst.mCropLeft + y * dst.mWidth + x)
      = specPixel
          (load8 src.mBits ((src.mCropTop * dst.mWidth + src.mCropLeft) * 2
            + y * (src.mWidth * 2) + (2 * x + 1)))
          (load8 src.mBits ((src.mCropTop * dst.mWidth + src.mCropLeft) * 2
            + y * (src.mWidth * 2) + 2 * andNot1 x))
          (load8 src.mBits ((src.mCropTop * dst.mWidth + src.mCropLeft) * 2
            + y * (src.mWidth * 2) + (2 * andNot1 x + 2))) := by
  unfold ColorConverter.convertCbYCrY
  simp only [(clipInv_initClip c hc).1]
  rw [if_neg (not_not.2 hsup)]
  simp only
  refine ⟨trivial, ?_⟩
  refine Eq.trans (cropLoop_value _ _ _ (cbycryPair clipTable src.mBits) _ _
    (fun p x => pairRGB_lt _ _ _ _) hcw y x hy hx) ?_
  simp only [cbycry_rowPtrs, cbycryPair_at]
  exact pixRGB_spec _ _ _ (load8_lt _ _) (load8_lt _ _) (load8_lt _ _)

/-- Counterexample to C20 as stated: `convertCbYCrY` from the 2x2 source `exampleCbYCrY`
into a destination of width 4.  For crop row 1, column 0 the claimed group starts at
offset `((0+1)*4 + 0)*2 + 2*0 = 8`, where `Y0 = 235` gives the pixel `0xFFFF`; the call
returns `OK` and writes `0x0000`, the conversion of the group at offset 4. -/
theorem convertCbYCrY_row_stride_is_source_width :
    ((ColorConverter.create 27 6).convertCbYCrY
        ⟨exampleCbYCrY, 2, 2, 0, 0, 1, 1⟩ exampleWideDst).1 = status_t.OK
    ∧ load16 ((ColorConverter.create 27 6).convertCbYCrY
        ⟨exampleCbYCrY, 2, 2, 0, 0, 1, 1⟩ exampleWideDst).2.2 ((0 + 1) * 4 + 0 + 0)
      = specPixel (load8 exampleCbYCrY (4 + 1)) (load8 exampleCbYCrY 4)
          (load8 exampleCbYCrY (4 + 2))
    ∧ load16 ((ColorConverter.create 27 6).convertCbYCrY
        ⟨exampleCbYCrY, 2, 2, 0, 0, 1, 1⟩ exampleWideDst).2.2 ((0 + 1) * 4 + 0 + 0) = 0x0000
    ∧ specPixel (load8 exampleCbYCrY (((0 + 1) * 4 + 0) * 2 + 2 * 0 + 1))
        (load8 exampleCbYCrY (((0 + 1) * 4 + 0) * 2 + 2 * 0))
        (load8 exampleCbYCrY (((0 + 1) * 4 + 0) * 2 + 2 * 0 + 2)) = 0xFFFF
    ∧ load16 ((ColorConverter.create 27 6).convertCbYCrY
        ⟨exampleCbYCrY, 2, 2, 0, 0, 1, 1⟩ exampleWideDst).2.2 ((0 + 1) * 4 + 0 + 0)
      ≠ specPixel (load8 exampleCbYCrY (((0 + 1) * 4 + 0) * 2 + 2 * 0 + 1))
        (load8 exampleCbYCrY (((0 + 1) * 4 + 0) * 2 + 2 * 0))
        (load8 exampleCbYCrY (((0 + 1) * 4 + 0) * 2 + 2 * 0 + 2)) := by
  have hsup : cropSupported ⟨exampleCbYCrY, 2, 2, 0, 0, 1, 1⟩ exampleWideDst = true := by
    decide
  have h := cbycry_pixel (ColorConverter.create 27 6) (Or.inl rfl)
    ⟨exampleCbYCrY, 2, 2, 0, 0, 1, 1⟩ exampleWideDst hsup (by decide) 0 1
    (by decide) (by decide)
  have hpx : load16 ((ColorConverter.create 27 6).convertCbYCrY
      ⟨exampleCbYCrY, 2, 2, 0, 0, 1, 1⟩ exampleWideDst).2.2 ((0 + 1) * 4 + 0 + 0)
      = specPixel 16 128 128 := h.2
  have e1 : specPixel 16 128 128 = 0 := by decide
  have e2 : specPixel 235 128 128 = 0xFFFF := by decide
  refine ⟨h.1, hpx, hpx.trans e1, e2, ?_⟩
  rw [hpx.trans e1]
  exact fun hne => absurd (hne.trans e2) (by decide)

/-- Claim C20, amended: in `convertCbYCrY`, for an accepted geometry whose crop fits in
a destination row, every crop row `y` and even crop column `x`, the 4-byte group read
for the pixel pair starts at source byte offset
`(srcCropTop*dstWidth + srcCropLeft)*2 + y*srcWidth*2 + 2*x` (the offset of the first
crop row uses the destination width, successive rows are `srcWidth*2` bytes apart),
with `Cb` at +0, `Y0` at +1, `Cr` at +2 and `Y1` at +3: the pixel in column `x` is the
conversion of `(Y0, Cb, Cr)` and the pixel in column `x+1`, when inside the crop, the
conversion of `(Y1, Cb, Cr)`. -/
theorem convertCbYCrY_group_offset (c : ColorConverter) (hc : c.ClipInv)
    (src dst : BitmapParams) (hok : ¬ Rejected src dst)
    (hcw : src.cropWidth ≤ dst.mWidth)
    (x y : Nat) (hxe : x % 2 = 0) (hx : x < src.cropWidth) (hy : y < src.cropHeight) :
    load16 (c.convertCbYCrY src dst).2.2
        ((dst.mCropTop + y) * dst.mWidth + dst.mCropLeft + x)
      = specPixel
          (load8 src.mBits ((src.mCropTop * dst.mWidth + src.mCropLeft) * 2
            + y * src.mWidth * 2 + 2 * x + 1))
          (load8 src.mBits ((src.mCropTop * dst.mWidth + src.mCropLeft) * 2
            + y * src.mWidth * 2 + 2 * x))
          (load8 src.mBits ((src.mCropTop * dst.mWidth + src.mCropLeft) * 2
            + y * src.mWidth * 2 + 2 * x + 2))
    ∧ (x + 1 < src.cropWidth →
      load16 (c.convertCbYCrY src dst).2.2
          ((dst.mCropTop + y) * dst.mWidth + dst.mCropLeft + (x + 1))
        = specPixel
            (load8 src.mBits ((src.mCropTop * dst.mWidth + src.mCropLeft) * 2
              + y * src.mWidth * 2 + 2 * x + 3))
            (load8 src.mBits ((src.mCropTop * dst.mWidth + src.mCropLeft) * 2
              + y * src.mWidth * 2 + 2 * x))
            (load8 src.mBits ((src.mCropTop * dst.mWidth + src.mCropLeft) * 2
              + y * src.mWidth * 2 + 2 * x + 2))) := by
  have hsup := (cropSupported_iff src dst).2 hok
  have ed : ∀ k, (dst.mCropTop + y) * dst.mWidth + dst.mCropLeft + k
      = dst.mCropTop * dst.mWidth + dst.mCropLeft + y * dst.mWidth + k := by
    intro k
    rw [Nat.add_mul]
    omega
  have a0 : andNot1 x = x := by unfold andNot1; omega
  have a1 : andNot1 (x + 1) = x := by unfold andNot1; omega
  have em : y * src.mWidth * 2 = y * (src.mWidth * 2) := Nat.mul_assoc _ _ _
  constructor
  · rw [ed, (cbycry_pixel c hc src dst hsup hcw x y hx hy).2, a0, em]
    simp only [Nat.add_assoc]
  · intro hx1
    rw [ed, (cbycry_pixel c hc src dst hsup hcw (x + 1) y hx1 hy).2, a1, em]
    have e3 : 2 * (x + 1) + 1 = 2 * x + 3 := by omega
    rw [e3]
    simp only [Nat.add_assoc]

/-- Witness for the amended C20: crop row 1, column 0 of the 2x2 source `exampleCbYCrY`
converted into a destination of width 4; the group starts at offset 4. -/
theorem convertCbYCrY_group_offset_witness :
    (ColorConverter.create 27 6).ClipInv
    ∧ ¬ Rejected ⟨exampleCbYCrY, 2, 2, 0, 0, 1, 1⟩ exampleWideDst
    ∧ (⟨exampleCbYCrY, 2, 2, 0, 0, 1, 1⟩ : BitmapParams).cropWidth ≤ exampleWideDst.mWidth
    ∧ 0 % 2 = 0
    ∧ load16 ((ColorConverter.create 27 6).convertCbYCrY
        ⟨exampleCbYCrY, 2, 2, 0, 0, 1, 1⟩ exampleWideDst).2.2 4
      = specPixel (load8 exampleCbYCrY 5) (load8 exampleCbYCrY 4) (load8 exampleCbYCrY 6) :=
  ⟨Or.inl rfl,
    (cropSupported_iff ⟨exampleCbYCrY, 2, 2, 0, 0, 1, 1⟩ exampleWideDst).1 (by decide),
    by decide, by decide,
    (convertCbYCrY_group_offset (ColorConverter.create 27 6) (Or.inl rfl)
      ⟨exampleCbYCrY, 2, 2, 0, 0, 1, 1⟩ exampleWideDst
      ((cropSupported_iff ⟨exampleCbYCrY, 2, 2, 0, 0, 1, 1⟩ exampleWideDst).1 (by decide))
      (by decide) 0 1 (by decide) (by decide) (by decide)).1⟩

/-! ## The tiled converter: every write meets the byte specification -/

theorem upd_refl (Q : Nat → Byte → Prop) (m : Mem) : Upd Q m m := fun _ => Or.inl rfl

theorem upd_trans (Q : Nat → Byte → Prop) (m n k : Mem) (h1 : Upd Q m n) (h2 : Upd Q n k) :
    Upd Q m k := by
  intro a
  rcases h2 a with h | h
  · rcases h1 a with h' | h'
    · exact Or.inl (h.trans h')
    · exact Or.inr (by rw [h]; exact h')
  · exact Or.inr h

theorem upd_store8 (Q : Nat → Byte → Prop) (m : Mem) (a v : Nat) (h : Q a (toByte v)) :
    Upd Q m (store8 m a v) := by
  intro i
  rw [store8_apply]
  by_cases hi : i = a
  · rw [if_pos hi, hi]
    exact Or.inr h
  · rw [if_neg hi]
    exact Or.inl rfl

theorem forLoop_upd {σ : Type} (out : σ → Mem) (Q : Nat → Byte → Prop) (n : Nat)
    (body : Nat → σ → σ) (Inv : Nat → σ → Prop) (R : Nat → Nat → Prop)
    (hstep : ∀ i s, i < n → Inv i s →
      Inv (i + 1) (body i s) ∧ Upd Q (out s) (out (body i s))
        ∧ ∀ a, R i a → Q a (out (body i s) a))
    (fuel : Nat) : ∀ (i : Nat) (s : σ), n ≤ i + fuel → i ≤ n → Inv i s →
      Inv n (forLoop n 1 body fuel i s)
      ∧ Upd Q (out s) (out (forLoop n 1 body fuel i s))
      ∧ ∀ a j, i ≤ j → j < n → R j a → Q a (out (forLoop n 1 body fuel i s) a) := by
  induction fuel with
  | zero =>
    intro i s h1 h2 hI
    have e : i = n := by omega
    subst e
    exact ⟨hI, upd_refl Q _, fun a j h3 h4 _ => by omega⟩
  | succ fuel ih =>
    intro i s h1 h2 hI
    simp only [forLoop]
    by_cases hi : i < n
    · rw [if_pos hi]
      obtain ⟨hI', hU, hR⟩ := hstep i s hi hI
      obtain ⟨g1, g2, g3⟩ := ih (i + 1) (body i s) (by omega) (by omega) hI'
      refine ⟨g1, upd_trans Q _ _ _ hU g2, fun a j h3 h4 hRj => ?_⟩
      by_cases hj : j = i
      · subst hj
        rcases g2 a with h | h
        · rw [h]
          exact hR a hRj
        · exact h
      · exact g3 a j (by omega) h4 hRj
    · rw [if_neg hi]
      have e : i = n := by omega
      subst e
      exact ⟨hI, upd_refl Q _, fun a j h3 h4 _ => by omega⟩

theorem nv12TileComputeRGB_spec (src : Mem) (Q : Nat → Byte → Prop) (s : TileState)
    (hc : s.conv.ClipInv) (blockUV blockY bw dstSkip : Nat)
    (hQ : ∀ i, i < bw → PixQ Q (s.dstPtr + i * 2)
      (pixRGB clipTable (load8 src (blockY + i)) (load8 src (blockUV + andNot1 i))
        (load8 src (blockUV + (andNot1 i + 1))))) :
    (nv12TileComputeRGB src s blockUV blockY bw dstSkip).conv.ClipInv
    ∧ (nv12TileComputeRGB src s blockUV blockY bw dstSkip).dstPtr = s.dstPtr + dstSkip
    ∧ Upd Q s.out (nv12TileComputeRGB src s blockUV blockY bw dstSkip).out
    ∧ ∀ a i, i < bw → (a = s.dstPtr + i * 2 ∨ a = s.dstPtr + i * 2 + 1) →
        Q a ((nv12TileComputeRGB src s blockUV blockY bw dstSkip).out a) := by
  unfold nv12TileComputeRGB
  simp only [(clipInv_initClip s.conv hc).1]
  refine ⟨(clipInv_initClip s.conv hc).2, trivial, ?_⟩
  have h := forLoop_upd (fun (m : Mem) => m) Q bw
    (fun i m =>
      store8 (store8 m (s.dstPtr + i * 2)
        (pixRGB clipTable (load8 src (blockY + i)) (load8 src (blockUV + andNot1 i))
          (load8 src (blockUV + (andNot1 i + 1))) &&& 0xFF))
        (s.dstPtr + (i * 2 + 1))
        ((pixRGB clipTable (load8 src (blockY + i)) (load8 src (blockUV + andNot1 i))
          (load8 src (blockUV + (andNot1 i + 1))) >>> 8) &&& 0xFF))
    (fun _ _ => True)
    (fun i a => a = s.dstPtr + i * 2 ∨ a = s.dstPtr + i * 2 + 1)
    (by
      intro i m hi _
      obtain ⟨q1, q2⟩ := hQ i hi
      refine ⟨trivial, ?_, ?_⟩
      · exact upd_trans Q _ _ _ (upd_store8 Q _ _ _ q1) (upd_store8 Q _ _ _ q2)
      · intro a ha
        simp only [store8_apply]
        rcases ha with ha | ha
        · rw [if_neg (by omega), if_pos ha, ha]
          exact q1
        · rw [if_pos (by omega), ha]
          exact q2)
    bw 0 s.out (by omega) (Nat.zero_le _) trivial
  exact ⟨h.2.1, fun a i hi ha => h.2.2 a i (Nat.zero_le _) hi ha⟩

theorem nv12TileTraverseBlock_spec (src : Mem) (Q : Nat → Byte → Prop) (s : TileState)
    (hc : s.conv.ClipInv) (blockY blockUV bw bh dstSkip : Nat)
    (hQ : ∀ r i, r < bh → i < bw →
      PixQ Q (s.dstPtr + r * dstSkip + i * 2) (blockPix src blockY blockUV r i)) :
    (nv12TileTraverseBlock src s blockY blockUV bw bh dstSkip).conv.ClipInv
    ∧ Upd Q s.out (nv12TileTraverseBlock src s blockY blockUV bw bh dstSkip).out
    ∧ ∀ a r i, r < bh → i < bw →
        (a = s.dstPtr + r * dstSkip + i * 2 ∨ a = s.dstPtr + r * dstSkip + i * 2 + 1) →
        Q a ((nv12TileTraverseBlock src s blockY blockUV bw bh dstSkip).out a) := by
  unfold nv12TileTraverseBlock
  have h := forLoop_upd (fun (r : BlockRows) => r.st.out) Q bh
    (fun row (r : BlockRows) =>
      if (row &&& 1) ≠ 0 then
        (⟨nv12TileComputeRGB src r.st r.block_UV r.blockY bw dstSkip,
          r.blockY + NV12TILE_BLOCK_WIDTH, r.blockUV + NV12TILE_BLOCK_WIDTH,
          r.block_UV⟩ : BlockRows)
      else
        ⟨nv12TileComputeRGB src r.st r.blockUV r.blockY bw dstSkip,
          r.blockY + NV12TILE_BLOCK_WIDTH, r.blockUV, r.blockUV⟩)
    (fun r st => st.st.conv.ClipInv ∧ st.st.dstPtr = s.dstPtr + r * dstSkip
      ∧ st.blockY = blockY + r * 64 ∧ st.blockUV = blockUV + (r / 2) * 64
      ∧ (r % 2 = 1 → st.block_UV = blockUV + (r / 2) * 64))
    (fun r a => ∃ i, i < bw
      ∧ (a = s.dstPtr + r * dstSkip + i * 2 ∨ a = s.dstPtr + r * dstSkip + i * 2 + 1))
    (by
      intro r st hr hI
      obtain ⟨i1, i2, i3, i4, i5⟩ := hI
      simp only [Nat.and_one_is_mod, NV12TILE_BLOCK_WIDTH]
      by_cases hodd : r % 2 = 1
      · have hne : r % 2 ≠ 0 := by omega
        rw [if_pos hne]
        have hs := nv12TileComputeRGB_spec src Q st.st i1 st.block_UV st.blockY bw dstSkip
          (by
            intro i hi
            have hq := hQ r i hr hi
            rw [i2, i3, i5 hodd]
            exact hq)
        obtain ⟨s1, s2, s3, s4⟩ := hs
        refine ⟨⟨s1, ?_, ?_, ?_, ?_⟩, s3, ?_⟩
        · simp only
          rw [s2, i2, Nat.succ_mul]
          omega
        · simp only
          rw [i3, Nat.succ_mul]
          omega
        · simp only
          have e : (r + 1) / 2 = r / 2 + 1 := by omega
          rw [i4, e, Nat.succ_mul]
          omega
        · intro h2
          omega
        · rintro a ⟨i, hi, ha⟩
          simp only
          rw [← i2] at ha
          exact s4 a i hi ha
      · have he : ¬ (r % 2 ≠ 0) := by omega
        rw [if_neg he]
        have hs := nv12TileComputeRGB_spec src Q st.st i1 st.blockUV st.blockY bw dstSkip
          (by
            intro i hi
            have hq := hQ r i hr hi
            rw [i2, i3, i4]
            exact hq)
        obtain ⟨s1, s2, s3, s4⟩ := hs
        have e : (r + 1) / 2 = r / 2 := by omega
        refine ⟨⟨s1, ?_, ?_, ?_, ?_⟩, s3, ?_⟩
        · simp only
          rw [s2, i2, Nat.succ_mul]
          omega
        · simp only
          rw [i3, Nat.succ_mul]
          omega
        · simp only
          rw [i4, e]
        · intro _
          simp only
          rw [i4, e]
        · rintro a ⟨i, hi, ha⟩
          simp only
          rw [← i2] at ha
          exact s4 a i hi ha)
    bh 0 (⟨s, blockY, blockUV, 0⟩ : BlockRows) (by omega) (Nat.zero_le _)
    (by
      refine ⟨hc, ?_, ?_, ?_, ?_⟩
      · simp
      · simp
      · simp
      · intro h0
        omega)
  obtain ⟨h1, h2, h3⟩ := h
  exact ⟨h1.1, h2, fun a r i hr hi ha => h3 a r (Nat.zero_le _) hr ⟨i, hi, ha⟩⟩

theorem subSz_eq (a b : Nat) (h : b ≤ a) (ha : a < SIZE_MOD) : subSz a b = a - b := by
  unfold subSz
  have e : a + SIZE_MOD - b = (a - b) + SIZE_MOD := by omega
  rw [e, Nat.add_mod_right]
  exact Nat.mod_eq_of_lt (by omega)

theorem tileAbx_eq (w : Nat) (h1 : 1 ≤ w) (hM : w < SIZE_MOD) :
    tileAbx w = (w - 1) / 64 + 1 := by
  unfold tileAbx NV12TILE_BLOCK_WIDTH
  rw [subSz_eq w 1 h1 hM]

theorem tileNbyY_eq (h : Nat) (h1 : 1 ≤ h) (hM : h < SIZE_MOD) :
    tileNbyY h = (h - 1) / 32 + 1 := by
  unfold tileNbyY NV12TILE_BLOCK_HEIGHT
  rw [subSz_eq h 1 h1 hM]

theorem tileRow_spec (src : Mem) (Q : Nat → Byte → Prop) (w h dstSkip by_ rows_left : Nat)
    (n f : Nat) (hn : n = (w - 1) / 64 + 1) (hf : n ≤ f)
    (s0 : TileState) (hc : s0.conv.ClipInv) (hw1 : 1 ≤ w) (hwM : w < SIZE_MOD)
    (hQ : ∀ bx r i, bx < n → r < (if rows_left > 32 then 32 else rows_left) →
      i < blkW w bx →
      PixQ Q (tileDst w bx by_ + r * dstSkip + i * 2)
        (blockPix src (tileBlockY w h bx by_) (tileBlockUV w h bx by_) r i)) :
    (forLoop n 1 (tileBlock w h src dstSkip by_ rows_left) f 0 (s0, w)).1.conv.ClipInv
    ∧ Upd Q s0.out (forLoop n 1 (tileBlock w h src dstSkip by_ rows_left) f 0 (s0, w)).1.out
    ∧ ∀ a bx r i, bx < n → r < (if rows_left > 32 then 32 else rows_left) →
        i < blkW w bx →
        (a = tileDst w bx by_ + r * dstSkip + i * 2
          ∨ a = tileDst w bx by_ + r * dstSkip + i * 2 + 1) →
        Q a ((forLoop n 1 (tileBlock w h src dstSkip by_ rows_left) f 0 (s0, w)).1.out a) := by
  have h := forLoop_upd (fun (s : TileState × Nat) => s.1.out) Q n
    (tileBlock w h src dstSkip by_ rows_left)
    (fun bx s => s.1.conv.ClipInv ∧ (bx < n → s.2 = w - 64 * bx))
    (fun bx a => ∃ r i, r < (if rows_left > 32 then 32 else rows_left) ∧ i < blkW w bx
      ∧ (a = tileDst w bx by_ + r * dstSkip + i * 2
        ∨ a = tileDst w bx by_ + r * dstSkip + i * 2 + 1))
    (by
      intro bx s hbx hI
      obtain ⟨i1, i2⟩ := hI
      have hcols := i2 hbx
      have hs := nv12TileTraverseBlock_spec src Q ⟨s.1.conv, s.1.out, tileDst w bx by_⟩ i1
        (tileBlockY w h bx by_) (tileBlockUV w h bx by_) (blkW w bx)
        (if rows_left > 32 then 32 else rows_left) dstSkip
        (fun r i hr hi => hQ bx r i hbx hr hi)
      have e : tileBlock w h src dstSkip by_ rows_left bx s
          = (nv12TileTraverseBlock src ⟨s.1.conv, s.1.out, tileDst w bx by_⟩
              (tileBlockY w h bx by_) (tileBlockUV w h bx by_) (blkW w bx)
              (if rows_left > 32 then 32 else rows_left) dstSkip,
            subSz s.2 NV12TILE_BLOCK_WIDTH) := by
        unfold tileBlock blkW
        simp only [hcols, NV12TILE_BLOCK_WIDTH, NV12TILE_BLOCK_HEIGHT]
        rfl
      rw [e]
      obtain ⟨s1, s2, s3⟩ := hs
      refine ⟨⟨s1, ?_⟩, s2, ?_⟩
      · intro hb
        simp only [NV12TILE_BLOCK_WIDTH]
        rw [hcols, subSz_eq _ _ (by omega) (by omega)]
        omega
      · rintro a ⟨r, i, hr, hi, ha⟩
        exact s3 a r i hr hi ha)
    f 0 (s0, w) (by omega) (Nat.zero_le _) ⟨hc, fun _ => by omega⟩
  obtain ⟨h1, h2, h3⟩ := h
  exact ⟨h1.1, h2, fun a bx r i hbx hr hi ha => h3 a bx (Nat.zero_le _) hbx ⟨r, i, hr, hi, ha⟩⟩

theorem tileFrame_spec (src : Mem) (Q : Nat → Byte → Prop) (w h dstSkip : Nat)
    (ny fy nx fx : Nat) (hny : ny = (h - 1) / 32 + 1) (hfy : ny ≤ fy)
    (hnx : nx = (w - 1) / 64 + 1) (hfx : nx ≤ fx)
    (c : ColorConverter) (dstBits : Mem) (hc : c.ClipInv)
    (hw1 : 1 ≤ w) (hwM : w < SIZE_MOD) (hh1 : 1 ≤ h) (hhM : h < SIZE_MOD)
    (hQ : ∀ by_ bx r i, by_ < ny → bx < nx → r < blkH h by_ → i < blkW w bx →
      PixQ Q (tileDst w bx by_ + r * dstSkip + i * 2)
        (blockPix src (tileBlockY w h bx by_) (tileBlockUV w h bx by_) r i)) :
    ∀ a by_ bx r i, by_ < ny → bx < nx → r < blkH h by_ → i < blkW w bx →
      (a = tileDst w bx by_ + r * dstSkip + i * 2
        ∨ a = tileDst w bx by_ + r * dstSkip + i * 2 + 1) →
      Q a ((forLoop ny 1
        (fun by_ (s : TileState × Nat) =>
          ((forLoop nx 1 (tileBlock w h src dstSkip by_ s.2) fx 0 (s.1, w)).1,
            subSz s.2 NV12TILE_BLOCK_HEIGHT))
        fy 0 (⟨c, dstBits, 0⟩, h)).1.out a) := by
  have hl := forLoop_upd (fun (s : TileState × Nat) => s.1.out) Q ny
    (fun by_ (s : TileState × Nat) =>
      ((forLoop nx 1 (tileBlock w h src dstSkip by_ s.2) fx 0 (s.1, w)).1,
        subSz s.2 NV12TILE_BLOCK_HEIGHT))
    (fun by_ s => s.1.conv.ClipInv ∧ (by_ < ny → s.2 = h - 32 * by_))
    (fun by_ a => ∃ bx r i, bx < nx ∧ r < blkH h by_ ∧ i < blkW w bx
      ∧ (a = tileDst w bx by_ + r * dstSkip + i * 2
        ∨ a = tileDst w bx by_ + r * dstSkip + i * 2 + 1))
    (by
      intro by_ s hby hI
      have i1 := hI.1
      have hrows := hI.2 hby
      have hbh : (if s.2 > 32 then 32 else s.2) = blkH h by_ := by
        unfold blkH
        rw [hrows]
      have hs := tileRow_spec src Q w h dstSkip by_ s.2 nx fx hnx hfx s.1 i1 hw1 hwM
        (by
          intro bx r i hbx hr hi
          rw [hbh] at hr
          exact hQ by_ bx r i hby hbx hr hi)
      refine ⟨⟨hs.1, ?_⟩, hs.2.1, ?_⟩
      · intro hb
        show subSz s.2 NV12TILE_BLOCK_HEIGHT = h - 32 * (by_ + 1)
        simp only [NV12TILE_BLOCK_HEIGHT]
        rw [hrows, subSz_eq _ _ (by omega) (by omega)]
        omega
      · intro a hR
        obtain ⟨bx, r, i, hbx, hr, hi, ha⟩ := hR
        rw [← hbh] at hr
        exact hs.2.2 a bx r i hbx hr hi ha)
    fy 0 (⟨c, dstBits, 0⟩, h) (by omega) (Nat.zero_le _)
    ⟨hc, fun _ => by omega⟩
  intro a by_ bx r i hby hbx hr hi ha
  exact hl.2.2 a by_ (Nat.zero_le _) hby ⟨bx, r, i, hbx, hr, hi, ha⟩

theorem mul_add_inj (w a b c d : Nat) (hb : b < w) (hd : d < w)
    (h : a * w + b = c * w + d) : a = c ∧ b = d := by
  have hpos : 0 < w := by omega
  have h1 : (a * w + b) / w = a := by
    rw [Nat.add_comm, Nat.add_mul_div_right _ _ hpos, Nat.div_eq_of_lt hb, Nat.zero_add]
  have h2 : (c * w + d) / w = c := by
    rw [Nat.add_comm, Nat.add_mul_div_right _ _ hpos, Nat.div_eq_of_lt hd, Nat.zero_add]
  have h3 : a = c := by rw [← h1, h, h2]
  subst h3
  exact ⟨rfl, by omega⟩

theorem tilePixel_lt (src : Mem) (w h x y : Nat) : tilePixel src w h x y < 65536 := by
  unfold tilePixel specPixel
  exact packBits_lt _ _ _ (specClip_lt _) (specClip_lt _) (specClip_lt _)

theorem blockPix_eq_tilePixel (src : Mem) (w h bx by_ r i : Nat) (hr : r < 32)
    (hi : i < 64) :
    blockPix src (tileBlockY w h bx by_) (tileBlockUV w h bx by_) r i
      = tilePixel src w h (bx * 64 + i) (by_ * 32 + r) := by
  have e1 : (bx * 64 + i) / 64 = bx := by omega
  have e2 : (bx * 64 + i) % 64 = i := by omega
  have e3 : (by_ * 32 + r) / 32 = by_ := by omega
  have e4 : (by_ * 32 + r) % 32 = r := by omega
  have e5 : (if (by_ &&& 1) ≠ 0 then NV12TILE_BLOCK_SIZE / 2 else 0)
      = (if by_ % 2 = 1 then 1024 else 0) := by
    rw [Nat.and_one_is_mod]
    by_cases hb : by_ % 2 = 1
    · rw [if_pos (by omega), if_pos hb]
      rfl
    · rw [if_neg (by omega), if_neg hb]
  have e6 : NV12TILE_BLOCK_SIZE = 2048 := rfl
  unfold blockPix tilePixel tileBlockY tileBlockUV
  rw [pixRGB_spec _ _ _ (load8_lt _ _) (load8_lt _ _) (load8_lt _ _), e1, e2, e3, e4, e5, e6]
  simp only [Nat.zero_add, Nat.add_assoc]

theorem toByte_lo (p : Nat) : (toByte (p &&& 0xFF)).val = p % 256 := by
  have e : (0xFF : Nat) = 2 ^ 8 - 1 := by norm_num
  show (p &&& 0xFF) % 256 = p % 256
  rw [e, Nat.and_pow_two_sub_one_eq_mod]
  omega

theorem toByte_hi (p : Nat) (hp : p < 65536) :
    (toByte ((p >>> 8) &&& 0xFF)).val = p / 256 := by
  have e : (0xFF : Nat) = 2 ^ 8 - 1 := by norm_num
  show ((p >>> 8) &&& 0xFF) % 256 = p / 256
  rw [e, Nat.and_pow_two_sub_one_eq_mod, Nat.shiftRight_eq_div_pow]
  omega

theorem tileDst_eq (w bx by_ r i : Nat) :
    tileDst w bx by_ + r * (w * 2) + i * 2 = 2 * ((by_ * 32 + r) * w + (bx * 64 + i)) := by
  unfold tileDst NV12TILE_BLOCK_HEIGHT NV12TILE_BLOCK_WIDTH
  ring

theorem tile_pixQ (src : Mem) (w h bx by_ r i : Nat)
    (hr : r < blkH h by_) (hi : i < blkW w bx) :
    PixQ (TileSpec src w h) (tileDst w bx by_ + r * (w * 2) + i * 2)
      (blockPix src (tileBlockY w h bx by_) (tileBlockUV w h bx by_) r i) := by
  have hr2 : r < 32 ∧ 32 * by_ + r < h := by
    unfold blkH at hr
    split at hr <;> omega
  have hi2 : i < 64 ∧ 64 * bx + i < w := by
    unfold blkW at hi
    split at hi <;> omega
  rw [tileDst_eq, blockPix_eq_tilePixel src w h bx by_ r i hr2.1 hi2.1]
  have hX : bx * 64 + i < w := by omega
  constructor
  · intro x y hx hy
    constructor
    · intro ha
      have hk : (by_ * 32 + r) * w + (bx * 64 + i) = y * w + x := by omega
      obtain ⟨ey, ex⟩ := mul_add_inj w _ _ _ _ hX hx hk
      rw [toByte_lo, ey, ex]
    · intro ha
      omega
  · intro x y hx hy
    constructor
    · intro ha
      omega
    · intro ha
      have hk : (by_ * 32 + r) * w + (bx * 64 + i) = y * w + x := by omega
      obtain ⟨ey, ex⟩ := mul_add_inj w _ _ _ _ hX hx hk
      rw [toByte_hi _ (tilePixel_lt _ _ _ _ _), ey, ex]

/-! ## The 32-bit aligned semi-planar converter and its padding columns -/

theorem load16_store32_ne (m : Mem) (i j v : Nat) (h : i + 1 < j ∨ j + 1 < i) :
    load16 (store32 m j v) i = load16 m i := by
  unfold load16 store32
  rw [load8_store8_ne _ _ _ _ (by omega), load8_store8_ne _ _ _ _ (by omega),
    load8_store8_ne _ _ _ _ (by omega), load8_store8_ne _ _ _ _ (by omega),
    load8_store8_ne _ _ _ _ (by omega), load8_store8_ne _ _ _ _ (by omega),
    load8_store8_ne _ _ _ _ (by omega), load8_store8_ne _ _ _ _ (by omega)]

theorem aligned_example_eq (src dst : Mem) :
    (ColorConverter.create 21 6).convertYUV420SemiPlanar32Aligned 2 2 src 0 dst 8 4
      = some ((ColorConverter.create 21 6).initClip.1,
          store32 (store32 (store32 (store32 dst 0
            (((semiPair (ColorConverter.create 21 6).initClip.2 src ⟨0, 4⟩ 0).2 <<< 16)
              ||| (semiPair (ColorConverter.create 21 6).initClip.2 src ⟨0, 4⟩ 0).1))
            2
            (((semiPair (ColorConverter.create 21 6).initClip.2 src ⟨0, 4⟩ 2).2 <<< 16)
              ||| (semiPair (ColorConverter.create 21 6).initClip.2 src ⟨0, 4⟩ 2).1))
            4
            (((semiPair (ColorConverter.create 21 6).initClip.2 src ⟨2, 4⟩ 0).2 <<< 16)
              ||| (semiPair (ColorConverter.create 21 6).initClip.2 src ⟨2, 4⟩ 0).1))
            6
            (((semiPair (ColorConverter.create 21 6).initClip.2 src ⟨2, 4⟩ 2).2 <<< 16)
              ||| (semiPair (ColorConverter.create 21 6).initClip.2 src ⟨2, 4⟩ 2).1)) := by
  rfl

/-- Claim C15, evaluated at a failing input: `width = 2`, `height = 2`,
`alignedWidth = 4`, `dstSkip = 8` (so `srcSkip = 0`, `dstSkip >= 2 * alignedWidth` and
`dstSkip` is a multiple of 4), an all-128 source and an all-zero destination.  The call
returns, and the destination pixel at row 0, column 2 (a padding column, since
`width <= 2 < dstSkip / 2`) changes from `0` to `0x8410`: the guard `x > width` lets the
iteration `x = width` through, which converts the source bytes at offsets `2`, `7`
and `6` and stores the result in columns 2 and 3. -/
theorem convertYUV420SemiPlanar32Aligned_writes_padding :
    ∃ c' out,
      (ColorConverter.create 21 6).convertYUV420SemiPlanar32Aligned 2 2 (constMem 128) 0
          (constMem 0) 8 4 = some (c', out)
      ∧ load16 (constMem 0) (0 * (8 / 2) + 2) = 0
      ∧ load16 out (0 * (8 / 2) + 2)
          = specPixelBGR (load8 (constMem 128) 2) (load8 (constMem 128) 7)
              (load8 (constMem 128) 6)
      ∧ load16 out (0 * (8 / 2) + 2) = 0x8410 := by
  have ek : (ColorConverter.create 21 6).initClip.2 = clipTable :=
    (clipInv_initClip _ (Or.inl rfl)).1
  have hv : specPixelBGR 128 128 128 = 0x8410 := by decide
  have hp : load16 (store32 (store32 (store32 (store32 (constMem 0) 0
            (((semiPair (ColorConverter.create 21 6).initClip.2 (constMem 128) ⟨0, 4⟩ 0).2
                <<< 16)
              ||| (semiPair (ColorConverter.create 21 6).initClip.2 (constMem 128)
                ⟨0, 4⟩ 0).1))
            2
            (((semiPair (ColorConverter.create 21 6).initClip.2 (constMem 128) ⟨0, 4⟩ 2).2
                <<< 16)
              ||| (semiPair (ColorConverter.create 21 6).initClip.2 (constMem 128)
                ⟨0, 4⟩ 2).1))
            4
            (((semiPair (ColorConverter.create 21 6).initClip.2 (constMem 128) ⟨2, 4⟩ 0).2
                <<< 16)
              ||| (semiPair (ColorConverter.create 21 6).initClip.2 (constMem 128)
                ⟨2, 4⟩ 0).1))
            6
            (((semiPair (ColorConverter.create 21 6).initClip.2 (constMem 128) ⟨2, 4⟩ 2).2
                <<< 16)
              ||| (semiPair (ColorConverter.create 21 6).initClip.2 (constMem 128)
                ⟨2, 4⟩ 2).1)) (0 * (8 / 2) + 2)
      = specPixelBGR 128 128 128 := by
    have e2 : 0 * (8 / 2) + 2 = 2 := by decide
    have hl : (semiPair clipTable (constMem 128) ⟨0, 4⟩ 2).1 < 65536 :=
      (pairBGR_lt _ _ _ _).1
    rw [e2, load16_store32_ne _ 2 6 _ (Or.inl (by decide)),
      load16_store32_ne _ 2 4 _ (Or.inl (by decide)), load16_store32_lo, ek,
      pairWord_lo _ _ hl]
    have hld : ∀ a, load8 (constMem 128) a = 128 := fun _ => rfl
    simp only [semiPair, pairBGR, hld]
    exact pixBGR_specBGR 128 128 128 (by decide) (by decide) (by decide)
  exact ⟨_, _, aligned_example_eq (constMem 128) (constMem 0), by decide, hp, hp.trans hv⟩

/-! ## The tiled converter through the dispatcher -/

theorem load8_val (m : Mem) (a : Nat) : load8 m a = (m a).val := rfl

theorem tileSpec_apply (src : Mem) (w h a : Nat) (b : Byte) (hT : TileSpec src w h a b)
    (x y : Nat) (hx : x < w) (hy : y < h) :
    (a = 2 * (y * w + x) → b.val = tilePixel src w h x y % 256)
    ∧ (a = 2 * (y * w + x) + 1 → b.val = tilePixel src w h x y / 256) := hT x y hx hy

theorem tile_coords (w h x y : Nat) (hx : x < w) (hy : y < h) :
    y / 32 < (h - 1) / 32 + 1 ∧ x / 64 < (w - 1) / 64 + 1
    ∧ y % 32 < blkH h (y / 32) ∧ x % 64 < blkW w (x / 64)
    ∧ (y / 32 * 32 + y % 32) = y ∧ (x / 64 * 64 + x % 64) = x := by
  refine ⟨by omega, by omega, ?_, ?_, by omega, by omega⟩
  · unfold blkH
    split <;> omega
  · unfold blkW
    split <;> omega

theorem convertNV12Tile_pixels (c : ColorConverter) (w h : Nat) (srcBits dstBits : Mem)
    (hc : c.ClipInv) (hw2 : w % 2 = 0) (hw1 : 1 ≤ w) (hwM : w < SIZE_MOD)
    (hh1 : 1 ≤ h) (hhM : h < SIZE_MOD) :
    ∃ c' out, c.convertNV12Tile w h srcBits 0 dstBits (w * 2) = some (status_t.OK, c', out)
      ∧ ∀ x y, x < w → y < h →
        load8 out (2 * (y * w + x)) = tilePixel srcBits w h x y % 256
        ∧ load8 out (2 * (y * w + x) + 1) = tilePixel srcBits w h x y / 256 := by
  have h3 : ¬ ((w * 2) &&& 3 ≠ 0) := by
    have e : (3 : Nat) = 2 ^ 2 - 1 := by norm_num
    rw [e, Nat.and_pow_two_sub_one_eq_mod]
    omega
  have hf := tileFrame_spec srcBits (TileSpec srcBits w h) w h (w * 2)
    (tileNbyY h) (tileNbyY h) (tileAbx w) (tileAbx w)
    (tileNbyY_eq h hh1 hhM) (Nat.le_refl _) (tileAbx_eq w hw1 hwM) (Nat.le_refl _)
    c dstBits hc hw1 hwM hh1 hhM
    (fun by_ bx r i _ _ hr hi => tile_pixQ srcBits w h bx by_ r i hr hi)
  refine ⟨(forLoop (tileNbyY h) 1
      (fun by_ (s : TileState × Nat) =>
        ((forLoop (tileAbx w) 1 (tileBlock w h srcBits (w * 2) by_ s.2)
            (tileAbx w) 0 (s.1, w)).1,
          subSz s.2 NV12TILE_BLOCK_HEIGHT))
      (tileNbyY h) 0 (⟨c, dstBits, 0⟩, h)).1.conv,
    (forLoop (tileNbyY h) 1
      (fun by_ (s : TileState × Nat) =>
        ((forLoop (tileAbx w) 1 (tileBlock w h srcBits (w * 2) by_ s.2)
            (tileAbx w) 0 (s.1, w)).1,
          subSz s.2 NV12TILE_BLOCK_HEIGHT))
      (tileNbyY h) 0 (⟨c, dstBits, 0⟩, h)).1.out, ?_, ?_⟩
  · unfold ColorConverter.convertNV12Tile
    rw [if_neg (not_not.2 rfl), if_neg (not_not.2 (Nat.le_refl _)), if_neg h3]
  · intro x y hx hy
    obtain ⟨c1, c2, c3, c4, c5, c6⟩ := tile_coords w h x y hx hy
    rw [← tileNbyY_eq h hh1 hhM] at c1
    rw [← tileAbx_eq w hw1 hwM] at c2
    have ea : 2 * (y * w + x)
        = tileDst w (x / 64) (y / 32) + y % 32 * (w * 2) + x % 64 * 2 := by
      rw [tileDst_eq, c5, c6]
    constructor
    · have hq := hf (2 * (y * w + x)) (y / 32) (x / 64) (y % 32) (x % 64) c1 c2 c3 c4
        (Or.inl ea)
      rw [load8_val]
      exact (tileSpec_apply _ _ _ _ _ hq x y hx hy).1 rfl
    · have hq := hf (2 * (y * w + x) + 1) (y / 32) (x / 64) (y % 32) (x % 64) c1 c2 c3 c4
        (Or.inr (congrArg (· + 1) ea))
      rw [load8_val]
      exact (tileSpec_apply _ _ _ _ _ hq x y hx hy).2 rfl

theorem convert_tile_eq (k : OMXFormats) (c : ColorConverter) (srcBits dstBits : Mem)
    (w h sl st sr sb dw dh dl dt dr db : Nat)
    (hd : c.mDstFormat = k.OMX_COLOR_Format16bitRGB565)
    (hs : c.mSrcFormat = QOMX_COLOR_FormatYUV420PackedSemiPlanar64x32Tile2m8ka)
    (h1 : c.mSrcFormat ≠ k.OMX_COLOR_FormatYUV420Planar)
    (h2 : c.mSrcFormat ≠ k.OMX_COLOR_FormatCbYCrY)
    (h3 : c.mSrcFormat ≠ k.OMX_QCOM_COLOR_FormatYVU420SemiPlanar)
    (h4 : c.mSrcFormat ≠ k.OMX_COLOR_FormatYUV420SemiPlanar)
    (h5 : c.mSrcFormat ≠ k.OMX_TI_COLOR_FormatYUV420PackedSemiPlanar) :
    c.convert k srcBits w h sl st sr sb dstBits dw dh dl dt dr db
      = c.convertNV12Tile w h srcBits 0 dstBits (w * 2) := by
  unfold ColorConverter.convert
  rw [if_neg (not_not.2 hd)]
  simp only []
  rw [if_neg h1, if_neg h2, if_neg h3, if_neg h4, if_neg h5, if_pos hs]

theorem tileNbx_eq_spec (w : Nat) (h1 : 1 ≤ w) (hM : w < SIZE_MOD) :
    tileNbx w = specNbx w := by
  unfold tileNbx specNbx specAbx
  rw [tileAbx_eq w h1 hM]

theorem tileNbyUV_eq_spec (h : Nat) : tileNbyUV h = specNbyUV h := rfl

theorem specNbyUV_eq (h : Nat) (h2 : 2 ≤ h) (hM : h < SIZE_MOD) :
    specNbyUV h = (h / 2 - 1) / 32 + 1 := by
  unfold specNbyUV
  rw [subSz_eq _ _ (by omega) (by omega)]

theorem tileSizeY_eq_spec (w h : Nat) (hw1 : 1 ≤ w) (hwM : w < SIZE_MOD)
    (hh1 : 1 ≤ h) (hhM : h < SIZE_MOD)
    (hfit : specNbx w * specNbyY h * 2048 < SIZE_MOD) :
    tileSizeY w h = specSizeY w h := by
  have eN : tileNbyY h = specNbyY h := tileNbyY_eq h hh1 hhM
  have e1 : NV12TILE_BLOCK_SIZE = 2048 := rfl
  have e2 : NV12TILE_BLOCK_GROUP_SIZE = 8192 := rfl
  unfold tileSizeY specSizeY
  simp only [tileNbx_eq_spec w hw1 hwM, eN, e1, e2]
  generalize specNbx w * specNbyY h * 2048 = s at hfit ⊢
  split
  · next hne =>
    rw [subSz_eq _ _ (by omega) hfit]
    omega
  · next he =>
    omega

theorem tilePixel_eq_spec (src : Mem) (w h x y : Nat) (hw1 : 1 ≤ w) (hwM : w < SIZE_MOD)
    (hh1 : 1 ≤ h) (hhM : h < SIZE_MOD)
    (hfit : specNbx w * specNbyY h * 2048 < SIZE_MOD) :
    tilePixel src w h x y = specTilePixel src w h x y := by
  have eN : tileNbyY h = specNbyY h := tileNbyY_eq h hh1 hhM
  unfold tilePixel specTilePixel specLumaOffset specChromaOffset
  rw [tileNbx_eq_spec w hw1 hwM, eN, tileNbyUV_eq_spec h,
    tileSizeY_eq_spec w h hw1 hwM hh1 hhM hfit]

/-- Claim C14, refuted by the code: for a converter configured with the tiled NV12 source
format and the RGB565 destination format, `convert` on an odd `srcWidth` passes
`dstSkip = 2 * srcWidth` to `convertNV12Tile`, which is not a multiple of 4, so the
third assertion `CHECK((dstSkip & 3) == 0)` fails and the call aborts (`none`) instead
of returning a status. -/
theorem convert_tiled_odd_width_aborts (k : OMXFormats) (c : ColorConverter)
    (srcBits dstBits : Mem) (w h sl st sr sb dw dh dl dt dr db : Nat)
    (hd : c.mDstFormat = k.OMX_COLOR_Format16bitRGB565)
    (hs : c.mSrcFormat = QOMX_COLOR_FormatYUV420PackedSemiPlanar64x32Tile2m8ka)
    (h1 : c.mSrcFormat ≠ k.OMX_COLOR_FormatYUV420Planar)
    (h2 : c.mSrcFormat ≠ k.OMX_COLOR_FormatCbYCrY)
    (h3 : c.mSrcFormat ≠ k.OMX_QCOM_COLOR_FormatYVU420SemiPlanar)
    (h4 : c.mSrcFormat ≠ k.OMX_COLOR_FormatYUV420SemiPlanar)
    (h5 : c.mSrcFormat ≠ k.OMX_TI_COLOR_FormatYUV420PackedSemiPlanar)
    (hw : w % 2 = 1) :
    c.convert k srcBits w h sl st sr sb dstBits dw dh dl dt dr db = none := by
  have hm : (w * 2) &&& 3 ≠ 0 := by
    have e : (3 : Nat) = 2 ^ 2 - 1 := by norm_num
    rw [e, Nat.and_pow_two_sub_one_eq_mod]
    omega
  rw [convert_tile_eq k c srcBits dstBits w h sl st sr sb dw dh dl dt dr db hd hs h1 h2 h3
    h4 h5]
  unfold ColorConverter.convertNV12Tile
  rw [if_neg (not_not.2 rfl), if_neg (not_not.2 (Nat.le_refl _)), if_pos hm]

/-- Witness for C14: the tiled converter through the dispatcher on a 1x1 frame. -/
theorem convert_tiled_odd_width_aborts_witness :
    1 ≤ 1 ∧ 1 % 2 = 1
    ∧ (ColorConverter.create QOMX_COLOR_FormatYUV420PackedSemiPlanar64x32Tile2m8ka 6).convert
        exampleFormats (constMem 16) 1 1 0 0 0 0 (constMem 7) 1 1 0 0 0 0 = none :=
  ⟨by decide, by decide,
    convert_tiled_odd_width_aborts exampleFormats
      (ColorConverter.create QOMX_COLOR_FormatYUV420PackedSemiPlanar64x32Tile2m8ka 6)
      (constMem 16) (constMem 7) 1 1 0 0 0 0 1 1 0 0 0 0 rfl rfl (by decide) (by decide)
      (by decide) (by decide) (by decide) (by decide)⟩

/-- Claim C16: tiled NV12 conversion through `convert` (`dstSkip = 2*width`).  For a
converter configured with the tiled NV12 source format and the RGB565 destination
format, every even `width >= 2` and every `height >= 1` whose luma section size
`nbx*nby_y*2048` fits `size_t`, `convert` returns `OK`, and for every `x < width`,
`y < height` the destination bytes at offsets `2*(y*width+x)` and `2*(y*width+x)+1` are
the low and the high byte of the specification's pixel of `(x, y)`: the Color Math pixel
of `Y = src[blockNum(bx,by,nbx,nby_y)*2048 + row*64 + i]`, `U = src[c]`, `V = src[c+1]`,
`c = size_y + blockNum(bx,by/2,nbx,nby_uv)*2048 + (1024 if by is odd else 0)
 + (row/2)*64 + (i & ~1)`, with `abx = (width-1)/64+1`, `nbx = (abx+1) & ~1`,
`nby_y = (height-1)/32+1`, `nby_uv = (height/2-1)/32+1` (a `size_t` expression) and
`size_y = nbx*nby_y*2048` rounded up to a multiple of 8192. -/
theorem convert_tiled_pixels (k : OMXFormats) (c : ColorConverter)
    (srcBits dstBits : Mem) (w h sl st sr sb dw dh dl dt dr db : Nat)
    (hd : c.mDstFormat = k.OMX_COLOR_Format16bitRGB565)
    (hs : c.mSrcFormat = QOMX_COLOR_FormatYUV420PackedSemiPlanar64x32Tile2m8ka)
    (h1 : c.mSrcFormat ≠ k.OMX_COLOR_FormatYUV420Planar)
    (h2 : c.mSrcFormat ≠ k.OMX_COLOR_FormatCbYCrY)
    (h3 : c.mSrcFormat ≠ k.OMX_QCOM_COLOR_FormatYVU420SemiPlanar)
    (h4 : c.mSrcFormat ≠ k.OMX_COLOR_FormatYUV420SemiPlanar)
    (h5 : c.mSrcFormat ≠ k.OMX_TI_COLOR_FormatYUV420PackedSemiPlanar)
    (hc : c.ClipInv) (hw2 : w % 2 = 0) (hw : 2 ≤ w) (hwM : w < SIZE_MOD)
    (hh : 1 ≤ h) (hhM : h < SIZE_MOD)
    (hfit : specNbx w * specNbyY h * 2048 < SIZE_MOD) :
    ∃ c' out,
      c.convert k srcBits w h sl st sr sb dstBits dw dh dl dt dr db
        = some (status_t.OK, c', out)
      ∧ ∀ x y, x < w → y < h →
        load8 out (2 * (y * w + x)) = specTilePixel srcBits w h x y % 256
        ∧ load8 out (2 * (y * w + x) + 1) = specTilePixel srcBits w h x y / 256 := by
  obtain ⟨c', out, he, hp⟩ := convertNV12Tile_pixels c w h srcBits dstBits hc hw2
    (by omega) hwM hh hhM
  refine ⟨c', out, ?_, ?_⟩
  · rw [convert_tile_eq k c srcBits dstBits w h sl st sr sb dw dh dl dt dr db hd hs h1 h2
      h3 h4 h5]
    exact he
  · intro x y hx hy
    rw [← tilePixel_eq_spec srcBits w h x y (by omega) hwM hh hhM hfit]
    exact hp x y hx hy

/-- Witness for C16: the 130x34 frame `exampleTileRamp` (3 block columns, 2 block rows)
converted into an all-zero buffer.  The pixel of `(128, 33)`, in block `(2, 1)`, is
`0x5FE5`: the destination bytes at offsets `2*(33*130+128)` and the next one change from
`0` to `0xE5` and `0x5F`. -/
theorem convert_tiled_pixels_witness :
    ∃ c' out,
      (ColorConverter.create QOMX_COLOR_FormatYUV420PackedSemiPlanar64x32Tile2m8ka 6).convert
          exampleFormats exampleTileRamp 130 34 0 0 129 33 (constMem 0) 130 34 0 0 129 33
        = some (status_t.OK, c', out)
      ∧ (∀ x y, x < 130 → y < 34 →
        load8 out (2 * (y * 130 + x)) = specTilePixel exampleTileRamp 130 34 x y % 256
        ∧ load8 out (2 * (y * 130 + x) + 1) = specTilePixel exampleTileRamp 130 34 x y / 256)
      ∧ load8 (constMem 0) (2 * (33 * 130 + 128)) = 0
      ∧ load8 (constMem 0) (2 * (33 * 130 + 128) + 1) = 0
      ∧ load8 out (2 * (33 * 130 + 128)) = 0xE5
      ∧ load8 out (2 * (33 * 130 + 128) + 1) = 0x5F := by
  obtain ⟨c', out, he, hp⟩ := convert_tiled_pixels exampleFormats
    (ColorConverter.create QOMX_COLOR_FormatYUV420PackedSemiPlanar64x32Tile2m8ka 6)
    exampleTileRamp (constMem 0) 130 34 0 0 129 33 130 34 0 0 129 33 rfl rfl (by decide)
    (by decide) (by decide) (by decide) (by decide) (Or.inl rfl) (by decide) (by decide)
    (by decide) (by decide) (by decide) (by decide)
  have hv : specTilePixel exampleTileRamp 130 34 128 33 = 0x5FE5 := by decide
  have hq := hp 128 33 (by decide) (by decide)
  rw [hv] at hq
  exact ⟨c', out, he, hp, rfl, rfl, hq.1, hq.2⟩

/-! ## The zigzag numbering is a bijection -/

theorem blockSlot_odd (bx by_ nby : Nat) (h : by_ % 2 = 1) :
    blockSlot bx by_ nby = 2 + (bx + andNot3 bx) := by
  unfold blockSlot
  rw [if_neg (by omega)]

theorem blockSlot_last (bx by_ nby : Nat) (h0 : by_ % 2 = 0)
    (hl : nby % 2 = 1 ∧ by_ = nby - 1) : blockSlot bx by_ nby = bx := by
  unfold blockSlot
  rw [if_pos h0, if_pos hl]

theorem blockSlot_even (bx by_ nby : Nat) (h0 : by_ % 2 = 0)
    (hl : ¬ (nby % 2 = 1 ∧ by_ = nby - 1)) :
    blockSlot bx by_ nby = bx + andNot3 (bx + 2) := by
  unfold blockSlot
  rw [if_pos h0, if_neg hl]

theorem blockNum_pair (bx by_ nbx nby : Nat) (h1 : 1 ≤ nby) (hM : nby < SIZE_MOD) :
    nv12TileGetTiledMemBlockNum bx by_ nbx nby
      = (by_ / 2) * (2 * nbx) + blockSlot bx by_ nby := by
  unfold nv12TileGetTiledMemBlockNum
  simp only [Nat.and_one_is_mod]
  rw [subSz_eq nby 1 h1 hM]
  by_cases hp : by_ % 2 = 0
  · have e : by_ / 2 * 2 = by_ := by omega
    rw [if_pos hp, ← Nat.mul_assoc, e]
    by_cases hl : nby % 2 = 1 ∧ by_ = nby - 1
    · rw [if_pos ⟨by omega, hl.2⟩, blockSlot_last bx by_ nby hp hl]
    · rw [if_neg (fun h => hl ⟨by omega, h.2⟩), blockSlot_even bx by_ nby hp hl]
  · have e : by_ / 2 * 2 = andNot1 by_ := by
      unfold andNot1
      omega
    rw [if_neg hp, ← Nat.mul_assoc, e, blockSlot_odd bx by_ nby (by omega)]
    omega

theorem blockSlot_lt (bx by_ nbx nby : Nat) (hx : nbx % 2 = 0) (hbx : bx < nbx) :
    blockSlot bx by_ nby < 2 * nbx
    ∧ (by_ % 2 = 0 → nby % 2 = 1 → by_ = nby - 1 → blockSlot bx by_ nby < nbx) := by
  constructor
  · by_cases h0 : by_ % 2 = 0
    · by_cases hl : nby % 2 = 1 ∧ by_ = nby - 1
      · rw [blockSlot_last bx by_ nby h0 hl]
        omega
      · rw [blockSlot_even bx by_ nby h0 hl]
        unfold andNot3
        omega
    · rw [blockSlot_odd bx by_ nby (by omega)]
      unfold andNot3
      omega
  · intro h0 h1 h2
    rw [blockSlot_last bx by_ nby h0 ⟨h1, h2⟩]
    exact hbx

theorem blockSlot_inj (bx by_ bx' by' nby : Nat) (hby : by_ < nby) (hby' : by' < nby)
    (hp : by_ / 2 = by' / 2) (hs : blockSlot bx by_ nby = blockSlot bx' by' nby) :
    bx = bx' ∧ by_ = by' := by
  by_cases h0 : by_ % 2 = 0
  · by_cases h0' : by' % 2 = 0
    · have e : by_ = by' := by omega
      subst e
      by_cases hl : nby % 2 = 1 ∧ by_ = nby - 1
      · rw [blockSlot_last bx by_ nby h0 hl, blockSlot_last bx' by_ nby h0 hl] at hs
        exact ⟨hs, rfl⟩
      · rw [blockSlot_even bx by_ nby h0 hl, blockSlot_even bx' by_ nby h0 hl] at hs
        unfold andNot3 at hs
        exact ⟨by omega, rfl⟩
    · rw [blockSlot_even bx by_ nby h0 (by omega),
        blockSlot_odd bx' by' nby (by omega)] at hs
      unfold andNot3 at hs
      omega
  · by_cases h0' : by' % 2 = 0
    · rw [blockSlot_odd bx by_ nby (by omega),
        blockSlot_even bx' by' nby h0' (by omega)] at hs
      unfold andNot3 at hs
      omega
    · rw [blockSlot_odd bx by_ nby (by omega), blockSlot_odd bx' by' nby (by omega)] at hs
      unfold andNot3 at hs
      exact ⟨by omega, by omega⟩

theorem blockNum_lt (bx by_ nbx nby : Nat) (hx : nbx % 2 = 0) (h1 : 1 ≤ nby)
    (hM : nby < SIZE_MOD) (hbx : bx < nbx) (hby : by_ < nby) :
    nv12TileGetTiledMemBlockNum bx by_ nbx nby < nbx * nby := by
  rw [blockNum_pair bx by_ nbx nby h1 hM]
  obtain ⟨s1, s2⟩ := blockSlot_lt bx by_ nbx nby hx hbx
  by_cases hl : by_ % 2 = 0 ∧ nby % 2 = 1 ∧ by_ = nby - 1
  · have s3 := s2 hl.1 hl.2.1 hl.2.2
    have e : by_ / 2 * 2 = by_ := by omega
    have e2 : nbx * nby = by_ * nbx + nbx := by
      have : nby = by_ + 1 := by omega
      rw [this, Nat.mul_succ, Nat.mul_comm]
    rw [← Nat.mul_assoc, e, e2]
    omega
  · have hk : (by_ / 2 + 1) * 2 ≤ nby := by omega
    have hm : (by_ / 2 + 1) * 2 * nbx ≤ nby * nbx := Nat.mul_le_mul_right nbx hk
    have e3 : (by_ / 2 + 1) * 2 * nbx = by_ / 2 * (2 * nbx) + 2 * nbx := by ring
    rw [e3, Nat.mul_comm nby nbx] at hm
    omega

/-- Claim C23: the zigzag block numbering is a bijection on the grid.  For every even
`nbx >= 2` and every `nby >= 1` (with the block count `nbx*nby` representable in
`size_t`), `nv12TileGetTiledMemBlockNum(bx, by, nbx, nby)` is less than `nbx*nby` for
every `bx < nbx`, `by < nby`; two grid positions with the same block number are the same
position; and every number below `nbx*nby` is the block number of a grid position. -/
theorem nv12TileGetTiledMemBlockNum_bijection (nbx nby : Nat) (hx : nbx % 2 = 0)
    (hx2 : 2 ≤ nbx) (hy : 1 ≤ nby) (hfit : nbx * nby < SIZE_MOD) :
    (∀ bx by_, bx < nbx → by_ < nby →
      nv12TileGetTiledMemBlockNum bx by_ nbx nby < nbx * nby)
    ∧ (∀ bx by_ bx' by', bx < nbx → by_ < nby → bx' < nbx → by' < nby →
      nv12TileGetTiledMemBlockNum bx by_ nbx nby
        = nv12TileGetTiledMemBlockNum bx' by' nbx nby → bx = bx' ∧ by_ = by')
    ∧ (∀ n, n < nbx * nby → ∃ bx by_, bx < nbx ∧ by_ < nby
      ∧ nv12TileGetTiledMemBlockNum bx by_ nbx nby = n) := by
  have hM : nby < SIZE_MOD := by
    have : 1 * nby ≤ nbx * nby := Nat.mul_le_mul_right nby (by omega)
    omega
  have hlt : ∀ bx by_, bx < nbx → by_ < nby →
      nv12TileGetTiledMemBlockNum bx by_ nbx nby < nbx * nby :=
    fun bx by_ hbx hby => blockNum_lt bx by_ nbx nby hx hy hM hbx hby
  have hinj : ∀ bx by_ bx' by', bx < nbx → by_ < nby → bx' < nbx → by' < nby →
      nv12TileGetTiledMemBlockNum bx by_ nbx nby
        = nv12TileGetTiledMemBlockNum bx' by' nbx nby → bx = bx' ∧ by_ = by' := by
    intro bx by_ bx' by' hbx hby hbx' hby' he
    rw [blockNum_pair bx by_ nbx nby hy hM, blockNum_pair bx' by' nbx nby hy hM] at he
    obtain ⟨hp, hs⟩ := mul_add_inj (2 * nbx) _ _ _ _
      (blockSlot_lt bx by_ nbx nby hx hbx).1 (blockSlot_lt bx' by' nbx nby hx hbx').1 he
    exact blockSlot_inj bx by_ bx' by' nby hby hby' hp hs
  refine ⟨hlt, hinj, ?_⟩
  have hbij : Function.Bijective
      (fun p : Fin nbx × Fin nby =>
        (⟨nv12TileGetTiledMemBlockNum p.1.val p.2.val nbx nby,
          hlt p.1.val p.2.val p.1.isLt p.2.isLt⟩ : Fin (nbx * nby))) := by
    rw [Fintype.bijective_iff_injective_and_card]
    constructor
    · intro p q hpq
      have he := congrArg Fin.val hpq
      obtain ⟨e1, e2⟩ := hinj p.1.val p.2.val q.1.val q.2.val p.1.isLt p.2.isLt q.1.isLt
        q.2.isLt he
      exact Prod.ext (Fin.ext e1) (Fin.ext e2)
    · simp
  intro n hn
  obtain ⟨p, hp⟩ := hbij.2 ⟨n, hn⟩
  exact ⟨p.1.val, p.2.val, p.1.isLt, p.2.isLt, congrArg Fin.val hp⟩

/-- Witness for C23: the 4x3 grid. -/
theorem nv12TileGetTiledMemBlockNum_bijection_witness :
    4 % 2 = 0 ∧ 2 ≤ 4 ∧ 1 ≤ 3
    ∧ ((∀ bx by_, bx < 4 → by_ < 3 → nv12TileGetTiledMemBlockNum bx by_ 4 3 < 4 * 3)
      ∧ (∀ bx by_ bx' by', bx < 4 → by_ < 3 → bx' < 4 → by' < 3 →
        nv12TileGetTiledMemBlockNum bx by_ 4 3
          = nv12TileGetTiledMemBlockNum bx' by' 4 3 → bx = bx' ∧ by_ = by')
      ∧ (∀ n, n < 4 * 3 → ∃ bx by_, bx < 4 ∧ by_ < 3
        ∧ nv12TileGetTiledMemBlockNum bx by_ 4 3 = n)) :=
  ⟨by decide, by decide, by decide,
    nv12TileGetTiledMemBlockNum_bijection 4 3 (by decide) (by decide) (by decide)
      (by decide)⟩

/-! ## The luma section size -/

/-- Claim C22: in `convertNV12Tile`, for every `width >= 1` and `height >= 1` (with the
rounded size representable in `size_t`), the luma section size `size_y`, which is the
offset of the chroma plane (`src_uv = src_y + size_y`), is the smallest multiple of the
block-group size `8192 = 4 * 64 * 32` that is at least `nbx * nby_y * 2048`, where
`nbx = (((width-1)/64+1)+1) & ~1` and `nby_y = (height-1)/32+1`. -/
theorem tileSizeY_smallest_multiple (w h : Nat) (hw1 : 1 ≤ w) (hwM : w < SIZE_MOD)
    (hh1 : 1 ≤ h) (hhM : h < SIZE_MOD)
    (hfit : andNot1 (((w - 1) / 64 + 1) + 1) * ((h - 1) / 32 + 1) * 2048 + 8191 < SIZE_MOD) :
    NV12TILE_BLOCK_GROUP_SIZE = 8192 ∧ 8192 = 4 * 64 * 32
    ∧ tileBlockUV w h 0 0 = tileSizeY w h
    ∧ 8192 ∣ tileSizeY w h
    ∧ andNot1 (((w - 1) / 64 + 1) + 1) * ((h - 1) / 32 + 1) * 2048 ≤ tileSizeY w h
    ∧ ∀ m, 8192 ∣ m → andNot1 (((w - 1) / 64 + 1) + 1) * ((h - 1) / 32 + 1) * 2048 ≤ m →
        tileSizeY w h ≤ m := by
  have hs : tileSizeY w h
      = (andNot1 (((w - 1) / 64 + 1) + 1) * ((h - 1) / 32 + 1) * 2048 + 8191) / 8192 * 8192 :=
    tileSizeY_eq_spec w h hw1 hwM hh1 hhM (by
      unfold specNbx specAbx specNbyY
      omega)
  have hb : tileBlockUV w h 0 0 = tileSizeY w h := by
    unfold tileBlockUV nv12TileGetTiledMemBlockNum andNot3
    simp
  rw [hb, hs]
  generalize andNot1 (((w - 1) / 64 + 1) + 1) * ((h - 1) / 32 + 1) * 2048 = s
  refine ⟨rfl, rfl, rfl, Nat.dvd_mul_left _ _, by omega, ?_⟩
  intro m hm hle
  obtain ⟨k, rfl⟩ := hm
  omega

/-- Witness for C22: a 64x32 frame, where `nbx * nby_y * 2048 = 4096` and `size_y = 8192`. -/
theorem tileSizeY_smallest_multiple_witness :
    1 ≤ 64 ∧ 1 ≤ 32
    ∧ (NV12TILE_BLOCK_GROUP_SIZE = 8192 ∧ 8192 = 4 * 64 * 32
      ∧ tileBlockUV 64 32 0 0 = tileSizeY 64 32
      ∧ 8192 ∣ tileSizeY 64 32
      ∧ andNot1 (((64 - 1) / 64 + 1) + 1) * ((32 - 1) / 32 + 1) * 2048 ≤ tileSizeY 64 32
      ∧ ∀ m, 8192 ∣ m →
          andNot1 (((64 - 1) / 64 + 1) + 1) * ((32 - 1) / 32 + 1) * 2048 ≤ m →
          tileSizeY 64 32 ≤ m) :=
  ⟨by decide, by decide,
    tileSizeY_smallest_multiple 64 32 (by decide) (by decide) (by decide) (by decide)
      (by decide)⟩

/-! ## The 32-bit aligned converter against the standard semi-planar converter -/

theorem forLoop_sim {σ τ : Type} (R : σ → τ → Prop) (P : Nat → Prop) (n step : Nat)
    (b1 : Nat → σ → σ) (b2 : Nat → τ → τ) (hP : ∀ i, P i → P (i + step))
    (hstep : ∀ i s t, i < n → P i → R s t → R (b1 i s) (b2 i t)) (fuel : Nat) :
    ∀ (i : Nat) (s : σ) (t : τ), P i → R s t →
      R (forLoop n step b1 fuel i s) (forLoop n step b2 fuel i t) := by
  induction fuel with
  | zero => intro i s t _ h; exact h
  | succ fuel ih =>
    intro i s t hp h
    simp only [forLoop]
    split
    · next hi => exact ih (i + step) _ _ (hP i hp) (hstep i s t hi hp h)
    · exact h

theorem fullCrop_size (n : Nat) (hM : n < SIZE_MOD) :
    (subSz (subSz n 1) 0 + 1) % SIZE_MOD = n := by
  unfold subSz SIZE_MOD at *
  omega

theorem alignedRow_eq (w d : Nat) (hw : w % 2 = 0) (v : Nat → Nat × Nat) (fuel : Nat) :
    ∀ (x0 : Nat) (m : Mem), x0 % 2 = 0 →
      forLoop w 2
        (fun x m =>
          if x > w then m
          else store32 m (2 * (d + x / 2)) (((v x).2 <<< 16) ||| (v x).1))
        fuel x0 m
      = forLoop w 2 (fun x m => storePair m (2 * d) x w (v x).1 (v x).2) fuel x0 m := by
  intro x0 m hx0
  exact forLoop_sim (fun (a b : Mem) => a = b) (fun i => i % 2 = 0) w 2 _ _
    (fun i hi => by omega)
    (fun i s t hi hp hst => by
      have e : 2 * (d + i / 2) = 2 * d + i := by omega
      show (if i > w then s else store32 s (2 * (d + i / 2)) (((v i).2 <<< 16) ||| (v i).1))
        = storePair t (2 * d) i w (v i).1 (v i).2
      unfold storePair
      rw [if_neg (by omega), if_pos (by omega), e, hst])
    fuel x0 m m hx0 rfl

/-- Claim C21: the aligned variant agrees with the standard semi-planar converter.  For
every even width `w` and every height `h` (both representable in `size_t`, as is
`2*w`), `convertYUV420SemiPlanar` with source and destination both `w x h` and both crop
rectangles `(0, 0, w-1, h-1)` (the subtractions in `size_t`) returns `OK`, and
`convertYUV420SemiPlanar32Aligned(w, h, src, 0, dst, 2*w, alignedWidth = w)` returns
with the converter and the destination buffer in exactly the state that call
produces. -/
theorem convertYUV420SemiPlanar32Aligned_agrees (c : ColorConverter)
    (srcBits dstBits : Mem) (w h : Nat) (hw : w % 2 = 0) (hwM : 2 * w < SIZE_MOD)
    (hhM : h < SIZE_MOD) :
    (c.convertYUV420SemiPlanar ⟨srcBits, w, h, 0, 0, subSz w 1, subSz h 1⟩
        ⟨dstBits, w, h, 0, 0, subSz w 1, subSz h 1⟩).1 = status_t.OK
    ∧ c.convertYUV420SemiPlanar32Aligned w h srcBits 0 dstBits (2 * w) w
      = some ((c.convertYUV420SemiPlanar ⟨srcBits, w, h, 0, 0, subSz w 1, subSz h 1⟩
            ⟨dstBits, w, h, 0, 0, subSz w 1, subSz h 1⟩).2.1,
          (c.convertYUV420SemiPlanar ⟨srcBits, w, h, 0, 0, subSz w 1, subSz h 1⟩
            ⟨dstBits, w, h, 0, 0, subSz w 1, subSz h 1⟩).2.2) := by
  have hcw : (subSz (subSz w 1) 0 + 1) % SIZE_MOD = w := fullCrop_size w (by omega)
  have hch : (subSz (subSz h 1) 0 + 1) % SIZE_MOD = h := fullCrop_size h hhM
  have hsup : cropSupported ⟨srcBits, w, h, 0, 0, subSz w 1, subSz h 1⟩
      ⟨dstBits, w, h, 0, 0, subSz w 1, subSz h 1⟩ = true :=
    cropSupported_of _ _ w h rfl hcw hcw hch hch
  have h3 : ¬ ((2 * w) &&& 3 ≠ 0) := by
    have e : (3 : Nat) = 2 ^ 2 - 1 := by norm_num
    rw [e, Nat.and_pow_two_sub_one_eq_mod]
    omega
  have hstd : c.convertYUV420SemiPlanar ⟨srcBits, w, h, 0, 0, subSz w 1, subSz h 1⟩
        ⟨dstBits, w, h, 0, 0, subSz w 1, subSz h 1⟩
      = (status_t.OK, c.initClip.1,
          (cropLoop w h w (semiPair c.initClip.2 srcBits) (semiNext w)
            ⟨dstBits, 0, ⟨0, w * h⟩⟩).out) := by
    unfold ColorConverter.convertYUV420SemiPlanar
    simp only
    rw [if_neg (not_not.2 hsup)]
    simp only [BitmapParams.cropWidth, BitmapParams.cropHeight, hcw, hch, Nat.zero_mul,
      Nat.zero_add, Nat.add_zero]
  have hal : c.convertYUV420SemiPlanar32Aligned w h srcBits 0 dstBits (2 * w) w
      = some (c.initClip.1,
          (forLoop h 1
            (fun y (s : RowState SemiPtrs) =>
              (⟨forLoop w 2
                  (fun x m =>
                    if x > w then m
                    else store32 m (2 * (s.dst_ptr + x / 2))
                      (((semiPair c.initClip.2 srcBits s.ptrs x).2 <<< 16)
                        ||| (semiPair c.initClip.2 srcBits s.ptrs x).1))
                  w 0 s.out,
                s.dst_ptr + 2 * w / 4,
                semiNext w y s.ptrs⟩ : RowState SemiPtrs))
            h 0 ⟨dstBits, 0, ⟨0, w * h⟩⟩).out) := by
    unfold ColorConverter.convertYUV420SemiPlanar32Aligned
    rw [if_neg (not_not.2 rfl), if_neg (not_not.2 (by omega)), if_neg h3]
    simp only [Nat.zero_add]
  have hsim := forLoop_sim
    (fun (s t : RowState SemiPtrs) =>
      s.out = t.out ∧ t.dst_ptr = 2 * s.dst_ptr ∧ s.ptrs = t.ptrs)
    (fun _ => True) h 1
    (fun y (s : RowState SemiPtrs) =>
      (⟨forLoop w 2
          (fun x m =>
            if x > w then m
            else store32 m (2 * (s.dst_ptr + x / 2))
              (((semiPair c.initClip.2 srcBits s.ptrs x).2 <<< 16)
                ||| (semiPair c.initClip.2 srcBits s.ptrs x).1))
          w 0 s.out,
        s.dst_ptr + 2 * w / 4,
        semiNext w y s.ptrs⟩ : RowState SemiPtrs))
    (fun y (s : RowState SemiPtrs) =>
      (⟨forLoop w 2
          (fun x m => storePair m s.dst_ptr x w (semiPair c.initClip.2 srcBits s.ptrs x).1
            (semiPair c.initClip.2 srcBits s.ptrs x).2)
          w 0 s.out,
        s.dst_ptr + w, semiNext w y s.ptrs⟩ : RowState SemiPtrs))
    (fun _ _ => trivial)
    (fun y s t _ _ hst => by
      obtain ⟨r1, r2, r3⟩ := hst
      refine ⟨?_, ?_, ?_⟩
      · show forLoop w 2 _ w 0 s.out = forLoop w 2 _ w 0 t.out
        rw [alignedRow_eq w s.dst_ptr hw (semiPair c.initClip.2 srcBits s.ptrs) w 0 s.out rfl,
          r1, r2, r3]
      · show t.dst_ptr + w = 2 * (s.dst_ptr + 2 * w / 4)
        omega
      · show semiNext w y s.ptrs = semiNext w y t.ptrs
        rw [r3])
    h 0 ⟨dstBits, 0, ⟨0, w * h⟩⟩ ⟨dstBits, 0, ⟨0, w * h⟩⟩ trivial ⟨rfl, rfl, rfl⟩
  rw [hstd, hal]
  refine ⟨rfl, ?_⟩
  unfold cropLoop
  rw [hsim.1]

/-- Witness for C21: the 2x2 frame `exampleYUV` converted into an all-zero buffer. -/
theorem convertYUV420SemiPlanar32Aligned_agrees_witness :
    2 % 2 = 0
    ∧ ((ColorConverter.create 21 6).convertYUV420SemiPlanar
        ⟨exampleYUV, 2, 2, 0, 0, subSz 2 1, subSz 2 1⟩
        ⟨constMem 0, 2, 2, 0, 0, subSz 2 1, subSz 2 1⟩).1 = status_t.OK
    ∧ (ColorConverter.create 21 6).convertYUV420SemiPlanar32Aligned 2 2 exampleYUV 0
        (constMem 0) (2 * 2) 2
      = some (((ColorConverter.create 21 6).convertYUV420SemiPlanar
            ⟨exampleYUV, 2, 2, 0, 0, subSz 2 1, subSz 2 1⟩
            ⟨constMem 0, 2, 2, 0, 0, subSz 2 1, subSz 2 1⟩).2.1,
          ((ColorConverter.create 21 6).convertYUV420SemiPlanar
            ⟨exampleYUV, 2, 2, 0, 0, subSz 2 1, subSz 2 1⟩
            ⟨constMem 0, 2, 2, 0, 0, subSz 2 1, subSz 2 1⟩).2.2) :=
  ⟨by decide,
    convertYUV420SemiPlanar32Aligned_agrees (ColorConverter.create 21 6) exampleYUV
      (constMem 0) 2 2 (by decide) (by decide) (by decide)⟩

/-! ## Source reads of the tiled converter -/

theorem forLoop_congr {σ : Type} (n step : Nat) (b1 b2 : Nat → σ → σ)
    (Inv : Nat → σ → Prop)
    (hstep : ∀ i s, i < n → Inv i s → b1 i s = b2 i s ∧ Inv (i + step) (b1 i s))
    (fuel : Nat) :
    ∀ (i : Nat) (s : σ), Inv i s →
      forLoop n step b1 fuel i s = forLoop n step b2 fuel i s := by
  induction fuel with
  | zero => intro i s _; rfl
  | succ fuel ih =>
    intro i s hI
    simp only [forLoop]
    split
    · next hi =>
      obtain ⟨e, hI2⟩ := hstep i s hi hI
      rw [← e]
      exact ih (i + step) _ hI2
    · rfl

theorem nv12TileComputeRGB_congr (src1 src2 : Mem) (s : TileState)
    (blockUV blockY bw dstSkip : Nat)
    (hA : ∀ i, i < bw →
      load8 src1 (blockY + i) = load8 src2 (blockY + i)
      ∧ load8 src1 (blockUV + andNot1 i) = load8 src2 (blockUV + andNot1 i)
      ∧ load8 src1 (blockUV + (andNot1 i + 1)) = load8 src2 (blockUV + (andNot1 i + 1))) :
    nv12TileComputeRGB src1 s blockUV blockY bw dstSkip
      = nv12TileComputeRGB src2 s blockUV blockY bw dstSkip := by
  have e := forLoop_congr bw 1
    (fun i (m : Mem) =>
      store8 (store8 m (s.dstPtr + i * 2)
        (pixRGB s.conv.initClip.2 (load8 src1 (blockY + i)) (load8 src1 (blockUV + andNot1 i))
          (load8 src1 (blockUV + (andNot1 i + 1))) &&& 0xFF))
        (s.dstPtr + (i * 2 + 1))
        ((pixRGB s.conv.initClip.2 (load8 src1 (blockY + i))
          (load8 src1 (blockUV + andNot1 i))
          (load8 src1 (blockUV + (andNot1 i + 1))) >>> 8) &&& 0xFF))
    (fun i (m : Mem) =>
      store8 (store8 m (s.dstPtr + i * 2)
        (pixRGB s.conv.initClip.2 (load8 src2 (blockY + i)) (load8 src2 (blockUV + andNot1 i))
          (load8 src2 (blockUV + (andNot1 i + 1))) &&& 0xFF))
        (s.dstPtr + (i * 2 + 1))
        ((pixRGB s.conv.initClip.2 (load8 src2 (blockY + i))
          (load8 src2 (blockUV + andNot1 i))
          (load8 src2 (blockUV + (andNot1 i + 1))) >>> 8) &&& 0xFF))
    (fun _ _ => True)
    (fun i m hi _ => by
      obtain ⟨a1, a2, a3⟩ := hA i hi
      refine ⟨?_, trivial⟩
      simp only [a1, a2, a3])
    bw 0 s.out trivial
  exact congrArg
    (fun o => (⟨s.conv.initClip.1, o, s.dstPtr + dstSkip⟩ : TileState)) e

theorem nv12TileTraverseBlock_congr (src1 src2 : Mem) (s : TileState)
    (blockY blockUV bw bh dstSkip : Nat)
    (hA : ∀ r i, r < bh → i < bw → BlockAgree src1 src2 blockY blockUV r i) :
    nv12TileTraverseBlock src1 s blockY blockUV bw bh dstSkip
      = nv12TileTraverseBlock src2 s blockY blockUV bw bh dstSkip := by
  have e := forLoop_congr bh 1
    (fun row (r : BlockRows) =>
      if (row &&& 1) ≠ 0 then
        (⟨nv12TileComputeRGB src1 r.st r.block_UV r.blockY bw dstSkip,
          r.blockY + NV12TILE_BLOCK_WIDTH, r.blockUV + NV12TILE_BLOCK_WIDTH,
          r.block_UV⟩ : BlockRows)
      else
        ⟨nv12TileComputeRGB src1 r.st r.blockUV r.blockY bw dstSkip,
          r.blockY + NV12TILE_BLOCK_WIDTH, r.blockUV, r.blockUV⟩)
    (fun row (r : BlockRows) =>
      if (row &&& 1) ≠ 0 then
        (⟨nv12TileComputeRGB src2 r.st r.block_UV r.blockY bw dstSkip,
          r.blockY + NV12TILE_BLOCK_WIDTH, r.blockUV + NV12TILE_BLOCK_WIDTH,
          r.block_UV⟩ : BlockRows)
      else
        ⟨nv12TileComputeRGB src2 r.st r.blockUV r.blockY bw dstSkip,
          r.blockY + NV12TILE_BLOCK_WIDTH, r.blockUV, r.blockUV⟩)
    (fun r st => st.blockY = blockY + r * 64 ∧ st.blockUV = blockUV + (r / 2) * 64
      ∧ (r % 2 = 1 → st.block_UV = blockUV + (r / 2) * 64))
    (by
      intro r st hr hI
      obtain ⟨i3, i4, i5⟩ := hI
      simp only [Nat.and_one_is_mod, NV12TILE_BLOCK_WIDTH]
      by_cases hodd : r % 2 = 1
      · have hne : r % 2 ≠ 0 := by omega
        rw [if_pos hne, if_pos hne]
        have hc := nv12TileComputeRGB_congr src1 src2 st.st st.block_UV st.blockY bw dstSkip
          (by
            intro i hi
            rw [i3, i5 hodd]
            exact hA r i hr hi)
        rw [hc]
        refine ⟨rfl, ?_, ?_, ?_⟩
        · simp only
          rw [i3, Nat.succ_mul]
          omega
        · simp only
          have e : (r + 1) / 2 = r / 2 + 1 := by omega
          rw [i4, e, Nat.succ_mul]
          omega
        · intro h2
          omega
      · have he : ¬ (r % 2 ≠ 0) := by omega
        rw [if_neg he, if_neg he]
        have hc := nv12TileComputeRGB_congr src1 src2 st.st st.blockUV st.blockY bw dstSkip
          (by
            intro i hi
            rw [i3, i4]
            exact hA r i hr hi)
        rw [hc]
        have e : (r + 1) / 2 = r / 2 := by omega
        refine ⟨rfl, ?_, ?_, ?_⟩
        · simp only
          rw [i3, Nat.succ_mul]
          omega
        · simp only
          rw [i4, e]
        · intro _
          simp only
          rw [i4, e])
    bh 0 (⟨s, blockY, blockUV, 0⟩ : BlockRows)
    (by
      refine ⟨?_, ?_, ?_⟩
      · simp
      · simp
      · intro h0
        omega)
  exact congrArg BlockRows.st e

theorem tileBlock_congr (src1 src2 : Mem) (w h dstSkip by_ rows_left bx : Nat)
    (s : TileState × Nat)
    (hA : ∀ r i, r < 32 → i < 64 →
      BlockAgree src1 src2 (tileBlockY w h bx by_) (tileBlockUV w h bx by_) r i) :
    tileBlock w h src1 dstSkip by_ rows_left bx s
      = tileBlock w h src2 dstSkip by_ rows_left bx s := by
  have hbw : (if s.2 > NV12TILE_BLOCK_WIDTH then NV12TILE_BLOCK_WIDTH else s.2) ≤ 64 := by
    unfold NV12TILE_BLOCK_WIDTH
    split <;> omega
  have hbh : (if rows_left > NV12TILE_BLOCK_HEIGHT then NV12TILE_BLOCK_HEIGHT
      else rows_left) ≤ 32 := by
    unfold NV12TILE_BLOCK_HEIGHT
    split <;> omega
  exact congrArg (fun t => (t, subSz s.2 NV12TILE_BLOCK_WIDTH))
    (nv12TileTraverseBlock_congr src1 src2
      ⟨s.1.conv, s.1.out,
        by_ * NV12TILE_BLOCK_HEIGHT * w * 2 + bx * NV12TILE_BLOCK_WIDTH * 2⟩
      (tileBlockY w h bx by_) (tileBlockUV w h bx by_)
      (if s.2 > NV12TILE_BLOCK_WIDTH then NV12TILE_BLOCK_WIDTH else s.2)
      (if rows_left > NV12TILE_BLOCK_HEIGHT then NV12TILE_BLOCK_HEIGHT else rows_left)
      dstSkip (fun r i hr hi => hA r i (by omega) (by omega)))

theorem tileFrame_congr (src1 src2 : Mem) (w h dstSkip : Nat) (ny fy nx fx : Nat)
    (s0 : TileState × Nat)
    (hA : ∀ bx by_ r i, bx < nx → by_ < ny → r < 32 → i < 64 →
      BlockAgree src1 src2 (tileBlockY w h bx by_) (tileBlockUV w h bx by_) r i) :
    forLoop ny 1
        (fun by_ (s : TileState × Nat) =>
          ((forLoop nx 1 (tileBlock w h src1 dstSkip by_ s.2) fx 0 (s.1, w)).1,
            subSz s.2 NV12TILE_BLOCK_HEIGHT))
        fy 0 s0
      = forLoop ny 1
        (fun by_ (s : TileState × Nat) =>
          ((forLoop nx 1 (tileBlock w h src2 dstSkip by_ s.2) fx 0 (s.1, w)).1,
            subSz s.2 NV12TILE_BLOCK_HEIGHT))
        fy 0 s0 :=
  forLoop_congr ny 1 _ _ (fun _ _ => True)
    (fun by_ s hby _ => by
      refine ⟨?_, trivial⟩
      have e := forLoop_congr nx 1 (tileBlock w h src1 dstSkip by_ s.2)
        (tileBlock w h src2 dstSkip by_ s.2) (fun _ _ => True)
        (fun bx t hbx _ =>
          ⟨tileBlock_congr src1 src2 w h dstSkip by_ s.2 bx t
            (fun r i hr hi => hA bx by_ r i hbx hby hr hi), trivial⟩)
        fx 0 (s.1, w) trivial
      show ((forLoop nx 1 (tileBlock w h src1 dstSkip by_ s.2) fx 0 (s.1, w)).1,
          subSz s.2 NV12TILE_BLOCK_HEIGHT)
        = ((forLoop nx 1 (tileBlock w h src2 dstSkip by_ s.2) fx 0 (s.1, w)).1,
          subSz s.2 NV12TILE_BLOCK_HEIGHT)
      rw [e])
    fy 0 s0 trivial

theorem convertNV12Tile_ok_eq (c : ColorConverter) (w h : Nat) (srcBits dstBits : Mem)
    (srcSkip dstSkip : Nat) (h1 : ¬ srcSkip ≠ 0) (h2 : ¬ ¬ (dstSkip ≥ w * 2))
    (h3 : ¬ (dstSkip &&& 3) ≠ 0) :
    c.convertNV12Tile w h srcBits srcSkip dstBits dstSkip
      = some (status_t.OK,
          (forLoop (tileNbyY h) 1
            (fun by_ (s : TileState × Nat) =>
              ((forLoop (tileAbx w) 1 (tileBlock w h srcBits dstSkip by_ s.2)
                  (tileAbx w) 0 (s.1, w)).1,
                subSz s.2 NV12TILE_BLOCK_HEIGHT))
            (tileNbyY h) 0 (⟨c, dstBits, 0⟩, h)).1.conv,
          (forLoop (tileNbyY h) 1
            (fun by_ (s : TileState × Nat) =>
              ((forLoop (tileAbx w) 1 (tileBlock w h srcBits dstSkip by_ s.2)
                  (tileAbx w) 0 (s.1, w)).1,
                subSz s.2 NV12TILE_BLOCK_HEIGHT))
            (tileNbyY h) 0 (⟨c, dstBits, 0⟩, h)).1.out) := by
  unfold ColorConverter.convertNV12Tile
  rw [if_neg h1, if_neg h2, if_neg h3]

theorem convertNV12Tile_congr (c : ColorConverter) (w h : Nat) (src1 src2 dstBits : Mem)
    (srcSkip dstSkip : Nat)
    (hA : ∀ bx by_ r i, bx < tileAbx w → by_ < tileNbyY h → r < 32 → i < 64 →
      BlockAgree src1 src2 (tileBlockY w h bx by_) (tileBlockUV w h bx by_) r i) :
    c.convertNV12Tile w h src1 srcSkip dstBits dstSkip
      = c.convertNV12Tile w h src2 srcSkip dstBits dstSkip := by
  by_cases h1 : srcSkip ≠ 0
  · unfold ColorConverter.convertNV12Tile
    rw [if_pos h1, if_pos h1]
  · by_cases h2 : ¬ (dstSkip ≥ w * 2)
    · unfold ColorConverter.convertNV12Tile
      rw [if_neg h1, if_pos h2, if_neg h1, if_pos h2]
    · by_cases h3 : (dstSkip &&& 3) ≠ 0
      · unfold ColorConverter.convertNV12Tile
        rw [if_neg h1, if_neg h2, if_pos h3, if_neg h1, if_neg h2, if_pos h3]
      · rw [convertNV12Tile_ok_eq c w h src1 dstBits srcSkip dstSkip h1 h2 h3,
          convertNV12Tile_ok_eq c w h src2 dstBits srcSkip dstSkip h1 h2 h3,
          tileFrame_congr src1 src2 w h dstSkip (tileNbyY h) (tileNbyY h) (tileAbx w)
            (tileAbx w) (⟨c, dstBits, 0⟩, h) hA]

theorem tileNbx_facts (w : Nat) (hw1 : 1 ≤ w) (hwM : w < SIZE_MOD) :
    tileNbx w % 2 = 0 ∧ tileAbx w ≤ tileNbx w ∧ 2 ≤ tileNbx w := by
  unfold tileNbx andNot1
  rw [tileAbx_eq w hw1 hwM]
  omega

theorem tileSizeY_ge (w h : Nat) (hw1 : 1 ≤ w) (hwM : w < SIZE_MOD)
    (hh1 : 1 ≤ h) (hhM : h < SIZE_MOD)
    (hfit : tileNbx w * tileNbyY h * 2048 < SIZE_MOD) :
    tileNbx w * tileNbyY h * 2048 ≤ tileSizeY w h := by
  have e1 := tileNbx_eq_spec w hw1 hwM
  have e2 : tileNbyY h = specNbyY h := tileNbyY_eq h hh1 hhM
  rw [tileSizeY_eq_spec w h hw1 hwM hh1 hhM (by rw [← e1, ← e2]; exact hfit), e1, e2]
  unfold specSizeY
  omega

theorem tileChromaRow_lt (h by_ : Nat) (hhe : h % 2 = 0) (hh2 : 2 ≤ h) (hhM : h < SIZE_MOD)
    (hby : by_ < tileNbyY h) :
    by_ / 2 < tileNbyUV h ∧ 1 ≤ tileNbyUV h ∧ tileNbyUV h < SIZE_MOD := by
  rw [tileNbyY_eq h (by omega) hhM] at hby
  unfold tileNbyUV NV12TILE_BLOCK_HEIGHT
  rw [subSz_eq _ _ (by omega) (by omega)]
  unfold SIZE_MOD at *
  omega

theorem tile_read_bounds (w h bx by_ r i : Nat) (hw1 : 1 ≤ w) (hwM : w < SIZE_MOD)
    (hhe : h % 2 = 0) (hh2 : 2 ≤ h) (hhM : h < SIZE_MOD)
    (hfit : tileNbx w * tileNbyY h * 2048 < SIZE_MOD)
    (hbx : bx < tileAbx w) (hby : by_ < tileNbyY h) (hr : r < 32) (hi : i < 64) :
    tileBlockY w h bx by_ + r * 64 + i < tileSizeY w h
    ∧ tileSizeY w h ≤ tileBlockUV w h bx by_ + (r / 2) * 64 + andNot1 i
    ∧ tileBlockUV w h bx by_ + (r / 2) * 64 + (andNot1 i + 1)
        < tileSizeY w h + tileNbx w * tileNbyUV h * 2048 := by
  obtain ⟨n1, n2, n3⟩ := tileNbx_facts w hw1 hwM
  obtain ⟨u1, u2, u3⟩ := tileChromaRow_lt h by_ hhe hh2 hhM hby
  have hyM : tileNbyY h < SIZE_MOD := by
    rw [tileNbyY_eq h (by omega) hhM]
    unfold SIZE_MOD at *
    omega
  have hy1 : 1 ≤ tileNbyY h := by
    rw [tileNbyY_eq h (by omega) hhM]
    omega
  have bY := blockNum_lt bx by_ (tileNbx w) (tileNbyY h) n1 hy1 hyM (by omega) hby
  have bUV := blockNum_lt bx (by_ / 2) (tileNbx w) (tileNbyUV h) n1 u2 u3 (by omega) u1
  have hge := tileSizeY_ge w h hw1 hwM (by omega) hhM hfit
  have hhalf : (if (by_ &&& 1) ≠ 0 then 2048 / 2 else 0) ≤ 1024 := by
    split <;> omega
  have e6 : NV12TILE_BLOCK_SIZE = 2048 := rfl
  unfold tileBlockY tileBlockUV andNot1
  rw [e6]
  generalize (if (by_ &&& 1) ≠ 0 then 2048 / 2 else 0) = half at hhalf ⊢
  generalize nv12TileGetTiledMemBlockNum bx by_ (tileNbx w) (tileNbyY h) = nY at bY ⊢
  generalize nv12TileGetTiledMemBlockNum bx (by_ / 2) (tileNbx w) (tileNbyUV h) = nUV
    at bUV ⊢
  generalize tileNbx w * tileNbyY h = NY at bY hge ⊢
  generalize tileNbx w * tileNbyUV h = NUV at bUV ⊢
  generalize tileSizeY w h = S at hge ⊢
  omega

/-- Claim C24: source reads of `convertNV12Tile` stay inside the tiled frame.  For every
`width >= 1` and every even `height >= 2` (with `nbx*nby_y*2048` representable in
`size_t`), where `abx`, `nbx`, `nby_y`, `nby_uv` and `size_y` are the values the function
computes: the chroma block row `by/2` of every luma block row `by < nby_y` is less than
`nby_uv`; for every block `(bx, by)` the function visits and every row `r < 32` and
column `i < 64` of it, the luma offset `block_y + r*64 + i` is less than `size_y` and
the chroma offsets `block_uv + (r/2)*64 + (i & ~1)` and the one after it are at least
`size_y` and less than `size_y + nbx*nby_uv*2048`; and the outcome of the call depends
on no source byte outside these offsets: two source buffers that agree below
`size_y + nbx*nby_uv*2048` give the same outcome, for any converter, destination buffer
and strides. -/
theorem convertNV12Tile_reads_inside_frame (w h : Nat) (hw1 : 1 ≤ w) (hwM : w < SIZE_MOD)
    (hhe : h % 2 = 0) (hh2 : 2 ≤ h) (hhM : h < SIZE_MOD)
    (hfit : tileNbx w * tileNbyY h * 2048 < SIZE_MOD) :
    (∀ by_, by_ < tileNbyY h → by_ / 2 < tileNbyUV h)
    ∧ (∀ bx by_ r i, bx < tileAbx w → by_ < tileNbyY h → r < 32 → i < 64 →
        tileBlockY w h bx by_ + r * 64 + i < tileSizeY w h
        ∧ tileSizeY w h ≤ tileBlockUV w h bx by_ + (r / 2) * 64 + andNot1 i
        ∧ tileBlockUV w h bx by_ + (r / 2) * 64 + (andNot1 i + 1)
            < tileSizeY w h + tileNbx w * tileNbyUV h * 2048)
    ∧ (∀ (c : ColorConverter) (src1 src2 dstBits : Mem) (srcSkip dstSkip : Nat),
        (∀ a, a < tileSizeY w h + tileNbx w * tileNbyUV h * 2048 → src1 a = src2 a) →
        c.convertNV12Tile w h src1 srcSkip dstBits dstSkip
          = c.convertNV12Tile w h src2 srcSkip dstBits dstSkip) := by
  refine ⟨fun by_ hby => (tileChromaRow_lt h by_ hhe hh2 hhM hby).1,
    fun bx by_ r i hbx hby hr hi =>
      tile_read_bounds w h bx by_ r i hw1 hwM hhe hh2 hhM hfit hbx hby hr hi, ?_⟩
  intro c src1 src2 dstBits srcSkip dstSkip hreg
  apply convertNV12Tile_congr
  intro bx by_ r i hbx hby hr hi
  obtain ⟨b1, b2, b3⟩ := tile_read_bounds w h bx by_ r i hw1 hwM hhe hh2 hhM hfit hbx hby
    hr hi
  have b2' : tileBlockUV w h bx by_ + (r / 2) * 64 + andNot1 i
      < tileSizeY w h + tileNbx w * tileNbyUV h * 2048 := by omega
  unfold BlockAgree
  rw [load8_val, load8_val, load8_val, load8_val, load8_val, load8_val,
    hreg _ (by omega), hreg _ b2', hreg _ b3]
  exact ⟨rfl, rfl, rfl⟩

/-- Witness for C24: a 130x66 frame (3 block columns, 3 luma block rows, 2 chroma block
rows). -/
theorem convertNV12Tile_reads_inside_frame_witness :
    1 ≤ 130 ∧ 66 % 2 = 0 ∧ 2 ≤ 66
    ∧ ((∀ by_, by_ < tileNbyY 66 → by_ / 2 < tileNbyUV 66)
      ∧ (∀ bx by_ r i, bx < tileAbx 130 → by_ < tileNbyY 66 → r < 32 → i < 64 →
          tileBlockY 130 66 bx by_ + r * 64 + i < tileSizeY 130 66
          ∧ tileSizeY 130 66 ≤ tileBlockUV 130 66 bx by_ + (r / 2) * 64 + andNot1 i
          ∧ tileBlockUV 130 66 bx by_ + (r / 2) * 64 + (andNot1 i + 1)
              < tileSizeY 130 66 + tileNbx 130 * tileNbyUV 66 * 2048)
      ∧ (∀ (c : ColorConverter) (src1 src2 dstBits : Mem) (srcSkip dstSkip : Nat),
          (∀ a, a < tileSizeY 130 66 + tileNbx 130 * tileNbyUV 66 * 2048 →
            src1 a = src2 a) →
          c.convertNV12Tile 130 66 src1 srcSkip dstBits dstSkip
            = c.convertNV12Tile 130 66 src2 srcSkip dstBits dstSkip)) :=
  ⟨by decide, by decide, by decide,
    convertNV12Tile_reads_inside_frame 130 66 (by decide) (by decide) (by decide)
      (by decide) (by decide) (by decide)⟩

end android
